import Mathlib

/-!
# wavgen: a shallow embedding of the WAV test-file generator

The definitions follow the C sources (riff.c, wavgen.c, opts.c, wf_*.c) function by
function and keep their names.  Conventions:

* unsigned machine integers are `Nat` with an explicit reduction modulo `2^w`
  wherever the C arithmetic is carried out in `w` bits;
* `int32_t` values are `Int`; conversions to and from the unsigned bit pattern are
  `to_u32` and `to_i32` (two-complement wrap-around);
* the packed RIFF structures are serialised field by field in little-endian byte
  order, which is what `fwrite` of a packed struct yields on the little-endian
  hosts the program is written for;
* an integer division or modulo by zero (a trap in C) makes the embedded function
  return `none`.
-/

namespace Wavgen

/-! ## Machine integers and bytes -/

/-- The bit pattern of an `int32_t` (also the C conversion to `uint32_t`). -/
def to_u32 (i : Int) : Nat := (i % 4294967296).toNat

/-- The `int32_t` with the given bit pattern (the conversion `(int32_t) u`). -/
def to_i32 (u : Nat) : Int :=
  if u % 4294967296 < 2147483648 then ((u % 4294967296 : Nat) : Int)
  else ((u % 4294967296 : Nat) : Int) - 4294967296

/-- Signed 32-bit wrap-around of an integer result. -/
def wrap_i32 (i : Int) : Int := to_i32 (to_u32 i)

/-- The bit pattern of an `int16_t`. -/
def to_u16 (i : Int) : Nat := (i % 65536).toNat

/-- The `int16_t` with the given bit pattern (the conversion `(int16_t) u`). -/
def to_i16 (u : Nat) : Int :=
  if u % 65536 < 32768 then ((u % 65536 : Nat) : Int) else ((u % 65536 : Nat) : Int) - 65536

/-- Byte number `k` (0 is the least significant) of a two-complement integer. -/
def byte_of (k : Nat) (v : Int) : Int := (v / 256 ^ k) % 256

/-- Two bytes, least significant first. -/
def le16 (x : Nat) : List Nat := [x % 256, x / 256 % 256]

/-- Four bytes, least significant first. -/
def le32 (x : Nat) : List Nat :=
  [x % 256, x / 256 % 256, x / 65536 % 256, x / 16777216 % 256]

/-- Read two little-endian bytes. -/
def rd16 (b0 b1 : Nat) : Nat := b0 + 256 * b1

/-- Read four little-endian bytes. -/
def rd32 (b0 b1 b2 b3 : Nat) : Nat := b0 + 256 * b1 + 65536 * b2 + 16777216 * b3

/-- The compiler builtin `__builtin_bswap32`: reverse the four bytes of a word. -/
def bswap32 (x : Nat) : Nat :=
  rd32 (x / 16777216 % 256) (x / 65536 % 256) (x / 256 % 256) (x % 256)

/-! ## The output sink (libc `FILE` and `fwrite`) -/

/-- A sequential byte sink: the bytes accepted so far and the number of bytes it
will still accept.  A write of more bytes than `room` is a short write. -/
structure FILE where
  data : List Nat
  room : Nat
deriving DecidableEq, Repr

/-- The call `fwrite(buf, 1, n, file)` with `n = buf.length`: returns the number of
bytes written and the sink afterwards. -/
def fwrite (buf : List Nat) (file : FILE) : Nat × FILE :=
  let n := min buf.length file.room
  (n, { data := file.data ++ buf.take n, room := file.room - n })

/-! ## riff.h / riff.c -/

def WAVE_FORMAT_PCM : Nat := 1
def WAVE_FORMAT_IEEE_FLOAT : Nat := 3

structure RIFF_HEADER where
  ChunkID : Nat
  ChunkSize : Nat
  FormatTag : Nat
deriving DecidableEq, Repr

structure RIFF_FMT_CHUNK where
  ChunkID : Nat
  ChunkSize : Nat
  AudioFormat : Nat
  NumChannels : Nat
  SampleRate : Nat
  ByteRate : Nat
  BlockAlign : Nat
  BitsPerSample : Nat
deriving DecidableEq, Repr

structure RIFF_EXT_FMT_CHUNK where
  ChunkID : Nat
  ChunkSize : Nat
  NumSamples : Nat
deriving DecidableEq, Repr

structure RIFF_DATA_CHUNK where
  ChunkID : Nat
  ChunkSize : Nat
deriving DecidableEq, Repr

/-- The value of `sizeof(chunk->FormatTag)`. -/
def sizeof_FormatTag : Nat := 4
/-- The value of `sizeof(struct RIFF_HEADER)` (packed). -/
def sizeof_RIFF_HEADER : Nat := 4 + 4 + 4
/-- The value of `sizeof(struct RIFF_FMT_CHUNK)` (packed). -/
def sizeof_RIFF_FMT_CHUNK : Nat := 4 + 4 + 2 + 2 + 4 + 4 + 2 + 2
/-- The value of `sizeof(struct RIFF_EXT_FMT_CHUNK)` (packed). -/
def sizeof_RIFF_EXT_FMT_CHUNK : Nat := 4 + 4 + 4
/-- The value of `sizeof(struct RIFF_DATA_CHUNK)` (packed). -/
def sizeof_RIFF_DATA_CHUNK : Nat := 4 + 4

/-- The bytes of a packed `struct RIFF_HEADER` in memory. -/
def RIFF_HEADER.bytes (c : RIFF_HEADER) : List Nat :=
  le32 c.ChunkID ++ le32 c.ChunkSize ++ le32 c.FormatTag

/-- The bytes of a packed `struct RIFF_FMT_CHUNK` in memory. -/
def RIFF_FMT_CHUNK.bytes (c : RIFF_FMT_CHUNK) : List Nat :=
  le32 c.ChunkID ++ le32 c.ChunkSize ++ le16 c.AudioFormat ++ le16 c.NumChannels
    ++ le32 c.SampleRate ++ le32 c.ByteRate ++ le16 c.BlockAlign ++ le16 c.BitsPerSample

/-- The bytes of a packed `struct RIFF_EXT_FMT_CHUNK` in memory. -/
def RIFF_EXT_FMT_CHUNK.bytes (c : RIFF_EXT_FMT_CHUNK) : List Nat :=
  le32 c.ChunkID ++ le32 c.ChunkSize ++ le32 c.NumSamples

/-- The bytes of a packed `struct RIFF_DATA_CHUNK` in memory. -/
def RIFF_DATA_CHUNK.bytes (c : RIFF_DATA_CHUNK) : List Nat :=
  le32 c.ChunkID ++ le32 c.ChunkSize

/-- riff.c `riff_init_header`; `num_data_bytes` is a `uint64_t`, the sum is formed
in 64 bits and cast to `uint32_t`. -/
def riff_init_header (num_data_bytes : Nat) (is_float_format : Bool) : RIFF_HEADER :=
  { ChunkID := bswap32 0x52494646
    FormatTag := bswap32 0x57415645
    ChunkSize :=
      if !is_float_format then
        ((sizeof_FormatTag + sizeof_RIFF_FMT_CHUNK + sizeof_RIFF_DATA_CHUNK
            + num_data_bytes) % 2 ^ 64) % 2 ^ 32
      else
        ((sizeof_FormatTag + sizeof_RIFF_FMT_CHUNK + sizeof_RIFF_EXT_FMT_CHUNK
            + sizeof_RIFF_DATA_CHUNK + num_data_bytes) % 2 ^ 64) % 2 ^ 32 }

/-- riff.c `riff_write_header`. -/
def riff_write_header (chunk : RIFF_HEADER) (file : FILE) : Bool × FILE :=
  let w := fwrite chunk.bytes file
  if w.1 ≠ sizeof_RIFF_HEADER then (false, w.2) else (true, w.2)

/-- riff.c `riff_init_format`.  The parameters `num_channels`, `bytes_per_sample` and
`bits_per_sample` are `uint16_t`: the caller's values are reduced modulo `2^16` on
entry.  `ByteRate` is a 32-bit unsigned product; `BlockAlign` is an `int` product
stored in 16 bits. -/
def riff_init_format (sample_rate : Nat) (is_float : Bool)
    (num_channels bytes_per_sample bits_per_sample : Nat) : RIFF_FMT_CHUNK :=
  let num_channels := num_channels % 2 ^ 16
  let bytes_per_sample := bytes_per_sample % 2 ^ 16
  let bits_per_sample := bits_per_sample % 2 ^ 16
  { ChunkID := bswap32 0x666d7420
    ChunkSize := 16
    AudioFormat := if is_float then WAVE_FORMAT_IEEE_FLOAT else WAVE_FORMAT_PCM
    NumChannels := num_channels
    SampleRate := sample_rate % 2 ^ 32
    ByteRate := (sample_rate % 2 ^ 32 * num_channels * bytes_per_sample) % 2 ^ 32
    BlockAlign := (num_channels * bytes_per_sample) % 2 ^ 16
    BitsPerSample := bits_per_sample }

/-- riff.c `riff_write_format`. -/
def riff_write_format (chunk : RIFF_FMT_CHUNK) (file : FILE) : Bool × FILE :=
  let w := fwrite chunk.bytes file
  if w.1 ≠ sizeof_RIFF_FMT_CHUNK then (false, w.2) else (true, w.2)

/-- riff.c `riff_init_fact`; the parameter is a `uint32_t`. -/
def riff_init_fact (num_samples : Nat) : RIFF_EXT_FMT_CHUNK :=
  { ChunkID := bswap32 0x66616374
    ChunkSize := 4
    NumSamples := num_samples % 2 ^ 32 }

/-- riff.c `riff_write_fact`. -/
def riff_write_fact (chunk : RIFF_EXT_FMT_CHUNK) (file : FILE) : Bool × FILE :=
  let w := fwrite chunk.bytes file
  if w.1 ≠ sizeof_RIFF_EXT_FMT_CHUNK then (false, w.2) else (true, w.2)

/-- riff.c `riff_init_data_hdr`; the parameter is a `uint32_t`. -/
def riff_init_data_hdr (num_data_bytes : Nat) : RIFF_DATA_CHUNK :=
  { ChunkID := bswap32 0x64617461
    ChunkSize := num_data_bytes % 2 ^ 32 }

/-- riff.c `riff_write_data_hdr`. -/
def riff_write_data_hdr (chunk : RIFF_DATA_CHUNK) (file : FILE) : Bool × FILE :=
  let w := fwrite chunk.bytes file
  if w.1 ≠ sizeof_RIFF_DATA_CHUNK then (false, w.2) else (true, w.2)

/-! ## IEEE-754 arithmetic (C `double` and `float`)

Every operation computes the exact result and rounds it once, to nearest with ties
to even (the default rounding mode); each C operation is one such operation (no
fused multiply-add, no extended precision).  The sign of a zero is not tracked: a
zero divisor is taken as `+0`, which is what an unsigned integer converted to
`double` gives. -/

/-- A floating-point datum: the finite value `m * 2^e`, an infinity, or a NaN. -/
inductive IEEE where
  | fin (m : Int) (e : Int)
  | inf (negative : Bool)
  | nan
deriving DecidableEq, Repr

/-- Binary digits of `a`, counted by repeated halving (`fuel` bounds the count). -/
def bit_length_upto : Nat → Nat → Nat
  | 0, _ => 0
  | fuel + 1, a => if a = 0 then 0 else bit_length_upto fuel (a / 2) + 1

/-- Number of binary digits of a natural number (0 for 0). -/
def bit_length (a : Nat) : Nat := bit_length_upto a a

/-- The quotient `a / 2^s` rounded to the nearest integer, ties to even. -/
def rshift_rne (a s : Nat) : Nat :=
  let q := a / 2 ^ s
  let r := a % 2 ^ s
  if 2 * r < 2 ^ s then q
  else if 2 ^ s < 2 * r then q + 1
  else if q % 2 = 0 then q else q + 1

/-- Round the exact value `m * 2^e` to a format with `p` significant bits, least
exponent `emin` of the last place, and values below `2^emax` in magnitude. -/
def fp_round (p : Nat) (emin emax : Int) (m e : Int) : IEEE :=
  let a := m.natAbs
  let s := (max (max ((bit_length a : Int) - (p : Int)) (emin - e)) 0).toNat
  let a1 := rshift_rne a s
  let e1 := e + (s : Int)
  if (bit_length a1 : Int) + e1 > emax then IEEE.inf (decide (m < 0))
  else IEEE.fin (if m < 0 then -(a1 : Int) else (a1 : Int)) e1

/-- Exact product, rounded by `rnd`. -/
def fp_mul (rnd : Int → Int → IEEE) : IEEE → IEEE → IEEE
  | .fin m1 e1, .fin m2 e2 => rnd (m1 * m2) (e1 + e2)
  | .nan, _ => .nan
  | _, .nan => .nan
  | .inf s, .fin m _ => if m = 0 then .nan else .inf (xor s (decide (m < 0)))
  | .fin m _, .inf s => if m = 0 then .nan else .inf (xor s (decide (m < 0)))
  | .inf s1, .inf s2 => .inf (xor s1 s2)

/-- Exact sum, rounded by `rnd`. -/
def fp_add (rnd : Int → Int → IEEE) : IEEE → IEEE → IEEE
  | .fin m1 e1, .fin m2 e2 =>
      let e := min e1 e2
      rnd (m1 * 2 ^ (e1 - e).toNat + m2 * 2 ^ (e2 - e).toNat) e
  | .nan, _ => .nan
  | _, .nan => .nan
  | .inf s, .fin _ _ => .inf s
  | .fin _ _, .inf s => .inf s
  | .inf s1, .inf s2 => if s1 = s2 then .inf s1 else .nan

/-- Negation (exact). -/
def fp_neg : IEEE → IEEE
  | .fin m e => .fin (-m) e
  | .inf s => .inf (!s)
  | .nan => .nan

/-- Exact difference, rounded by `rnd`. -/
def fp_sub (rnd : Int → Int → IEEE) (x y : IEEE) : IEEE := fp_add rnd x (fp_neg y)

/-- Exact quotient, rounded by `rnd`.  The quotient is developed to at least 64
bits beyond the divisor and a sticky bit records a non-zero remainder, so the single
rounding by `rnd` is the correct rounding of the exact quotient. -/
def fp_div (rnd : Int → Int → IEEE) : IEEE → IEEE → IEEE
  | .fin m1 e1, .fin m2 e2 =>
      if m2 = 0 then (if m1 = 0 then .nan else .inf (decide (m1 < 0)))
      else
        let k := bit_length m2.natAbs + 64
        let n := m1.natAbs * 2 ^ k
        let q := n / m2.natAbs
        let sticky := if n % m2.natAbs = 0 then 0 else 1
        let a : Int := ((2 * q + sticky : Nat) : Int)
        rnd (if xor (decide (m1 < 0)) (decide (m2 < 0)) then -a else a)
          (e1 - e2 - (k : Int) - 1)
  | .nan, _ => .nan
  | _, .nan => .nan
  | .inf s, .fin m _ => .inf (xor s (decide (m < 0)))
  | .fin _ _, .inf _ => .fin 0 0
  | .inf _, .inf _ => .nan

/-- The comparison `x < y` (false when either side is a NaN). -/
def fp_lt : IEEE → IEEE → Bool
  | .fin m1 e1, .fin m2 e2 =>
      let e := min e1 e2
      decide (m1 * 2 ^ (e1 - e).toNat < m2 * 2 ^ (e2 - e).toNat)
  | .nan, _ => false
  | _, .nan => false
  | .inf s, .fin _ _ => s
  | .fin _ _, .inf s => !s
  | .inf s1, .inf s2 => s1 && !s2

/-- The comparison `x > y` (false when either side is a NaN). -/
def fp_gt (x y : IEEE) : Bool := fp_lt y x

/-- Rounding to binary64 (`double`). -/
def double_round (m e : Int) : IEEE := fp_round 53 (-1074) 1024 m e
/-- Rounding to binary32 (`float`). -/
def float_round (m e : Int) : IEEE := fp_round 24 (-149) 128 m e

def double_mul : IEEE → IEEE → IEEE := fp_mul double_round
def double_add : IEEE → IEEE → IEEE := fp_add double_round
def double_sub : IEEE → IEEE → IEEE := fp_sub double_round
def double_div : IEEE → IEEE → IEEE := fp_div double_round
def float_div : IEEE → IEEE → IEEE := fp_div float_round

/-- The conversion `(double) n` of an integer. -/
def double_of_int (n : Int) : IEEE := double_round n 0
/-- The conversion `(float) n` of an integer. -/
def float_of_int (n : Int) : IEEE := float_round n 0

/-- The `double` denoted by the decimal literal `num / den` (correctly rounded). -/
def double_lit (num den : Nat) : IEEE := double_div (.fin num 0) (.fin den 0)

/-- The integer part of `m * 2^e`, rounding toward zero. -/
def trunc_toward_zero (m e : Int) : Int :=
  if 0 ≤ e then m * 2 ^ e.toNat
  else if m < 0 then -((m.natAbs / 2 ^ (-e).toNat : Nat) : Int)
  else ((m.natAbs / 2 ^ (-e).toNat : Nat) : Int)

/-- The conversion `(int32_t) x` of a `double`: truncation toward zero.  A value
outside the `int32_t` range (undefined in ISO C) yields `INT32_MIN`, the result of
the x86-64 conversion instruction. -/
def double_to_int32 : IEEE → Int
  | .fin m e =>
      let t := trunc_toward_zero m e
      if -2147483648 ≤ t ∧ t < 2147483648 then t else -2147483648
  | _ => -2147483648

/-- The binary32 encoding (bit pattern) of a value already rounded to `float`. -/
def float_bits : IEEE → Nat
  | .nan => 0x7FC00000
  | .inf s => (if s then 2147483648 else 0) + 0x7F800000
  | .fin m e =>
      let a := m.natAbs
      if a = 0 then 0
      else
        let sign := if m < 0 then 2147483648 else 0
        let n := bit_length a
        let ex : Int := (n : Int) - 1 + e
        if ex < -126 then sign + a * 2 ^ (e + 149).toNat
        else sign + (ex + 127).toNat * 8388608 + (a * 16777216 / 2 ^ n - 8388608)

/-- The rational number denoted by the finite datum `m * 2^e`. -/
def fp_value (m e : Int) : ℚ := (m : ℚ) * (2 : ℚ) ^ e

/-! ## wavgen.h -/

def MAX_SAMPLE_RATE_HZ : Nat := 192000
def MAX_DURATION_MS : Nat := 10 * 60 * 1000
/-- The product is formed in `unsigned int` (32 bits). -/
def MAX_SAMPLES_PER_CHNL : Nat := (MAX_DURATION_MS * MAX_SAMPLE_RATE_HZ) % 2 ^ 32
def MAX_CHANNELS : Nat := 8
def MAX_LEVEL_32BIT : Int := 0x7FFFFFFF

inductive WAVEFORM_TYPE where
  | WAVEFORM_TYPE_BURST
  | WAVEFORM_TYPE_COUNTER
  | WAVEFORM_TYPE_SAW
  | WAVEFORM_TYPE_SILENCE
  | WAVEFORM_TYPE_SINE
  | WAVEFORM_TYPE_SQUARE
  | WAVEFORM_TYPE_STEPS
  | WAVEFORM_TYPE_PINK
  | WAVEFORM_TYPE_WHITE
  | NUM_WAVEFORM_TYPES
deriving DecidableEq, Repr

open WAVEFORM_TYPE

def BYTES_NONE : Nat := 0
def BYTES_8BIT : Nat := 1
def BYTES_16BIT : Nat := 2
def BYTES_24BIT : Nat := 3
def BYTES_32BIT : Nat := 4

/-- The fields of `struct COMMON_USER_PARAMS` that the generation core reads (the
level options in dB and the file name are consumed by option parsing only).  All
numeric fields are `uint32_t` except `num_samples`, a `uint64_t`. -/
structure COMMON_USER_PARAMS where
  save_as_float : Bool
  sample_rate : Nat
  bits_per_sample : Nat
  bytes_per_sample : Nat
  num_channels : Nat
  duration_ms : Nat
  frequency_hz : Nat
  num_samples : Nat
  wf_type : WAVEFORM_TYPE
deriving DecidableEq, Repr

structure ADDITIONAL_USER_PARAMS where
  power_fraction : Nat
  period_ms : Nat
  num_cycles : Nat
  markers_on : Bool
  markers_in_msb : Bool
  uncorrelated : Bool
deriving DecidableEq, Repr

/-- The fields of `struct FIXED_PARAMS` used by the generation core.  `sample_value`
is the `SAMPLE` union read through its `int32_t` member `i`; a store through the
`float` member `f` puts the binary32 bit pattern there. -/
structure FIXED_PARAMS where
  gain : IEEE
  sample_value : Int
  sample_number : Nat
  current_chnl : Nat
deriving DecidableEq, Repr

/-! ## wf_markers.c -/

/-- wf_markers.c `add_markers`: the sample afterwards (the function returns true).
The mask and the marker are combined on the 32-bit pattern; `marker_value` and the
shifted marker are `uint32_t`. -/
def add_markers (fixed : FIXED_PARAMS) (markers_in_msb : Bool) : FIXED_PARAMS :=
  let marker_value := (fixed.current_chnl + 1) % 2 ^ 32
  if markers_in_msb then
    let masked := to_u32 fixed.sample_value &&& 0x00FFFFFF
    { fixed with
      sample_value := to_i32 (masked ||| ((((0xC0 + marker_value) % 2 ^ 32) <<< 24) % 2 ^ 32)) }
  else
    let masked := to_u32 fixed.sample_value &&& 0xFFFFFF00
    { fixed with sample_value := to_i32 (masked ||| ((0xC0 + marker_value) % 2 ^ 32)) }

/-- wf_markers.c `check_markers`: the flag returned and the state afterwards. -/
def check_markers (fixed : FIXED_PARAMS) (user : COMMON_USER_PARAMS)
    (extra : ADDITIONAL_USER_PARAMS) : Bool × FIXED_PARAMS :=
  if !extra.markers_on then (false, fixed)
  else
    match user.wf_type with
    | WAVEFORM_TYPE_SAW | WAVEFORM_TYPE_SINE | WAVEFORM_TYPE_SQUARE | WAVEFORM_TYPE_BURST =>
        (false, fixed)
    | WAVEFORM_TYPE_COUNTER | WAVEFORM_TYPE_SILENCE | WAVEFORM_TYPE_STEPS
    | WAVEFORM_TYPE_PINK | WAVEFORM_TYPE_WHITE =>
        if !user.save_as_float then (true, add_markers fixed extra.markers_in_msb)
        else (false, fixed)
    | NUM_WAVEFORM_TYPES => (false, fixed)

/-! ## wf_output.c -/

/-- wf_output.c `set_level`. -/
def set_level (fixed : FIXED_PARAMS) : FIXED_PARAMS :=
  { fixed with
    sample_value :=
      double_to_int32
        (double_add (double_mul (double_of_int fixed.sample_value) fixed.gain)
          (double_lit 5 10)) }

/-- wf_output.c `check_level`. -/
def check_level (fixed : FIXED_PARAMS) (user : COMMON_USER_PARAMS) : FIXED_PARAMS :=
  match user.wf_type with
  | WAVEFORM_TYPE_COUNTER | WAVEFORM_TYPE_SILENCE | WAVEFORM_TYPE_STEPS => fixed
  | WAVEFORM_TYPE_SAW | WAVEFORM_TYPE_SINE | WAVEFORM_TYPE_SQUARE | WAVEFORM_TYPE_BURST
  | WAVEFORM_TYPE_PINK | WAVEFORM_TYPE_WHITE =>
      if fp_gt fixed.gain (double_lit 10001 10000) || fp_lt fixed.gain (double_lit 9999 10000)
      then set_level fixed
      else fixed
  | NUM_WAVEFORM_TYPES => fixed

/-- wf_output.c `check_format`: the `int32_t` is converted to `float`, divided by
`MAX_LEVEL_32BIT` converted to `float`, and stored through the member `f`. -/
def check_format (fixed : FIXED_PARAMS) (user : COMMON_USER_PARAMS) : FIXED_PARAMS :=
  if user.save_as_float then
    { fixed with
      sample_value :=
        to_i32 (float_bits
          (float_div (float_of_int fixed.sample_value) (float_of_int MAX_LEVEL_32BIT))) }
  else fixed

/-- The buffer that wf_output.c `save_sample` hands to `fwrite` (its `num_bytes`
bytes), or `none` on the branch that returns false without writing.  The shift
`i >> 16` of the signed sample is arithmetic, that is the floor of `i / 65536`. -/
def save_sample_buffer (fixed : FIXED_PARAMS) (user : COMMON_USER_PARAMS) :
    Option (List Nat) :=
  if user.save_as_float = true then some (le32 (to_u32 fixed.sample_value))
  else if user.bytes_per_sample = BYTES_32BIT then some (le32 (to_u32 fixed.sample_value))
  else if user.bytes_per_sample = BYTES_16BIT then
    let sample_s16 : Int := to_i16 (to_u16 (fixed.sample_value / 65536))
    some (le16 (to_u16 sample_s16))
  else none

/-- wf_output.c `save_sample`: the flag returned and the sink afterwards. -/
def save_sample (fixed : FIXED_PARAMS) (user : COMMON_USER_PARAMS) (wavfile : FILE) :
    Bool × FILE :=
  match save_sample_buffer fixed user with
  | none => (false, wavfile)
  | some buf =>
      let w := fwrite buf wavfile
      (decide (w.1 = buf.length), w.2)

/-- wf_output.c `finalise_data`: the flag returned, the state and the sink
afterwards. -/
def finalise_data (fixed : FIXED_PARAMS) (user : COMMON_USER_PARAMS)
    (extra : ADDITIONAL_USER_PARAMS) (wavfile : FILE) : Bool × FIXED_PARAMS × FILE :=
  let fixed1 := check_level fixed user
  let fixed2 := check_format fixed1 user
  let fixed3 := (check_markers fixed2 user extra).2
  let w := save_sample fixed3 user wavfile
  (w.1, fixed3, w.2)

/-! ## The waveform generators (wf_*.c)

The function-local `static` variables of the generators are gathered in `STATICS`;
each generator returns the updated record.  Signed 32-bit results are wrapped
(two-complement), which is what the compiled arithmetic does. -/

/-- The seven filter taps `b[7]` of `generate_pink`. -/
structure PINK_TAPS where
  b0 : IEEE
  b1 : IEEE
  b2 : IEEE
  b3 : IEEE
  b4 : IEEE
  b5 : IEEE
  b6 : IEEE
deriving DecidableEq, Repr

/-- The `static` variables: `sample_value` of `generate_saw` and of
`generate_square`, `step` of `generate_steps`, `burst_sample` of `generate_burst`,
and `seed`, `last_sample` (and `b`) of `generate_white` and of `generate_pink`. -/
structure STATICS where
  saw_sample_value : Int
  square_sample_value : Int
  steps_step : Nat
  burst_sample : Nat
  white_seed : Int
  white_last_sample : Int
  pink_seed : Int
  pink_last_sample : Int
  pink_b : PINK_TAPS
deriving DecidableEq, Repr

/-- The initial values of the `static` variables at program start. -/
def STATICS.init : STATICS :=
  { saw_sample_value := 0
    square_sample_value := MAX_LEVEL_32BIT
    steps_step := 0
    burst_sample := 0
    white_seed := 1
    white_last_sample := 0
    pink_seed := 1
    pink_last_sample := 0
    pink_b := { b0 := .fin 0 0, b1 := .fin 0 0, b2 := .fin 0 0, b3 := .fin 0 0,
                b4 := .fin 0 0, b5 := .fin 0 0, b6 := .fin 0 0 } }

/-- Unsigned division; `none` is the trap on a zero divisor. -/
def udiv (a b : Nat) : Option Nat := if b = 0 then none else some (a / b)

/-- Unsigned remainder; `none` is the trap on a zero divisor. -/
def umod (a b : Nat) : Option Nat := if b = 0 then none else some (a % b)

/-- wf_silence.c `generate_silence`. -/
def generate_silence (fixed : FIXED_PARAMS) : FIXED_PARAMS :=
  { fixed with sample_value := 0 }

/-- wf_counter.c `generate_counter`. -/
def generate_counter (fixed : FIXED_PARAMS) (user : COMMON_USER_PARAMS)
    (extra : ADDITIONAL_USER_PARAMS) : FIXED_PARAMS :=
  let counter_value := fixed.sample_number % 2 ^ 32
  let counter_value :=
    if extra.markers_on && !extra.markers_in_msb then (counter_value <<< 8) % 2 ^ 32
    else counter_value
  if user.bytes_per_sample = BYTES_32BIT || user.save_as_float then
    { fixed with sample_value := to_i32 counter_value }
  else if user.bytes_per_sample = BYTES_24BIT then
    { fixed with sample_value := to_i32 ((counter_value <<< 8) % 2 ^ 32) }
  else if user.bytes_per_sample = BYTES_16BIT then
    { fixed with sample_value := to_i32 ((counter_value <<< 16) % 2 ^ 32) }
  else
    { fixed with sample_value := 0 }

/-- wf_saw.c `generate_saw`. -/
def generate_saw (fixed : FIXED_PARAMS) (user : COMMON_USER_PARAMS) (st : STATICS) :
    Option (FIXED_PARAMS × STATICS) := do
  let cycle ← udiv user.sample_rate user.frequency_hz
  let num_steps := (cycle * 2) % 2 ^ 32
  let quot ← udiv (to_u32 MAX_LEVEL_32BIT) num_steps
  let step_size := (quot * 2) % 2 ^ 32
  let peak_level : Int := to_i32 (((step_size * num_steps) % 2 ^ 32) / 2)
  let sample_value := st.saw_sample_value
  let fixed1 := { fixed with sample_value := sample_value }
  if sample_value = MAX_LEVEL_32BIT then
    some (fixed1, { st with saw_sample_value := wrap_i32 (MAX_LEVEL_32BIT * -1) })
  else
    let sample_value := wrap_i32 (sample_value + to_i32 step_size)
    if sample_value > peak_level then
      some (fixed1, { st with
        saw_sample_value := wrap_i32 (to_i32 ((step_size * num_steps) % 2 ^ 32) * -1) })
    else
      some (fixed1, { st with saw_sample_value := sample_value })

/-- wf_square.c `generate_square`. -/
def generate_square (fixed : FIXED_PARAMS) (user : COMMON_USER_PARAMS) (st : STATICS) :
    Option (FIXED_PARAMS × STATICS) := do
  let cycle ← udiv user.sample_rate user.frequency_hz
  let half_period_samples := cycle / 2
  let fixed1 := { fixed with sample_value := st.square_sample_value }
  if fixed.current_chnl = 0 then
    let phase ← umod fixed.sample_number half_period_samples
    if phase = (half_period_samples + (2 ^ 32 - 1)) % 2 ^ 32 then
      some (fixed1, { st with square_sample_value := wrap_i32 (-st.square_sample_value) })
    else some (fixed1, st)
  else some (fixed1, st)

def NUM_STEPS : Nat := 4

/-- wf_steps.c `generate_steps`. -/
def generate_steps (fixed : FIXED_PARAMS) (user : COMMON_USER_PARAMS) (st : STATICS) :
    FIXED_PARAMS × STATICS :=
  let step_size := to_u32 (MAX_LEVEL_32BIT / (NUM_STEPS : Int))
  let fixed1 := { fixed with sample_value := to_i32 ((step_size * st.steps_step) % 2 ^ 32) }
  if fixed.current_chnl = (user.num_channels + (2 ^ 32 - 1)) % 2 ^ 32 then
    let step := (st.steps_step + 1) % 2 ^ 32
    if step > NUM_STEPS then (fixed1, { st with steps_step := 0 })
    else (fixed1, { st with steps_step := step })
  else (fixed1, st)

/-- The constant `PI` of wf_sine.c and wf_burst.c. -/
def PI : IEEE := double_lit 31415926536 10000000000

/-- wf_sine.c `generate_sine`; `sin` is the libm function. -/
def generate_sine (sin : IEEE → IEEE) (fixed : FIXED_PARAMS) (user : COMMON_USER_PARAMS) :
    Option FIXED_PARAMS := do
  let cycle_length_samples ← udiv user.sample_rate user.frequency_hz
  let sample_value_f :=
    sin (double_div
      (double_mul (double_mul (double_lit 2 1) PI) (double_of_int fixed.sample_number))
      (double_of_int cycle_length_samples))
  let sample_value_f := double_mul sample_value_f (double_of_int MAX_LEVEL_32BIT)
  let sample_value_f :=
    if fp_gt sample_value_f (double_of_int MAX_LEVEL_32BIT) then double_of_int MAX_LEVEL_32BIT
    else sample_value_f
  some { fixed with
    sample_value := double_to_int32 (double_add sample_value_f (double_lit 5 10)) }

/-- wf_burst.c `generate_burst`; `sin` is the libm function.  The function also
writes `extra_params->num_cycles`. -/
def generate_burst (sin : IEEE → IEEE) (fixed : FIXED_PARAMS) (user : COMMON_USER_PARAMS)
    (extra : ADDITIONAL_USER_PARAMS) (st : STATICS) :
    Option (FIXED_PARAMS × ADDITIONAL_USER_PARAMS × STATICS) := do
  let extra1 := if extra.num_cycles < 1 then { extra with num_cycles := 1 } else extra
  let burst_length_samples ← udiv user.sample_rate user.frequency_hz
  let period_length_samples := ((user.sample_rate / 1000) * extra1.period_ms) % 2 ^ 32
  let phase ← umod fixed.sample_number period_length_samples
  let burst_sample :=
    if phase = 0 && fixed.current_chnl = 0 then 0 else st.burst_sample
  if burst_sample < (burst_length_samples * extra1.num_cycles) % 2 ^ 32 then
    let sample_value_f :=
      sin (double_div
        (double_mul (double_mul (double_lit 2 1) PI) (double_of_int burst_sample))
        (double_of_int burst_length_samples))
    let sample_value_f := double_mul sample_value_f (double_of_int MAX_LEVEL_32BIT)
    some ({ fixed with
            sample_value := double_to_int32 (double_add sample_value_f (double_lit 5 10)) },
          extra1, { st with burst_sample := (burst_sample + 1) % 2 ^ 64 })
  else
    some ({ fixed with sample_value := 0 }, extra1, { st with burst_sample := burst_sample })

/-- The sample that wf_burst.c `generate_burst` computes inside a burst, for
intra-burst offset `burst_sample` and cycle length `burst_length_samples`:
`(int32_t) (sin(2.0 * PI * burst_sample / burst_length_samples) * MAX_LEVEL_32BIT + 0.5)`. -/
def burst_sine (sin : IEEE → IEEE) (burst_length_samples burst_sample : Nat) : Int :=
  let sample_value_f :=
    sin (double_div
      (double_mul (double_mul (double_lit 2 1) PI) (double_of_int burst_sample))
      (double_of_int burst_length_samples))
  let sample_value_f := double_mul sample_value_f (double_of_int MAX_LEVEL_32BIT)
  double_to_int32 (double_add sample_value_f (double_lit 5 10))

/-- wf_noise.c `rand_31`: the value returned (a `uint32_t`) and the new seed.  The
products and sums are formed in `unsigned long` and stored in the 32-bit `hi`, `lo`;
`*seed >> 16` is an arithmetic shift of the signed seed. -/
def rand_31 (seed : Int) : Nat × Int :=
  let lo := (16807 * (to_u32 seed &&& 0xFFFF)) % 2 ^ 32
  let hi := (16807 * to_u32 (seed / 65536)) % 2 ^ 32
  let lo := (lo + ((hi &&& 0x7FFF) <<< 16)) % 2 ^ 32
  let lo := (lo + (hi >>> 15)) % 2 ^ 32
  let lo := if lo > 0x7FFFFFFF then lo - 0x7FFFFFFF else lo
  (to_u32 (to_i32 lo), to_i32 lo)

/-- wf_noise.c `generate_white`. -/
def generate_white (fixed : FIXED_PARAMS) (extra : ADDITIONAL_USER_PARAMS) (st : STATICS) :
    FIXED_PARAMS × STATICS :=
  if fixed.current_chnl = 0 || extra.uncorrelated then
    let r := rand_31 st.white_seed
    let last_sample := wrap_i32 (((r.1 : Int) - ((0x7FFFFFFF / 2 : Nat) : Int)) * 2)
    ({ fixed with sample_value := last_sample },
     { st with white_seed := r.2, white_last_sample := last_sample })
  else
    ({ fixed with sample_value := st.white_last_sample }, st)

/-- wf_noise.c `generate_pink`. -/
def generate_pink (fixed : FIXED_PARAMS) (extra : ADDITIONAL_USER_PARAMS) (st : STATICS) :
    FIXED_PARAMS × STATICS :=
  let zero := IEEE.fin 0 0
  let b :=
    if fixed.sample_number = 0 && fixed.current_chnl = 0 then
      { b0 := zero, b1 := zero, b2 := zero, b3 := zero, b4 := zero, b5 := zero, b6 := zero }
    else st.pink_b
  if fixed.current_chnl = 0 || extra.uncorrelated then
    let r := rand_31 st.pink_seed
    let white :=
      double_sub (double_of_int r.1)
        (double_div (double_of_int 0x7FFFFFFF) (double_lit 2 1))
    let b0 := double_add (double_mul (double_lit 99886 100000) b.b0)
                (double_mul white (double_lit 555179 10000000))
    let b1 := double_add (double_mul (double_lit 99332 100000) b.b1)
                (double_mul white (double_lit 750759 10000000))
    let b2 := double_add (double_mul (double_lit 96900 100000) b.b2)
                (double_mul white (double_lit 1538520 10000000))
    let b3 := double_add (double_mul (double_lit 86650 100000) b.b3)
                (double_mul white (double_lit 3104856 10000000))
    let b4 := double_add (double_mul (double_lit 55000 100000) b.b4)
                (double_mul white (double_lit 5329522 10000000))
    let b5 := double_sub (double_mul (fp_neg (double_lit 7616 10000)) b.b5)
                (double_mul white (double_lit 168980 10000000))
    let pink :=
      double_add
        (double_add (double_add (double_add (double_add (double_add (double_add
          b0 b1) b2) b3) b4) b5) b.b6)
        (double_mul white (double_lit 5362 10000))
    let b6 := double_mul white (double_lit 115926 1000000)
    let last_sample := double_to_int32 (double_div pink (double_lit 5 1))
    ({ fixed with sample_value := last_sample },
     { st with pink_seed := r.2, pink_last_sample := last_sample,
               pink_b := { b0 := b0, b1 := b1, b2 := b2, b3 := b3, b4 := b4, b5 := b5,
                           b6 := b6 } })
  else
    ({ fixed with sample_value := st.pink_last_sample }, { st with pink_b := b })

/-- The seed of the noise generators after `k` calls of `rand_31`, from its initial
value 1 (`static int32_t seed = 1`); it is also the value that the `k`-th call
returns. -/
def rand_31_draw : Nat → Int
  | 0 => 1
  | k + 1 => (rand_31 (rand_31_draw k)).2

/-! ## opts.c -/

/-- The closing block of opts.c `parse_opts` ("Calculate data quantities").  `opt_s`
is the sample count given with `-s` (0 when absent) and `opt_d` the duration given
with `-d`, both `unsigned int`; the other fields of `user` are as parsed before. -/
def parse_opts_data_quantities (opt_s opt_d : Nat) (user : COMMON_USER_PARAMS) :
    Option COMMON_USER_PARAMS := do
  let user := { user with bytes_per_sample := user.bits_per_sample / 8 }
  if opt_s ≠ 0 then
    let duration_ms ← udiv ((opt_s * 1000) % 2 ^ 32) user.sample_rate
    some { user with
      num_samples := (opt_s * user.num_channels) % 2 ^ 32
      duration_ms := duration_ms }
  else
    let opt_d := if opt_d > MAX_DURATION_MS then MAX_DURATION_MS else opt_d
    some { user with
      num_samples := ((opt_d * user.sample_rate * user.num_channels) % 2 ^ 64) / 1000
      duration_ms := opt_d }

/-! ## wavgen.c -/

/-- The variables of `main` that change while the file is written: `fixed`, `extra`
(written by `generate_burst`), the generator statics, the sink and `success`. -/
structure RUN where
  fixed : FIXED_PARAMS
  extra : ADDITIONAL_USER_PARAMS
  statics : STATICS
  wavfile : FILE
  success : Bool
deriving DecidableEq, Repr

/-- The header part of wavgen.c `main`: the four chunks are initialised and written;
a failed write clears `success` and the next chunk is written all the same. -/
def write_headers (user : COMMON_USER_PARAMS) (wavfile : FILE) : Bool × FILE :=
  let num_data_bytes := ((user.num_samples * user.bytes_per_sample) % 2 ^ 64) % 2 ^ 32
  let riff_header := riff_init_header num_data_bytes user.save_as_float
  let riff_fmt := riff_init_format user.sample_rate user.save_as_float user.num_channels
    user.bytes_per_sample user.bits_per_sample
  let riff_fact := riff_init_fact user.num_samples
  let riff_data := riff_init_data_hdr num_data_bytes
  let w1 := riff_write_header riff_header wavfile
  let w2 := riff_write_format riff_fmt w1.2
  let w3 := if user.save_as_float then riff_write_fact riff_fact w2.2 else (true, w2.2)
  let w4 := riff_write_data_hdr riff_data w3.2
  (w1.1 && w2.1 && w3.1 && w4.1, w4.2)

/-- The `switch (user.wf_type)` of wavgen.c `main`. -/
def generate (sin : IEEE → IEEE) (user : COMMON_USER_PARAMS) (r : RUN) : Option RUN :=
  match user.wf_type with
  | WAVEFORM_TYPE_SILENCE => some { r with fixed := generate_silence r.fixed }
  | WAVEFORM_TYPE_SAW =>
      (generate_saw r.fixed user r.statics).map
        (fun g => { r with fixed := g.1, statics := g.2 })
  | WAVEFORM_TYPE_SQUARE =>
      (generate_square r.fixed user r.statics).map
        (fun g => { r with fixed := g.1, statics := g.2 })
  | WAVEFORM_TYPE_STEPS =>
      let g := generate_steps r.fixed user r.statics
      some { r with fixed := g.1, statics := g.2 }
  | WAVEFORM_TYPE_COUNTER => some { r with fixed := generate_counter r.fixed user r.extra }
  | WAVEFORM_TYPE_SINE =>
      (generate_sine sin r.fixed user).map (fun g => { r with fixed := g })
  | WAVEFORM_TYPE_BURST =>
      (generate_burst sin r.fixed user r.extra r.statics).map
        (fun g => { r with fixed := g.1, extra := g.2.1, statics := g.2.2 })
  | WAVEFORM_TYPE_PINK =>
      let g := generate_pink r.fixed r.extra r.statics
      some { r with fixed := g.1, statics := g.2 }
  | WAVEFORM_TYPE_WHITE =>
      let g := generate_white r.fixed r.extra r.statics
      some { r with fixed := g.1, statics := g.2 }
  | NUM_WAVEFORM_TYPES => some r

/-- The inner loop of wavgen.c `main` over `fixed.current_chnl`, with `k` channels
still to go.  A failed `finalise_data` clears `success` and leaves this loop (the
`break`). -/
def channel_loop (sin : IEEE → IEEE) (user : COMMON_USER_PARAMS) : Nat → RUN → Option RUN
  | 0, r => some r
  | k + 1, r =>
      match generate sin user r with
      | none => none
      | some r1 =>
          let f := finalise_data r1.fixed user r1.extra r1.wavfile
          if !f.1 then
            some { r1 with fixed := f.2.1, wavfile := f.2.2, success := false }
          else
            channel_loop sin user k
              { r1 with
                fixed := { f.2.1 with current_chnl := f.2.1.current_chnl + 1 }
                wavfile := f.2.2 }

/-- The outer loop of wavgen.c `main` over `fixed.sample_number`, with `k`
iterations still to go; each iteration runs the inner loop from channel 0. -/
def sample_loop (sin : IEEE → IEEE) (user : COMMON_USER_PARAMS) : Nat → RUN → Option RUN
  | 0, r => some r
  | k + 1, r =>
      match channel_loop sin user user.num_channels
          { r with fixed := { r.fixed with current_chnl := 0 } } with
      | none => none
      | some r1 =>
          sample_loop sin user k
            { r1 with fixed := { r1.fixed with sample_number := r1.fixed.sample_number + 1 } }

/-- wavgen.c `main` after option parsing and opening of the sink: `fixed`, `user`
and `extra` are as left by `parse_opts`.  The result is `none` when a generator
traps; otherwise `success` tells the exit status. -/
def main (sin : IEEE → IEEE) (fixed : FIXED_PARAMS) (user : COMMON_USER_PARAMS)
    (extra : ADDITIONAL_USER_PARAMS) (wavfile : FILE) : Option RUN :=
  let h := write_headers user wavfile
  sample_loop sin user user.num_samples
    { fixed := { fixed with sample_number := 0 }
      extra := extra
      statics := STATICS.init
      wavfile := h.2
      success := h.1 }

/-! ## The generator calls of a run

The two loops of `main` call the selected generator once per (sample, channel)
pair, sample index outer and channel index inner.  The functions below make the
same calls in the same order and collect the value each call leaves in
`fixed.sample_value`, before the finalising stage touches it; they leave the sink
alone.  They describe what the generators emit in a run in which no write fails. -/

/-- The generator calls of the inner loop of wavgen.c `main` for one frame, with `k`
channels still to go: the values emitted, in channel order, and the state after. -/
def frame_values (sin : IEEE → IEEE) (user : COMMON_USER_PARAMS) :
    Nat → RUN → Option (List Int × RUN)
  | 0, r => some ([], r)
  | k + 1, r =>
      match generate sin user r with
      | none => none
      | some r1 =>
          match frame_values sin user k
              { r1 with fixed := { r1.fixed with current_chnl := r1.fixed.current_chnl + 1 } } with
          | none => none
          | some (vs, r2) => some (r1.fixed.sample_value :: vs, r2)

/-- The generator calls of the outer loop of wavgen.c `main`, with `k` frames still
to go: one list of emitted values per frame, and the state after. -/
def run_values (sin : IEEE → IEEE) (user : COMMON_USER_PARAMS) :
    Nat → RUN → Option (List (List Int) × RUN)
  | 0, r => some ([], r)
  | k + 1, r =>
      match frame_values sin user user.num_channels
          { r with fixed := { r.fixed with current_chnl := 0 } } with
      | none => none
      | some (vs, r1) =>
          match run_values sin user k
              { r1 with fixed := { r1.fixed with sample_number := r1.fixed.sample_number + 1 } } with
          | none => none
          | some (fs, r2) => some (vs :: fs, r2)

/-- The state in which the loops of `main` start: sample number 0 and the statics as
at program start. -/
def RUN.start (fixed : FIXED_PARAMS) (extra : ADDITIONAL_USER_PARAMS) (wavfile : FILE)
    (success : Bool) : RUN :=
  { fixed := { fixed with sample_number := 0 }
    extra := extra
    statics := STATICS.init
    wavfile := wavfile
    success := success }

/-- The values that the generator emits in the first `frames` iterations of the
outer loop of a run from fresh state, frame by frame; `none` when a call traps. -/
def generated (sin : IEEE → IEEE) (fixed : FIXED_PARAMS) (user : COMMON_USER_PARAMS)
    (extra : ADDITIONAL_USER_PARAMS) (frames : Nat) : Option (List (List Int)) :=
  (run_values sin user frames (RUN.start fixed extra { data := [], room := 0 } true)).map
    Prod.fst

/-- The value emitted for frame `n`, channel `c` in a run from fresh state (`none`
when a generator call traps before that, or the run has no such channel). -/
def emitted (sin : IEEE → IEEE) (fixed : FIXED_PARAMS) (user : COMMON_USER_PARAMS)
    (extra : ADDITIONAL_USER_PARAMS) (n c : Nat) : Option Int :=
  (generated sin fixed user extra (n + 1)).bind (fun fs => (fs.getD n []).get? c)

/-- The state in which the generator is called for frame `n`, channel `c` in a run
from fresh state: the state after the generator calls of `n` whole frames and of the
first `c` channels of frame `n` (`none` when one of those calls traps). -/
def before_call (sin : IEEE → IEEE) (fixed : FIXED_PARAMS) (user : COMMON_USER_PARAMS)
    (extra : ADDITIONAL_USER_PARAMS) (n c : Nat) : Option RUN :=
  match run_values sin user n (RUN.start fixed extra { data := [], room := 0 } true) with
  | none => none
  | some (_, r) =>
      (frame_values sin user c { r with fixed := { r.fixed with current_chnl := 0 } }).map
        Prod.snd

/-! ## A reader for the fmt chunk (used to state the round trip) -/

/-- A reader of the 24-byte fmt chunk as laid out by the WAVE format: chunk
identifier, chunk size, format tag, channels, sample rate, byte rate, block align
and bits per sample, each little-endian.  It is not part of the program. -/
def parse_fmt_chunk : List Nat → Option RIFF_FMT_CHUNK
  | [i0, i1, i2, i3, s0, s1, s2, s3, t0, t1, c0, c1, r0, r1, r2, r3,
     y0, y1, y2, y3, a0, a1, b0, b1] =>
      some { ChunkID := rd32 i0 i1 i2 i3
             ChunkSize := rd32 s0 s1 s2 s3
             AudioFormat := rd16 t0 t1
             NumChannels := rd16 c0 c1
             SampleRate := rd32 r0 r1 r2 r3
             ByteRate := rd32 y0 y1 y2 y3
             BlockAlign := rd16 a0 a1
             BitsPerSample := rd16 b0 b1 }
  | _ => none

/-! ## Concrete inputs used in the instances below -/

/-- A zero sample at the start of a run, gain 1.0. -/
def c10_fixed : FIXED_PARAMS :=
  { gain := .fin 1 0, sample_value := 0, sample_number := 0, current_chnl := 0 }

/-- A silence run, 32-bit integer output. -/
def c10_user : COMMON_USER_PARAMS :=
  { save_as_float := false, sample_rate := 48000, bits_per_sample := 32,
    bytes_per_sample := 4, num_channels := 1, duration_ms := 1000, frequency_hz := 440,
    num_samples := 48000, wf_type := WAVEFORM_TYPE_SILENCE }

/-- A sink that accepts no more bytes. -/
def full_sink : FILE := { data := [], room := 0 }

/-- The state at frame 0xC1000000, channel 0, of a 32-bit counter run: the sample
is the frame number, -1056964608 as an `int32_t`. -/
def c7_fixed : FIXED_PARAMS :=
  { gain := .fin 1 0, sample_value := -1056964608, sample_number := 3238002688,
    current_chnl := 0 }

/-- A mono 32-bit counter run long enough to reach frame 0xC1000000. -/
def c7_user : COMMON_USER_PARAMS :=
  { save_as_float := false, sample_rate := 48000, bits_per_sample := 32,
    bytes_per_sample := 4, num_channels := 1, duration_ms := 0, frequency_hz := 440,
    num_samples := 3238002689, wf_type := WAVEFORM_TYPE_COUNTER }

/-- The `extra` record for markers in the high byte. -/
def c7_extra : ADDITIONAL_USER_PARAMS :=
  { power_fraction := 1, period_ms := 100, num_cycles := 0, markers_on := true,
    markers_in_msb := true, uncorrelated := false }

/-- The 32-bit word that the specification gives for frame `n`, channel `c` of a
32-bit counter run with markers: the marker 0xC1 + c in the high byte over the low 24
bits of `n`, or in the low byte under them. -/
def counter_marker_word (msb : Bool) (n c : Nat) : Nat :=
  if msb then ((0xC1 + c) <<< 24) ||| (n % 2 ^ 24)
  else ((n % 2 ^ 24) <<< 8) ||| (0xC1 + c)

/-- The `user` record that option parsing yields for the check run documented in
wavgen.c, `-b 32 -c 2 -s 4 -t counter -m msb`, before the data quantities are
calculated. -/
def check_user_parsed : COMMON_USER_PARAMS :=
  { save_as_float := false, sample_rate := 48000, bits_per_sample := 32,
    bytes_per_sample := 4, num_channels := 2, duration_ms := 1000, frequency_hz := 440,
    num_samples := 48000, wf_type := WAVEFORM_TYPE_COUNTER }

/-- The `user` record of the check run after `parse_opts`: `-s 4` with two channels
makes `num_samples` 8. -/
def check_user : COMMON_USER_PARAMS :=
  { save_as_float := false, sample_rate := 48000, bits_per_sample := 32,
    bytes_per_sample := 4, num_channels := 2, duration_ms := 0, frequency_hz := 440,
    num_samples := 8, wf_type := WAVEFORM_TYPE_COUNTER }

/-- The `extra` record of the check run (`-m msb`). -/
def check_extra : ADDITIONAL_USER_PARAMS :=
  { power_fraction := 1, period_ms := 100, num_cycles := 0, markers_on := true,
    markers_in_msb := true, uncorrelated := false }

/-- The `fixed` record of the check run: no level option, so the gain is 1.0. -/
def check_fixed : FIXED_PARAMS :=
  { gain := .fin 1 0, sample_value := 0, sample_number := 0, current_chnl := 0 }

/-- A sink that is empty and accepts 4096 more bytes. -/
def empty_sink : FILE := { data := [], room := 4096 }

/-- A stand-in for the libm sine in runs that never call it. -/
def sin_unused : IEEE → IEEE := fun x => x

/-- A sample in the middle of a frame: value 0x12345678 on channel 1. -/
def c6_fixed : FIXED_PARAMS :=
  { gain := .fin 1 0, sample_value := 0x12345678, sample_number := 5, current_chnl := 1 }

/-- A silence run with markers in the low byte, one channel. -/
def silence_user : COMMON_USER_PARAMS :=
  { save_as_float := false, sample_rate := 48000, bits_per_sample := 32,
    bytes_per_sample := 4, num_channels := 1, duration_ms := 0, frequency_hz := 440,
    num_samples := 3, wf_type := WAVEFORM_TYPE_SILENCE }

/-- The `extra` record for markers in the low byte. -/
def lsb_extra : ADDITIONAL_USER_PARAMS :=
  { power_fraction := 1, period_ms := 100, num_cycles := 0, markers_on := true,
    markers_in_msb := false, uncorrelated := false }

/-- A sine run, 32-bit integer output. -/
def sine_user : COMMON_USER_PARAMS :=
  { save_as_float := false, sample_rate := 48000, bits_per_sample := 32,
    bytes_per_sample := 4, num_channels := 1, duration_ms := 1000, frequency_hz := 440,
    num_samples := 48000, wf_type := WAVEFORM_TYPE_SINE }

/-- A 16-bit integer run. -/
def s16_user : COMMON_USER_PARAMS :=
  { save_as_float := false, sample_rate := 48000, bits_per_sample := 16,
    bytes_per_sample := 2, num_channels := 1, duration_ms := 1000, frequency_hz := 440,
    num_samples := 48000, wf_type := WAVEFORM_TYPE_SINE }

/-- A 24-bit integer run (a width that `save_sample` does not implement). -/
def s24_user : COMMON_USER_PARAMS :=
  { save_as_float := false, sample_rate := 48000, bits_per_sample := 24,
    bytes_per_sample := 3, num_channels := 1, duration_ms := 1000, frequency_hz := 440,
    num_samples := 48000, wf_type := WAVEFORM_TYPE_SINE }

/-- A negative sample: -65537, whose upper half is -2. -/
def negative_fixed : FIXED_PARAMS :=
  { gain := .fin 1 0, sample_value := -65537, sample_number := 0, current_chnl := 0 }

/-- The `extra` record of a run without markers. -/
def off_extra : ADDITIONAL_USER_PARAMS :=
  { power_fraction := 1, period_ms := 100, num_cycles := 0, markers_on := false,
    markers_in_msb := false, uncorrelated := false }

/-- A mono saw run of one second (`-t saw -d 1000`): 48000 Hz, 440 Hz. -/
def saw_user : COMMON_USER_PARAMS :=
  { save_as_float := false, sample_rate := 48000, bits_per_sample := 32,
    bytes_per_sample := 4, num_channels := 1, duration_ms := 1000, frequency_hz := 440,
    num_samples := 48000, wf_type := WAVEFORM_TYPE_SAW }

/-- A mono saw run of one second at 1000 Hz (`-t saw -f 1000 -d 1000`). -/
def saw_1k_user : COMMON_USER_PARAMS :=
  { save_as_float := false, sample_rate := 48000, bits_per_sample := 32,
    bytes_per_sample := 4, num_channels := 1, duration_ms := 1000, frequency_hz := 1000,
    num_samples := 48000, wf_type := WAVEFORM_TYPE_SAW }

/-- A mono saw run of two seconds at 1 Hz (`-t saw -f 1 -d 2000`). -/
def saw_1hz_user : COMMON_USER_PARAMS :=
  { save_as_float := false, sample_rate := 48000, bits_per_sample := 32,
    bytes_per_sample := 4, num_channels := 1, duration_ms := 2000, frequency_hz := 1,
    num_samples := 96000, wf_type := WAVEFORM_TYPE_SAW }

/-- A two-channel square run of one second (`-t square -c 2 -d 1000`): 48000 Hz,
440 Hz. -/
def sq2_user : COMMON_USER_PARAMS :=
  { save_as_float := false, sample_rate := 48000, bits_per_sample := 32,
    bytes_per_sample := 4, num_channels := 2, duration_ms := 1000, frequency_hz := 440,
    num_samples := 96000, wf_type := WAVEFORM_TYPE_SQUARE }

/-- A two-channel steps run of one second (`-t steps -c 2 -d 1000`). -/
def steps_user : COMMON_USER_PARAMS :=
  { save_as_float := false, sample_rate := 48000, bits_per_sample := 32,
    bytes_per_sample := 4, num_channels := 2, duration_ms := 1000, frequency_hz := 440,
    num_samples := 96000, wf_type := WAVEFORM_TYPE_STEPS }

/-- The 64 bytes of the hex dump in the header comment of wavgen.c ("The output of
the check above should look like this"). -/
def documented_dump : List Nat :=
  [0x52, 0x49, 0x46, 0x46, 0x34, 0x00, 0x00, 0x00, 0x57, 0x41, 0x56, 0x45, 0x66, 0x6d, 0x74, 0x20,
   0x10, 0x00, 0x00, 0x00, 0x01, 0x00, 0x02, 0x00, 0x80, 0xbb, 0x00, 0x00, 0x00, 0xdc, 0x05, 0x00,
   0x08, 0x00, 0x20, 0x00, 0x64, 0x61, 0x74, 0x61, 0x10, 0x00, 0x00, 0x00, 0x00, 0x00, 0x00, 0xc1,
   0x00, 0x00, 0x00, 0xc2, 0x01, 0x00, 0x00, 0xc1, 0x01, 0x00, 0x00, 0xc2, 0x02, 0x00, 0x00, 0xc1]

/-- A mono counter run of three samples without markers (`-t counter -s 3`). -/
def counter3_user : COMMON_USER_PARAMS :=
  { save_as_float := false, sample_rate := 48000, bits_per_sample := 32,
    bytes_per_sample := 4, num_channels := 1, duration_ms := 0, frequency_hz := 440,
    num_samples := 3, wf_type := WAVEFORM_TYPE_COUNTER }

/-- A 16-bit counter run (`-t counter -b 16 -d 1000`). -/
def counter16_user : COMMON_USER_PARAMS :=
  { save_as_float := false, sample_rate := 48000, bits_per_sample := 16,
    bytes_per_sample := 2, num_channels := 1, duration_ms := 1000, frequency_hz := 440,
    num_samples := 48000, wf_type := WAVEFORM_TYPE_COUNTER }

/-- A 24-bit counter run (`-t counter -b 24 -d 1000`). -/
def counter24_user : COMMON_USER_PARAMS :=
  { save_as_float := false, sample_rate := 48000, bits_per_sample := 24,
    bytes_per_sample := 3, num_channels := 1, duration_ms := 1000, frequency_hz := 440,
    num_samples := 48000, wf_type := WAVEFORM_TYPE_COUNTER }

/-- A sink that accepts the 44 header bytes and one 32-bit sample. -/
def one_sample_sink : FILE := { data := [], room := 48 }

/-- A mono burst run at 44100 Hz with 441 Hz cycles (`-t burst -r 44100 -f 441 -d 1000`):
100 samples per cycle. -/
def burst_441_user : COMMON_USER_PARAMS :=
  { save_as_float := false, sample_rate := 44100, bits_per_sample := 32,
    bytes_per_sample := 4, num_channels := 1, duration_ms := 1000, frequency_hz := 441,
    num_samples := 44100, wf_type := WAVEFORM_TYPE_BURST }

/-- The `extra` record for bursts of four cycles every 200 ms (`-n 4 -p 200`). -/
def burst_200_extra : ADDITIONAL_USER_PARAMS :=
  { power_fraction := 1, period_ms := 200, num_cycles := 4, markers_on := false,
    markers_in_msb := false, uncorrelated := false }

/-- A mono burst run at 800 Hz sample rate with 100 Hz cycles
(`-t burst -r 800 -f 100 -d 1000`), with the default period of 100 ms. -/
def burst_800_user : COMMON_USER_PARAMS :=
  { save_as_float := false, sample_rate := 800, bits_per_sample := 32,
    bytes_per_sample := 4, num_channels := 1, duration_ms := 1000, frequency_hz := 100,
    num_samples := 800, wf_type := WAVEFORM_TYPE_BURST }

/-- A sample of value -7 with the gain 0.1 (the `double` nearest to it). -/
def tenth_gain_fixed : FIXED_PARAMS :=
  { gain := double_lit 1 10, sample_value := -7, sample_number := 0, current_chnl := 0 }

/-- A two-channel white-noise run of one second (`-t white -c 2 -d 1000`). -/
def white2_user : COMMON_USER_PARAMS :=
  { save_as_float := false, sample_rate := 48000, bits_per_sample := 32,
    bytes_per_sample := 4, num_channels := 2, duration_ms := 1000, frequency_hz := 440,
    num_samples := 96000, wf_type := WAVEFORM_TYPE_WHITE }

/-- The `extra` record of an uncorrelated noise run (`-u`). -/
def uncorrelated_extra : ADDITIONAL_USER_PARAMS :=
  { power_fraction := 1, period_ms := 100, num_cycles := 0, markers_on := false,
    markers_in_msb := false, uncorrelated := true }

/-- A stand-in for the libm sine at the argument 2 × PI × 1 / 4, where the sine,
rounded to `double`, is 1.0. -/
def sin_quarter : IEEE → IEEE := fun _ => IEEE.fin 1 0

/-- A mono burst run with a cycle of four samples (`-t burst -f 12000 -d 1000`). -/
def burst4_user : COMMON_USER_PARAMS :=
  { save_as_float := false, sample_rate := 48000, bits_per_sample := 32,
    bytes_per_sample := 4, num_channels := 1, duration_ms := 1000, frequency_hz := 12000,
    num_samples := 48000, wf_type := WAVEFORM_TYPE_BURST }

/-- The `extra` record for bursts of 2^30 cycles (`-n 1073741824`), at the default
period of 100 ms. -/
def many_cycles_extra : ADDITIONAL_USER_PARAMS :=
  { power_fraction := 1, period_ms := 100, num_cycles := 1073741824, markers_on := false,
    markers_in_msb := false, uncorrelated := false }

/-! ## Further concrete inputs -/

/-- A two-channel white-noise run with markers (`-t white -c 2 -m lsb -l -20 -d 1000`). -/
def white_marked_user : COMMON_USER_PARAMS :=
  { save_as_float := false, sample_rate := 48000, bits_per_sample := 32,
    bytes_per_sample := 4, num_channels := 2, duration_ms := 1000, frequency_hz := 440,
    num_samples := 96000, wf_type := WAVEFORM_TYPE_WHITE }

/-- A sample of value 0x12345678 on channel 1 with the gain 0.1. -/
def tenth_gain_sample : FIXED_PARAMS :=
  { gain := double_lit 1 10, sample_value := 0x12345678, sample_number := 5, current_chnl := 1 }

/-- A 16-bit steps run (`-t steps -c 2 -b 16 -s 100`, the example of the help text). -/
def steps16_user : COMMON_USER_PARAMS :=
  { save_as_float := false, sample_rate := 48000, bits_per_sample := 16,
    bytes_per_sample := 2, num_channels := 2, duration_ms := 2, frequency_hz := 440,
    num_samples := 200, wf_type := WAVEFORM_TYPE_STEPS }

/-- A 16-bit two-channel burst run (`-t burst -b 16 -c 2 -d 1000`). -/
def burst16_user : COMMON_USER_PARAMS :=
  { save_as_float := false, sample_rate := 48000, bits_per_sample := 16,
    bytes_per_sample := 2, num_channels := 2, duration_ms := 1000, frequency_hz := 440,
    num_samples := 96000, wf_type := WAVEFORM_TYPE_BURST }

/-- A two-channel float silence run of three frames (`user.num_samples` is 3). -/
def float_user : COMMON_USER_PARAMS :=
  { save_as_float := true, sample_rate := 48000, bits_per_sample := 32,
    bytes_per_sample := 4, num_channels := 2, duration_ms := 0, frequency_hz := 440,
    num_samples := 3, wf_type := WAVEFORM_TYPE_SILENCE }

/-- A two-channel saw run of one second (`-t saw -c 2 -d 1000`): 48000 Hz, 440 Hz. -/
def saw2_user : COMMON_USER_PARAMS :=
  { save_as_float := false, sample_rate := 48000, bits_per_sample := 32,
    bytes_per_sample := 4, num_channels := 2, duration_ms := 1000, frequency_hz := 440,
    num_samples := 96000, wf_type := WAVEFORM_TYPE_SAW }

/-- A two-channel burst run at 44100 Hz with 441 Hz cycles
(`-t burst -r 44100 -f 441 -c 2 -d 1000`). -/
def burst2_user : COMMON_USER_PARAMS :=
  { save_as_float := false, sample_rate := 44100, bits_per_sample := 32,
    bytes_per_sample := 4, num_channels := 2, duration_ms := 1000, frequency_hz := 441,
    num_samples := 88200, wf_type := WAVEFORM_TYPE_BURST }

/-! ## The writes of a run

The functions below follow the header part and the two loops of `main` step by step
and collect the flag that each write returns: one flag per header chunk written, and
for each iteration of the outer loop the flags of the `finalise_data` calls of its
inner loop, which ends at the first false flag (the `break`). -/

/-- The flags of the header writes of wavgen.c `main`, in the order of the calls
`riff_write_header`, `riff_write_format`, `riff_write_fact` (float files only),
`riff_write_data_hdr`. -/
def header_writes (user : COMMON_USER_PARAMS) (wavfile : FILE) : List Bool :=
  let num_data_bytes := ((user.num_samples * user.bytes_per_sample) % 2 ^ 64) % 2 ^ 32
  let riff_header := riff_init_header num_data_bytes user.save_as_float
  let riff_fmt := riff_init_format user.sample_rate user.save_as_float user.num_channels
    user.bytes_per_sample user.bits_per_sample
  let riff_fact := riff_init_fact user.num_samples
  let riff_data := riff_init_data_hdr num_data_bytes
  let w1 := riff_write_header riff_header wavfile
  let w2 := riff_write_format riff_fmt w1.2
  let w3 := if user.save_as_float then riff_write_fact riff_fact w2.2 else (true, w2.2)
  let w4 := riff_write_data_hdr riff_data w3.2
  [w1.1, w2.1] ++ (if user.save_as_float then [w3.1] else []) ++ [w4.1]

/-- The flags that `finalise_data` returns in the inner loop of wavgen.c `main`, with
`k` channels still to go: one flag per channel reached. -/
def channel_writes (sin : IEEE → IEEE) (user : COMMON_USER_PARAMS) :
    Nat → RUN → Option (List Bool)
  | 0, _ => some []
  | k + 1, r =>
      match generate sin user r with
      | none => none
      | some r1 =>
          let f := finalise_data r1.fixed user r1.extra r1.wavfile
          if !f.1 then
            some [false]
          else
            (channel_writes sin user k
              { r1 with
                fixed := { f.2.1 with current_chnl := f.2.1.current_chnl + 1 }
                wavfile := f.2.2 }).map (fun l => true :: l)

/-- The flags of the `finalise_data` calls of the outer loop of wavgen.c `main`, with
`k` iterations still to go: one list per iteration. -/
def sample_writes (sin : IEEE → IEEE) (user : COMMON_USER_PARAMS) :
    Nat → RUN → Option (List (List Bool))
  | 0, _ => some []
  | k + 1, r =>
      match channel_loop sin user user.num_channels
          { r with fixed := { r.fixed with current_chnl := 0 } },
        channel_writes sin user user.num_channels
          { r with fixed := { r.fixed with current_chnl := 0 } } with
      | some r1, some l =>
          (sample_writes sin user k
            { r1 with fixed := { r1.fixed with sample_number := r1.fixed.sample_number + 1 } }).map
            (fun ls => l :: ls)
      | _, _ => none

/-- The flags of the `finalise_data` calls of a whole run of wavgen.c `main`. -/
def main_writes (sin : IEEE → IEEE) (fixed : FIXED_PARAMS) (user : COMMON_USER_PARAMS)
    (extra : ADDITIONAL_USER_PARAMS) (wavfile : FILE) : Option (List (List Bool)) :=
  let h := write_headers user wavfile
  sample_writes sin user user.num_samples
    { fixed := { fixed with sample_number := 0 }
      extra := extra
      statics := STATICS.init
      wavfile := h.2
      success := h.1 }

/-! ## A stand-in for the sine -/

/-- A stand-in for the libm sine with the two properties of the sine that the range
of `generate_sine` rests on: its values are finite and lie in [-1, 1], and it is 0 at
0.  It returns the sign of a finite argument. -/
def sin_sign : IEEE → IEEE
  | .fin m _ => .fin (Int.sign m) 0
  | _ => .nan

/-! # Theorems -/

/-! ## Bytes and the sink -/

@[simp] theorem le16_length (x : Nat) : (le16 x).length = 2 := rfl

@[simp] theorem le32_length (x : Nat) : (le32 x).length = 4 := rfl

theorem rd32_le32 (x : Nat) (h : x < 2 ^ 32) :
    rd32 (x % 256) (x / 256 % 256) (x / 65536 % 256) (x / 16777216 % 256) = x := by
  unfold rd32
  omega

theorem rd16_le16 (x : Nat) (h : x < 2 ^ 16) : rd16 (x % 256) (x / 256 % 256) = x := by
  unfold rd16
  omega

theorem fwrite_of_room (buf : List Nat) (file : FILE) (h : buf.length ≤ file.room) :
    fwrite buf file
      = (buf.length, { data := file.data ++ buf, room := file.room - buf.length }) := by
  unfold fwrite
  simp [Nat.min_eq_left h]

/-! ## Container writer (riff.c) -/

/-- C3: `riff_init_header` sets the RIFF ChunkSize to `36 + num_data_bytes` for
integer output and to `48 + num_data_bytes` for float output, truncated to 32 bits;
36 is `4 + (8 + 16) + 8`, the bytes after the first eight up to the payload, where
8 + 16 and 8 are the sizes of the serialised fmt chunk and data chunk header, and
the 12 bytes added for float are the size of the serialised fact chunk. -/
theorem riff_init_header_chunk_size (num_data_bytes : Nat) :
    (riff_init_header num_data_bytes false).ChunkSize = (36 + num_data_bytes) % 2 ^ 32
    ∧ (riff_init_header num_data_bytes true).ChunkSize = (48 + num_data_bytes) % 2 ^ 32
    ∧ (∀ (fmt : RIFF_FMT_CHUNK) (data : RIFF_DATA_CHUNK),
        (riff_init_header num_data_bytes false).ChunkSize
          = (4 + fmt.bytes.length + (data.bytes.length + num_data_bytes)) % 2 ^ 32
        ∧ fmt.bytes.length = 8 + 16 ∧ data.bytes.length = 8)
    ∧ (∀ (fmt : RIFF_FMT_CHUNK) (fact : RIFF_EXT_FMT_CHUNK) (data : RIFF_DATA_CHUNK),
        (riff_init_header num_data_bytes true).ChunkSize
          = (4 + fmt.bytes.length + fact.bytes.length
              + (data.bytes.length + num_data_bytes)) % 2 ^ 32
        ∧ fact.bytes.length = 12) := by
  simp only [riff_init_header, sizeof_FormatTag, sizeof_RIFF_FMT_CHUNK,
    sizeof_RIFF_EXT_FMT_CHUNK, sizeof_RIFF_DATA_CHUNK, RIFF_FMT_CHUNK.bytes,
    RIFF_EXT_FMT_CHUNK.bytes, RIFF_DATA_CHUNK.bytes, List.length_append, le32_length,
    le16_length]
  refine ⟨?_, ?_, ?_, ?_⟩
  · simp; omega
  · simp; omega
  · intro _ _; simp; omega
  · intro _ _ _; simp; omega

/-- C4: for every sample rate in 1..192000, channel count in 1..8 and bit depth 16
or 32 (float output is stored with depth 32), the bytes of the fmt chunk built by
`riff_init_format` parse back to exactly the requested sample rate, channel count
and bit depth, with format tag 1 for integer and 3 for float output, chunk size 16,
byte rate = rate * channels * bytes-per-sample and block align = channels *
bytes-per-sample. -/
theorem riff_init_format_roundtrip (sample_rate num_channels bits_per_sample : Nat)
    (is_float : Bool)
    (hr1 : 1 ≤ sample_rate) (hr2 : sample_rate ≤ 192000)
    (hc1 : 1 ≤ num_channels) (hc2 : num_channels ≤ 8)
    (hb : bits_per_sample = 16 ∨ bits_per_sample = 32) :
    parse_fmt_chunk
        (riff_init_format sample_rate is_float num_channels (bits_per_sample / 8)
          bits_per_sample).bytes
      = some { ChunkID := 0x20746d66
               ChunkSize := 16
               AudioFormat := if is_float then 3 else 1
               NumChannels := num_channels
               SampleRate := sample_rate
               ByteRate := sample_rate * num_channels * (bits_per_sample / 8)
               BlockAlign := num_channels * (bits_per_sample / 8)
               BitsPerSample := bits_per_sample } := by
  have hbr : sample_rate * num_channels * (bits_per_sample / 8) ≤ 192000 * 8 * 4 := by
    have h1 : sample_rate * num_channels ≤ 192000 * 8 := Nat.mul_le_mul hr2 hc2
    have h2 : bits_per_sample / 8 ≤ 4 := by omega
    exact Nat.mul_le_mul h1 h2
  have hba : num_channels * (bits_per_sample / 8) ≤ 8 * 4 := by
    have h2 : bits_per_sample / 8 ≤ 4 := by omega
    exact Nat.mul_le_mul hc2 h2
  have e1 : sample_rate % 2 ^ 32 = sample_rate := Nat.mod_eq_of_lt (by omega)
  have e2 : num_channels % 2 ^ 16 = num_channels := Nat.mod_eq_of_lt (by omega)
  have e3 : bits_per_sample / 8 % 2 ^ 16 = bits_per_sample / 8 := Nat.mod_eq_of_lt (by omega)
  have e4 : bits_per_sample % 2 ^ 16 = bits_per_sample := Nat.mod_eq_of_lt (by omega)
  have e5 : sample_rate * num_channels * (bits_per_sample / 8) % 2 ^ 32
      = sample_rate * num_channels * (bits_per_sample / 8) := Nat.mod_eq_of_lt (by omega)
  have e6 : num_channels * (bits_per_sample / 8) % 2 ^ 16
      = num_channels * (bits_per_sample / 8) := Nat.mod_eq_of_lt (by omega)
  simp only [riff_init_format, RIFF_FMT_CHUNK.bytes, le32, le16, List.cons_append,
    List.nil_append, parse_fmt_chunk, e1, e2, e3, e4, e5, e6, Option.some.injEq,
    RIFF_FMT_CHUNK.mk.injEq]
  refine ⟨by decide, by decide, ?_, ?_, ?_, ?_, ?_, ?_⟩
  · cases is_float
    · simp [WAVE_FORMAT_PCM, rd16]
    · simp [WAVE_FORMAT_IEEE_FLOAT, rd16]
  · exact rd16_le16 _ (by omega)
  · exact rd32_le32 _ (by omega)
  · exact rd32_le32 _ (by omega)
  · exact rd16_le16 _ (by omega)
  · exact rd16_le16 _ (by omega)

/-- The round trip of C4 at 48000 Hz, two channels, 32 bits, integer output. -/
theorem riff_init_format_roundtrip_witness :
    parse_fmt_chunk (riff_init_format 48000 false 2 (32 / 8) 32).bytes
      = some { ChunkID := 0x20746d66
               ChunkSize := 16
               AudioFormat := if false then 3 else 1
               NumChannels := 2
               SampleRate := 48000
               ByteRate := 48000 * 2 * (32 / 8)
               BlockAlign := 2 * (32 / 8)
               BitsPerSample := 32 } :=
  riff_init_format_roundtrip 48000 2 32 false (by decide) (by decide) (by decide)
    (by decide) (by decide)

/-! ## The loops of main only append to the sink -/

theorem generate_wavfile (sin : IEEE → IEEE) (user : COMMON_USER_PARAMS) (r r1 : RUN)
    (h : generate sin user r = some r1) : r1.wavfile = r.wavfile ∧ r1.success = r.success := by
  unfold generate at h
  cases hw : user.wf_type <;> simp only [hw, Option.map_eq_some', Option.some.injEq] at h
  all_goals first
    | (obtain ⟨g, _, hg⟩ := h; subst hg; exact ⟨rfl, rfl⟩)
    | (subst h; exact ⟨rfl, rfl⟩)

theorem save_sample_appends (fixed : FIXED_PARAMS) (user : COMMON_USER_PARAMS) (wavfile : FILE) :
    ∃ p, (save_sample fixed user wavfile).2.data = wavfile.data ++ p := by
  unfold save_sample
  cases save_sample_buffer fixed user with
  | none => exact ⟨[], by simp⟩
  | some buf => exact ⟨buf.take (min buf.length wavfile.room), by simp [fwrite]⟩

theorem channel_loop_appends (sin : IEEE → IEEE) (user : COMMON_USER_PARAMS) (k : Nat) :
    ∀ r r2 : RUN, channel_loop sin user k r = some r2 →
      ∃ p, r2.wavfile.data = r.wavfile.data ++ p := by
  induction k with
  | zero =>
      intro r r2 h
      simp only [channel_loop, Option.some.injEq] at h
      subst h
      exact ⟨[], by simp⟩
  | succ k ih =>
      intro r r2 h
      simp only [channel_loop] at h
      cases hg : generate sin user r with
      | none => simp [hg] at h
      | some r1 =>
          simp only [hg] at h
          have hw := (generate_wavfile sin user r r1 hg).1
          obtain ⟨p, hp⟩ := save_sample_appends
            (check_markers (check_format (check_level r1.fixed user) user) user r1.extra).2
            user r1.wavfile
          split at h
          · simp only [Option.some.injEq] at h
            subst h
            exact ⟨p, by simpa [finalise_data, hw] using hp⟩
          · obtain ⟨q, hq⟩ := ih _ _ h
            refine ⟨p ++ q, ?_⟩
            rw [hq]
            simp only [finalise_data] at hp ⊢
            rw [hp, hw, List.append_assoc]

theorem sample_loop_appends (sin : IEEE → IEEE) (user : COMMON_USER_PARAMS) (k : Nat) :
    ∀ r r2 : RUN, sample_loop sin user k r = some r2 →
      ∃ p, r2.wavfile.data = r.wavfile.data ++ p := by
  induction k with
  | zero =>
      intro r r2 h
      simp only [sample_loop, Option.some.injEq] at h
      subst h
      exact ⟨[], by simp⟩
  | succ k ih =>
      intro r r2 h
      simp only [sample_loop] at h
      cases hc : channel_loop sin user user.num_channels
          { r with fixed := { r.fixed with current_chnl := 0 } } with
      | none => simp [hc] at h
      | some r1 =>
          simp only [hc] at h
          obtain ⟨p, hp⟩ := channel_loop_appends sin user _ _ _ hc
          obtain ⟨q, hq⟩ := ih _ _ h
          exact ⟨p ++ q, by rw [hq]; simp only [hp, List.append_assoc]⟩

theorem riff_write_header_of_room (c : RIFF_HEADER) (file : FILE) (h : 12 ≤ file.room) :
    riff_write_header c file
      = (true, { data := file.data ++ c.bytes, room := file.room - 12 }) := by
  unfold riff_write_header
  rw [fwrite_of_room _ _ (by simpa [RIFF_HEADER.bytes] using h)]
  simp [RIFF_HEADER.bytes, sizeof_RIFF_HEADER]

theorem riff_write_format_of_room (c : RIFF_FMT_CHUNK) (file : FILE) (h : 24 ≤ file.room) :
    riff_write_format c file
      = (true, { data := file.data ++ c.bytes, room := file.room - 24 }) := by
  unfold riff_write_format
  rw [fwrite_of_room _ _ (by simpa [RIFF_FMT_CHUNK.bytes] using h)]
  simp [RIFF_FMT_CHUNK.bytes, sizeof_RIFF_FMT_CHUNK]

theorem riff_write_fact_of_room (c : RIFF_EXT_FMT_CHUNK) (file : FILE) (h : 12 ≤ file.room) :
    riff_write_fact c file
      = (true, { data := file.data ++ c.bytes, room := file.room - 12 }) := by
  unfold riff_write_fact
  rw [fwrite_of_room _ _ (by simpa [RIFF_EXT_FMT_CHUNK.bytes] using h)]
  simp [RIFF_EXT_FMT_CHUNK.bytes, sizeof_RIFF_EXT_FMT_CHUNK]

theorem riff_write_data_hdr_of_room (c : RIFF_DATA_CHUNK) (file : FILE) (h : 8 ≤ file.room) :
    riff_write_data_hdr c file
      = (true, { data := file.data ++ c.bytes, room := file.room - 8 }) := by
  unfold riff_write_data_hdr
  rw [fwrite_of_room _ _ (by simpa [RIFF_DATA_CHUNK.bytes] using h)]
  simp [RIFF_DATA_CHUNK.bytes, sizeof_RIFF_DATA_CHUNK]

theorem write_headers_of_room (user : COMMON_USER_PARAMS) (wavfile : FILE)
    (hroom : (if user.save_as_float then 56 else 44) ≤ wavfile.room) :
    write_headers user wavfile
      = (true,
         { data := wavfile.data
            ++ ([0x52, 0x49, 0x46, 0x46]
              ++ le32 (((if user.save_as_float then 48 else 36)
                    + (user.num_samples * user.bytes_per_sample) % 2 ^ 32) % 2 ^ 32)
              ++ [0x57, 0x41, 0x56, 0x45]
              ++ [0x66, 0x6d, 0x74, 0x20]
              ++ le32 16
              ++ le16 (if user.save_as_float then 3 else 1)
              ++ le16 (user.num_channels % 2 ^ 16)
              ++ le32 (user.sample_rate % 2 ^ 32)
              ++ le32 ((user.sample_rate % 2 ^ 32 * (user.num_channels % 2 ^ 16)
                    * (user.bytes_per_sample % 2 ^ 16)) % 2 ^ 32)
              ++ le16 (((user.num_channels % 2 ^ 16) * (user.bytes_per_sample % 2 ^ 16))
                    % 2 ^ 16)
              ++ le16 (user.bits_per_sample % 2 ^ 16)
              ++ (if user.save_as_float then
                    [0x66, 0x61, 0x63, 0x74] ++ le32 4 ++ le32 (user.num_samples % 2 ^ 32)
                  else [])
              ++ [0x64, 0x61, 0x74, 0x61]
              ++ le32 ((user.num_samples * user.bytes_per_sample) % 2 ^ 32))
           room := wavfile.room - (if user.save_as_float then 56 else 44) }) := by
  have hid1 : le32 (bswap32 0x52494646) = [0x52, 0x49, 0x46, 0x46] := by decide
  have hid2 : le32 (bswap32 0x57415645) = [0x57, 0x41, 0x56, 0x45] := by decide
  have hid3 : le32 (bswap32 0x666d7420) = [0x66, 0x6d, 0x74, 0x20] := by decide
  have hid4 : le32 (bswap32 0x66616374) = [0x66, 0x61, 0x63, 0x74] := by decide
  have hid5 : le32 (bswap32 0x64617461) = [0x64, 0x61, 0x74, 0x61] := by decide
  have hmod : ∀ n : Nat, n % 18446744073709551616 % 4294967296 = n % 4294967296 := by
    intro n; omega
  have hsz : ∀ a n : Nat,
      (a + n % 4294967296) % 18446744073709551616 % 4294967296 = (a + n) % 4294967296 := by
    intro a n; omega
  cases hf : user.save_as_float
  · simp only [hf, Bool.false_eq_true, if_false] at hroom
    unfold write_headers
    simp only [hf]
    rw [riff_write_header_of_room _ wavfile (by omega)]
    simp only []
    rw [riff_write_format_of_room _ _ (by simp only []; omega)]
    simp only []
    rw [riff_write_data_hdr_of_room _ _ (by simp; omega)]
    simp [RIFF_HEADER.bytes, RIFF_FMT_CHUNK.bytes, RIFF_DATA_CHUNK.bytes, riff_init_header,
      riff_init_format, riff_init_data_hdr, hid1, hid2, hid3, hid5, hmod, hsz,
      sizeof_RIFF_FMT_CHUNK, sizeof_RIFF_DATA_CHUNK, sizeof_FormatTag,
      WAVE_FORMAT_PCM, Nat.sub_sub]
  · simp only [hf, if_true] at hroom
    unfold write_headers
    simp only [hf]
    rw [riff_write_header_of_room _ wavfile (by omega)]
    simp only []
    rw [riff_write_format_of_room _ _ (by simp only []; omega)]
    simp only [if_true]
    rw [riff_write_fact_of_room _ _ (by simp only []; omega)]
    simp only []
    rw [riff_write_data_hdr_of_room _ _ (by simp only []; omega)]
    simp [RIFF_HEADER.bytes, RIFF_FMT_CHUNK.bytes, RIFF_DATA_CHUNK.bytes,
      RIFF_EXT_FMT_CHUNK.bytes, riff_init_header, riff_init_fact,
      riff_init_format, riff_init_data_hdr, hid1, hid2, hid3, hid4, hid5, hmod, hsz,
      sizeof_RIFF_FMT_CHUNK, sizeof_RIFF_DATA_CHUNK, sizeof_FormatTag,
      sizeof_RIFF_EXT_FMT_CHUNK, WAVE_FORMAT_IEEE_FLOAT, Nat.sub_sub]

/-- C2: with a sink that accepts the header, the bytes that `main` puts in front of
the payload are: ASCII RIFF, the RIFF size (LE32), ASCII WAVE, ASCII fmt and a
blank, 16 (LE32), the format tag (LE16), channels (LE16), rate (LE32), byte rate
(LE32), block align (LE16), bits (LE16), then for float output only the 12-byte
fact chunk (ASCII fact, 4 as LE32, the sample count as LE32), then ASCII data and
the data size (LE32).  That makes 44 bytes for integer and 56 for float output,
every header write succeeds, and whatever a completed run has written extends
these bytes. -/
theorem write_headers_layout (user : COMMON_USER_PARAMS) (wavfile : FILE)
    (hroom : (if user.save_as_float then 56 else 44) ≤ wavfile.room) :
    (write_headers user wavfile).1 = true
    ∧ (write_headers user wavfile).2.data
        = wavfile.data
          ++ ([0x52, 0x49, 0x46, 0x46]
            ++ le32 (((if user.save_as_float then 48 else 36)
                  + (user.num_samples * user.bytes_per_sample) % 2 ^ 32) % 2 ^ 32)
            ++ [0x57, 0x41, 0x56, 0x45]
            ++ [0x66, 0x6d, 0x74, 0x20]
            ++ le32 16
            ++ le16 (if user.save_as_float then 3 else 1)
            ++ le16 (user.num_channels % 2 ^ 16)
            ++ le32 (user.sample_rate % 2 ^ 32)
            ++ le32 ((user.sample_rate % 2 ^ 32 * (user.num_channels % 2 ^ 16)
                  * (user.bytes_per_sample % 2 ^ 16)) % 2 ^ 32)
            ++ le16 (((user.num_channels % 2 ^ 16) * (user.bytes_per_sample % 2 ^ 16)) % 2 ^ 16)
            ++ le16 (user.bits_per_sample % 2 ^ 16)
            ++ (if user.save_as_float then
                  [0x66, 0x61, 0x63, 0x74] ++ le32 4 ++ le32 (user.num_samples % 2 ^ 32)
                else [])
            ++ [0x64, 0x61, 0x74, 0x61]
            ++ le32 ((user.num_samples * user.bytes_per_sample) % 2 ^ 32))
    ∧ (write_headers user wavfile).2.data.length
        = wavfile.data.length + (if user.save_as_float then 56 else 44)
    ∧ (∀ (sin : IEEE → IEEE) (fixed : FIXED_PARAMS) (extra : ADDITIONAL_USER_PARAMS)
          (r : RUN), main sin fixed user extra wavfile = some r →
          ∃ payload, r.wavfile.data = (write_headers user wavfile).2.data ++ payload) := by
  have key := write_headers_of_room user wavfile hroom
  refine ⟨by rw [key], by rw [key], ?_, ?_⟩
  · rw [key]
    cases user.save_as_float <;> simp
  · intro sin fixed extra r h
    exact sample_loop_appends sin user _ _ _ h

/-! ## Marker injection (wf_markers.c) -/

theorem and_low_mask (u : Nat) : u &&& 0x00FFFFFF = u % 16777216 := by
  have h := Nat.and_pow_two_sub_one_eq_mod u 24
  simpa using h

theorem and_high_mask (u : Nat) : u &&& 0xFFFFFF00 = (u / 256 % 16777216) * 256 := by
  apply Nat.eq_of_testBit_eq
  intro i
  have e1 : (0xFFFFFF00 : Nat) = (2 ^ 24 - 1) <<< 8 := by decide
  have e2 : (u / 256 % 16777216) * 256 = ((u >>> 8) % 2 ^ 24) <<< 8 := by
    rw [Nat.shiftLeft_eq, Nat.shiftRight_eq_div_pow]
    norm_num
  rw [e2, Nat.testBit_and, e1, Nat.testBit_shiftLeft, Nat.testBit_shiftLeft,
    Nat.testBit_two_pow_sub_one, Nat.testBit_mod_two_pow, Nat.testBit_shiftRight]
  by_cases h : 8 ≤ i
  · have : 8 + (i - 8) = i := by omega
    simp [h, this, Bool.and_comm]
  · simp [h]

theorem or_marker_high (a k : Nat) (h : a < 16777216) :
    a ||| (k <<< 24) = k * 16777216 + a := by
  have := Nat.mul_add_lt_is_or (i := 24) (b := a) (by simpa using h) k
  rw [Nat.lor_comm, Nat.shiftLeft_eq, Nat.mul_comm k]
  simp only [Nat.reducePow] at this ⊢
  exact this.symm

theorem or_marker_low (a b : Nat) (h : b < 256) : (a * 256) ||| b = a * 256 + b := by
  have := Nat.mul_add_lt_is_or (i := 8) (b := b) (by simpa using h) a
  simp only [Nat.reducePow] at this
  rw [Nat.mul_comm a 256]
  exact this.symm

theorem to_u32_lt (v : Int) : to_u32 v < 4294967296 := by
  unfold to_u32
  omega

theorem add_markers_msb_value (fixed : FIXED_PARAMS) (hc : fixed.current_chnl ≤ 7) :
    (add_markers fixed true).sample_value
      = ((to_u32 fixed.sample_value % 16777216 : Nat) : Int)
          + (0xC1 + (fixed.current_chnl : Int)) * 16777216 - 4294967296 := by
  unfold add_markers
  simp only [if_true]
  have e1 : (fixed.current_chnl + 1) % 2 ^ 32 = fixed.current_chnl + 1 :=
    Nat.mod_eq_of_lt (by omega)
  have e2 : (0xC0 + (fixed.current_chnl + 1)) % 2 ^ 32 = 0xC1 + fixed.current_chnl :=
    by omega
  rw [e1, e2, and_low_mask, Nat.shiftLeft_eq]
  have e3 : (0xC1 + fixed.current_chnl) * 2 ^ 24 % 2 ^ 32
      = (0xC1 + fixed.current_chnl) <<< 24 := by
    rw [Nat.shiftLeft_eq]
    exact Nat.mod_eq_of_lt (by omega)
  rw [e3, or_marker_high _ _ (Nat.mod_lt _ (by decide))]
  unfold to_i32
  have hlt : to_u32 fixed.sample_value % 16777216 < 16777216 := Nat.mod_lt _ (by decide)
  split <;> omega

theorem add_markers_lsb_value (fixed : FIXED_PARAMS) (hc : fixed.current_chnl ≤ 7) :
    (add_markers fixed false).sample_value
      = to_i32 ((to_u32 fixed.sample_value / 256 % 16777216) * 256
          + (0xC1 + fixed.current_chnl)) := by
  unfold add_markers
  simp only [Bool.false_eq_true, if_false]
  have e1 : (fixed.current_chnl + 1) % 2 ^ 32 = fixed.current_chnl + 1 :=
    Nat.mod_eq_of_lt (by omega)
  have e2 : (0xC0 + (fixed.current_chnl + 1)) % 2 ^ 32 = 0xC1 + fixed.current_chnl :=
    by omega
  rw [e1, e2, and_high_mask, or_marker_low _ _ (by omega)]

/-- C6: for every sample value and every channel index in 0..7, `add_markers`
replaces exactly one byte of the sample and leaves the other three (and the rest of
the state) unchanged: with markers in the high byte, byte 3 of the result is
0xC0 + channel + 1 and bytes 0 to 2 are those of the sample; with markers in the
low byte, byte 0 is 0xC0 + channel + 1 and bytes 1 to 3 are those of the sample.
The result does not depend on the previous content of the replaced byte, and a zero
sample with low-byte markers on channel 0 becomes exactly 0xC1. -/
theorem add_markers_replaces_one_byte (fixed : FIXED_PARAMS) (hc : fixed.current_chnl ≤ 7) :
    (byte_of 3 (add_markers fixed true).sample_value = 0xC0 + (fixed.current_chnl : Int) + 1
      ∧ byte_of 0 (add_markers fixed true).sample_value = byte_of 0 fixed.sample_value
      ∧ byte_of 1 (add_markers fixed true).sample_value = byte_of 1 fixed.sample_value
      ∧ byte_of 2 (add_markers fixed true).sample_value = byte_of 2 fixed.sample_value)
    ∧ (byte_of 0 (add_markers fixed false).sample_value = 0xC0 + (fixed.current_chnl : Int) + 1
      ∧ byte_of 1 (add_markers fixed false).sample_value = byte_of 1 fixed.sample_value
      ∧ byte_of 2 (add_markers fixed false).sample_value = byte_of 2 fixed.sample_value
      ∧ byte_of 3 (add_markers fixed false).sample_value = byte_of 3 fixed.sample_value)
    ∧ (∀ msb : Bool, -2147483648 ≤ (add_markers fixed msb).sample_value
        ∧ (add_markers fixed msb).sample_value < 2147483648
        ∧ (add_markers fixed msb).gain = fixed.gain
        ∧ (add_markers fixed msb).sample_number = fixed.sample_number
        ∧ (add_markers fixed msb).current_chnl = fixed.current_chnl)
    ∧ (∀ other : FIXED_PARAMS, other.current_chnl = fixed.current_chnl →
        byte_of 0 other.sample_value = byte_of 0 fixed.sample_value →
        byte_of 1 other.sample_value = byte_of 1 fixed.sample_value →
        byte_of 2 other.sample_value = byte_of 2 fixed.sample_value →
        (add_markers other true).sample_value = (add_markers fixed true).sample_value)
    ∧ (∀ other : FIXED_PARAMS, other.current_chnl = fixed.current_chnl →
        byte_of 1 other.sample_value = byte_of 1 fixed.sample_value →
        byte_of 2 other.sample_value = byte_of 2 fixed.sample_value →
        byte_of 3 other.sample_value = byte_of 3 fixed.sample_value →
        (add_markers other false).sample_value = (add_markers fixed false).sample_value)
    ∧ (fixed.sample_value = 0 → fixed.current_chnl = 0 →
        (add_markers fixed false).sample_value = 0xC1) := by
  have hu : ∀ v : Int, ((to_u32 v : Nat) : Int) = v % 4294967296 := by
    intro v
    unfold to_u32
    omega
  have hf := hu fixed.sample_value
  refine ⟨?_, ?_, ?_, ?_, ?_, ?_⟩
  · rw [add_markers_msb_value fixed hc]
    simp only [byte_of]
    norm_num
    refine ⟨?_, ?_, ?_, ?_⟩ <;> omega
  · rw [add_markers_lsb_value fixed hc]
    simp only [byte_of, to_i32]
    norm_num
    refine ⟨?_, ?_, ?_, ?_⟩ <;> split <;> omega
  · intro msb
    refine ⟨?_, ?_, ?_, ?_, ?_⟩
    · cases msb
      · rw [add_markers_lsb_value fixed hc]; unfold to_i32; split <;> omega
      · rw [add_markers_msb_value fixed hc]; omega
    · cases msb
      · rw [add_markers_lsb_value fixed hc]; unfold to_i32; split <;> omega
      · rw [add_markers_msb_value fixed hc]; omega
    · cases msb <;> simp [add_markers]
    · cases msb <;> simp [add_markers]
    · cases msb <;> simp [add_markers]
  · intro other ho h0 h1 h2
    have hg := hu other.sample_value
    rw [add_markers_msb_value fixed hc, add_markers_msb_value other (by omega), ho]
    simp only [byte_of] at h0 h1 h2
    norm_num at h0 h1 h2
    omega
  · intro other ho h1 h2 h3
    have hg := hu other.sample_value
    rw [add_markers_lsb_value fixed hc, add_markers_lsb_value other (by omega), ho]
    simp only [byte_of] at h1 h2 h3
    norm_num at h1 h2 h3
    have : to_u32 other.sample_value / 256 % 16777216
        = to_u32 fixed.sample_value / 256 % 16777216 := by omega
    rw [this]
  · intro hv h0
    rw [add_markers_lsb_value fixed hc, hv, h0]
    decide

/-! ## Level scaling (wf_output.c) -/

theorem double_lit_1_0001 : double_lit 10001 10000 = .fin 4504049987333233 (-52) := by decide
theorem double_lit_0_9999 : double_lit 9999 10000 = .fin 9006298534815518 (-53) := by decide

/-- A datum with a significand of at most 53 bits whose value is at most 1.0001 is
not greater than the `double` constant `1.0001`. -/
theorem not_gt_upper (m e : Int) (hm : m.natAbs ≤ 2 ^ 53)
    (h : fp_value m e ≤ 10001 / 10000) :
    fp_gt (.fin m e) (.fin 4504049987333233 (-52)) = false := by
  unfold fp_gt fp_lt
  simp only [decide_eq_false_iff_not, not_lt]
  by_cases he : -52 ≤ e
  · have hmin : min (-52) e = -52 := min_eq_left he
    rw [hmin]
    obtain ⟨k, hk⟩ : ∃ k : Nat, e = (k : Int) - 52 := ⟨(e + 52).toNat, by omega⟩
    subst hk
    have e1 : ((k : Int) - 52 - -52).toNat = k := by omega
    have e2 : ((-52 : Int) - -52).toNat = 0 := by decide
    rw [e1, e2]
    unfold fp_value at h
    rw [zpow_sub₀ (by norm_num : (2 : ℚ) ≠ 0), zpow_natCast] at h
    have h2 : ((m * 2 ^ k : Int) : ℚ) < 4504049987333234 := by
      push_cast
      have hpos : (0 : ℚ) < 2 ^ (52 : ℤ) := by positivity
      have h3 : (m : ℚ) * 2 ^ k ≤ 10001 / 10000 * 2 ^ (52 : ℤ) := by
        have := mul_le_mul_of_nonneg_right h hpos.le
        rwa [mul_div_assoc', div_mul_cancel₀ _ hpos.ne'] at this
      have h4 : (10001 / 10000 : ℚ) * 2 ^ (52 : ℤ) < 4504049987333234 := by norm_num
      linarith
    have h5 : m * 2 ^ k < 4504049987333234 := by exact_mod_cast h2
    omega
  · have hmin : min (-52) e = e := min_eq_right (by omega)
    rw [hmin]
    obtain ⟨j, hj⟩ : ∃ j : Nat, e = -53 - (j : Int) := ⟨(-53 - e).toNat, by omega⟩
    subst hj
    have e1 : ((-52 : Int) - (-53 - (j : Int))).toNat = j + 1 := by omega
    have e2 : ((-53 : Int) - (j : Int) - (-53 - (j : Int))).toNat = 0 := by omega
    rw [e1, e2]
    have hp : (1 : Int) ≤ 2 ^ j := one_le_pow₀ (by norm_num)
    have hm2 : m ≤ 2 ^ 53 := by omega
    rw [pow_succ]
    nlinarith

/-- A datum whose value is at least 0.9999 is not less than the `double` constant
`0.9999`, provided its significand has at most 53 bits. -/
theorem not_lt_lower (m e : Int) (hm : m.natAbs ≤ 2 ^ 53)
    (h : 9999 / 10000 ≤ fp_value m e) :
    fp_lt (.fin m e) (.fin 9006298534815518 (-53)) = false := by
  unfold fp_lt
  simp only [decide_eq_false_iff_not, not_lt]
  by_cases he : -53 ≤ e
  · have hmin : min e (-53) = -53 := min_eq_right he
    rw [hmin]
    obtain ⟨k, hk⟩ : ∃ k : Nat, e = (k : Int) - 53 := ⟨(e + 53).toNat, by omega⟩
    subst hk
    have e1 : ((k : Int) - 53 - -53).toNat = k := by omega
    have e2 : ((-53 : Int) - -53).toNat = 0 := by decide
    rw [e1, e2]
    unfold fp_value at h
    rw [zpow_sub₀ (by norm_num : (2 : ℚ) ≠ 0), zpow_natCast] at h
    have h2 : (9006298534815517 : ℚ) < ((m * 2 ^ k : Int) : ℚ) := by
      push_cast
      have hpos : (0 : ℚ) < 2 ^ (53 : ℤ) := by positivity
      have h3 : 9999 / 10000 * 2 ^ (53 : ℤ) ≤ (m : ℚ) * 2 ^ k := by
        have := mul_le_mul_of_nonneg_right h hpos.le
        rwa [mul_div_assoc', div_mul_cancel₀ _ hpos.ne'] at this
      have h4 : (9006298534815517 : ℚ) < 9999 / 10000 * 2 ^ (53 : ℤ) := by norm_num
      linarith
    have h5 : 9006298534815517 < m * 2 ^ k := by exact_mod_cast h2
    omega
  · exfalso
    have hm2 : (m : ℚ) ≤ 2 ^ (53 : ℤ) := by
      have : m ≤ 2 ^ 53 := by omega
      have h6 : (m : ℚ) ≤ ((2 ^ 53 : Int) : ℚ) := by exact_mod_cast this
      have h9 : (((2 : Int) ^ 53 : Int) : ℚ) = (2 : ℚ) ^ (53 : ℤ) := by norm_num
      rwa [h9] at h6
    have hpw : (2 : ℚ) ^ e ≤ 2 ^ (-54 : ℤ) := zpow_le_zpow_right₀ (by norm_num) (by omega)
    have hpos : (0 : ℚ) < 2 ^ e := zpow_pos (by norm_num) e
    unfold fp_value at h
    have h7 : (m : ℚ) * 2 ^ e ≤ 2 ^ (53 : ℤ) * 2 ^ (-54 : ℤ) := by
      by_cases hneg : (m : ℚ) ≤ 0
      · have : (m : ℚ) * 2 ^ e ≤ 0 := mul_nonpos_of_nonpos_of_nonneg hneg hpos.le
        have : (0 : ℚ) ≤ 2 ^ (53 : ℤ) * 2 ^ (-54 : ℤ) := by positivity
        linarith
      · exact mul_le_mul hm2 hpw hpos.le (by positivity)
    have h8 : (2 : ℚ) ^ (53 : ℤ) * 2 ^ (-54 : ℤ) = 1 / 2 := by norm_num
    rw [h8] at h7
    linarith

/-- C8: the level-scaling stage `check_level` leaves the state, and so the sample,
unchanged whenever the waveform type is counter, silence or steps, whatever the
gain is, and for every waveform type whenever the gain, a `double` (a significand of
at most 53 bits), lies within 0.0001 of 1.0, that is 0.9999 ≤ gain ≤ 1.0001. -/
theorem check_level_unchanged (fixed : FIXED_PARAMS) (user : COMMON_USER_PARAMS) :
    ((user.wf_type = WAVEFORM_TYPE_COUNTER ∨ user.wf_type = WAVEFORM_TYPE_SILENCE
        ∨ user.wf_type = WAVEFORM_TYPE_STEPS) → check_level fixed user = fixed)
    ∧ (∀ m e : Int, fixed.gain = .fin m e → m.natAbs ≤ 2 ^ 53 →
        (9999 / 10000 : ℚ) ≤ fp_value m e → fp_value m e ≤ 10001 / 10000 →
        check_level fixed user = fixed) := by
  constructor
  · intro h
    unfold check_level
    rcases h with h | h | h <;> simp [h]
  · intro m e hg hm hlo hhi
    unfold check_level
    rw [hg, double_lit_1_0001, double_lit_0_9999, not_gt_upper m e hm hhi,
      not_lt_lower m e hm hlo]
    cases user.wf_type <;> simp

/-! ## Narrowing and serialisation (wf_output.c) -/

theorem le32_to_u32_bytes (v : Int) :
    le32 (to_u32 v)
      = [(byte_of 0 v).toNat, (byte_of 1 v).toNat, (byte_of 2 v).toNat, (byte_of 3 v).toNat] := by
  simp only [le32, to_u32, byte_of]
  norm_num
  refine ⟨?_, ?_, ?_, ?_⟩ <;> omega

theorem save_sample_buffer_16 (fixed : FIXED_PARAMS) (user : COMMON_USER_PARAMS)
    (hf : user.save_as_float = false) (hb : user.bytes_per_sample = 2) :
    save_sample_buffer fixed user
      = some [(byte_of 2 fixed.sample_value).toNat, (byte_of 3 fixed.sample_value).toNat] := by
  simp only [save_sample_buffer, hf, hb, BYTES_32BIT, BYTES_16BIT, le16, to_u16, to_i16,
    byte_of]
  norm_num
  constructor <;> split <;> omega

theorem save_sample_buffer_32 (fixed : FIXED_PARAMS) (user : COMMON_USER_PARAMS)
    (hf : user.save_as_float = false) (hb : user.bytes_per_sample = 4) :
    save_sample_buffer fixed user = some (le32 (to_u32 fixed.sample_value)) := by
  simp [save_sample_buffer, hf, hb, BYTES_32BIT]

theorem save_sample_of_room (fixed : FIXED_PARAMS) (user : COMMON_USER_PARAMS)
    (wavfile : FILE) (buf : List Nat) (hbuf : save_sample_buffer fixed user = some buf)
    (hroom : buf.length ≤ wavfile.room) :
    save_sample fixed user wavfile
      = (true, { data := wavfile.data ++ buf, room := wavfile.room - buf.length }) := by
  unfold save_sample
  rw [hbuf]
  simp only []
  rw [fwrite_of_room _ _ hroom]
  simp

/-- C9: for 16-bit integer output and every sample value v, negative values
included, `save_sample` hands exactly two bytes to the sink: bytes 2 and 3 of v, that
is the little-endian bytes of the signed 16-bit value floor(v / 65536) (the upper
half of v, no rounding); for 32-bit integer output it hands over the four bytes of v
unchanged, least significant first.  A sink with room for them receives exactly
these bytes and the write succeeds. -/
theorem save_sample_narrowing (fixed : FIXED_PARAMS) (user : COMMON_USER_PARAMS)
    (wavfile : FILE) (hf : user.save_as_float = false) :
    (user.bytes_per_sample = 2 →
      save_sample_buffer fixed user
        = some [(byte_of 2 fixed.sample_value).toNat, (byte_of 3 fixed.sample_value).toNat]
      ∧ [(byte_of 2 fixed.sample_value).toNat, (byte_of 3 fixed.sample_value).toNat]
        = le16 (to_u16 ⌊(fixed.sample_value : ℚ) / 65536⌋)
      ∧ (-2147483648 ≤ fixed.sample_value → fixed.sample_value < 2147483648 →
          -32768 ≤ ⌊(fixed.sample_value : ℚ) / 65536⌋
          ∧ ⌊(fixed.sample_value : ℚ) / 65536⌋ < 32768)
      ∧ (2 ≤ wavfile.room →
          save_sample fixed user wavfile
            = (true,
               { data := wavfile.data
                   ++ [(byte_of 2 fixed.sample_value).toNat,
                       (byte_of 3 fixed.sample_value).toNat]
                 room := wavfile.room - 2 })))
    ∧ (user.bytes_per_sample = 4 →
      save_sample_buffer fixed user
        = some [(byte_of 0 fixed.sample_value).toNat, (byte_of 1 fixed.sample_value).toNat,
                (byte_of 2 fixed.sample_value).toNat, (byte_of 3 fixed.sample_value).toNat]
      ∧ (4 ≤ wavfile.room →
          save_sample fixed user wavfile
            = (true,
               { data := wavfile.data
                   ++ [(byte_of 0 fixed.sample_value).toNat,
                       (byte_of 1 fixed.sample_value).toNat,
                       (byte_of 2 fixed.sample_value).toNat,
                       (byte_of 3 fixed.sample_value).toNat]
                 room := wavfile.room - 4 }))) := by
  have hfloor : ⌊(fixed.sample_value : ℚ) / 65536⌋ = fixed.sample_value / 65536 := by
    have := Rat.floor_intCast_div_natCast fixed.sample_value 65536
    simpa using this
  constructor
  · intro hb
    have h16 := save_sample_buffer_16 fixed user hf hb
    refine ⟨h16, ?_, ?_, ?_⟩
    · rw [hfloor]
      simp only [le16, to_u16, byte_of]
      norm_num
      constructor <;> omega
    · intro h1 h2
      rw [hfloor]
      omega
    · intro hroom
      exact save_sample_of_room fixed user wavfile _ h16 (by simpa using hroom)
  · intro hb
    have h32 := save_sample_buffer_32 fixed user hf hb
    rw [le32_to_u32_bytes] at h32
    refine ⟨h32, ?_⟩
    intro hroom
    exact save_sample_of_room fixed user wavfile _ h32 (by simpa using hroom)

theorem save_sample_buffer_length (fixed : FIXED_PARAMS) (user : COMMON_USER_PARAMS)
    (buf : List Nat) (h : save_sample_buffer fixed user = some buf) :
    buf.length = if user.save_as_float = true ∨ user.bytes_per_sample = 4 then 4 else 2 := by
  unfold save_sample_buffer at h
  simp only [BYTES_32BIT, BYTES_16BIT] at h
  split at h
  · rename_i h1
    simp only [Option.some.injEq] at h
    subst h
    simp [h1]
  · split at h
    · rename_i h1 h2
      simp only [Option.some.injEq] at h
      subst h
      simp [h2]
    · split at h
      · rename_i h1 h2 h3
        simp only [Option.some.injEq] at h
        subst h
        simp [h1, h2]
      · simp at h

theorem save_sample_buffer_none_iff (fixed : FIXED_PARAMS) (user : COMMON_USER_PARAMS) :
    save_sample_buffer fixed user = none
      ↔ (user.save_as_float = false ∧ user.bytes_per_sample ≠ 4 ∧ user.bytes_per_sample ≠ 2) := by
  unfold save_sample_buffer
  simp only [BYTES_32BIT, BYTES_16BIT]
  cases user.save_as_float <;> by_cases h4 : user.bytes_per_sample = 4 <;>
    by_cases h2 : user.bytes_per_sample = 2 <;> simp [h4, h2]

/-- C10 (as amended): `save_sample` fails exactly when the output is not float and
the bytes-per-sample is neither 4 nor 2, or the sink accepts fewer bytes than the
width of the sample (4 for float and 32-bit, 2 for 16-bit output).  In the first
case no byte is written; in particular every 24-bit and every 8-bit integer write
fails with the sink untouched. -/
theorem save_sample_fails_iff (fixed : FIXED_PARAMS) (user : COMMON_USER_PARAMS)
    (wavfile : FILE) :
    ((save_sample fixed user wavfile).1 = false
      ↔ ((user.save_as_float = false ∧ user.bytes_per_sample ≠ 4 ∧ user.bytes_per_sample ≠ 2)
          ∨ wavfile.room
              < (if user.save_as_float = true ∨ user.bytes_per_sample = 4 then 4 else 2)))
    ∧ ((user.save_as_float = false ∧ user.bytes_per_sample ≠ 4 ∧ user.bytes_per_sample ≠ 2) →
        save_sample fixed user wavfile = (false, wavfile))
    ∧ (user.save_as_float = false →
        (user.bytes_per_sample = BYTES_24BIT ∨ user.bytes_per_sample = BYTES_8BIT) →
        save_sample fixed user wavfile = (false, wavfile)) := by
  have hnone : (user.save_as_float = false ∧ user.bytes_per_sample ≠ 4
      ∧ user.bytes_per_sample ≠ 2) → save_sample fixed user wavfile = (false, wavfile) := by
    intro h
    unfold save_sample
    rw [(save_sample_buffer_none_iff fixed user).2 h]
  refine ⟨?_, hnone, ?_⟩
  · cases hbuf : save_sample_buffer fixed user with
    | none =>
        have hu := (save_sample_buffer_none_iff fixed user).1 hbuf
        simp [hnone hu, hu]
    | some buf =>
        have hlen := save_sample_buffer_length fixed user buf hbuf
        have hsome : ¬ (user.save_as_float = false ∧ user.bytes_per_sample ≠ 4
            ∧ user.bytes_per_sample ≠ 2) := by
          intro hu
          rw [(save_sample_buffer_none_iff fixed user).2 hu] at hbuf
          cases hbuf
        unfold save_sample
        rw [hbuf]
        simp only [fwrite, decide_eq_false_iff_not, hsome, false_or, ← hlen]
        omega
  · intro hf hb
    apply hnone
    simp only [BYTES_24BIT, BYTES_8BIT] at hb
    refine ⟨hf, ?_, ?_⟩ <;> omega

/-- C10 fails as stated: with 32-bit integer output (a supported width) and a sink
that accepts no more bytes, `save_sample` fails and writes no byte. -/
theorem save_sample_fails_on_full_sink :
    c10_user.save_as_float = false ∧ c10_user.bytes_per_sample = 4
    ∧ save_sample c10_fixed c10_user full_sink = (false, full_sink) := by
  decide

/-! ## When markers are applied (wf_markers.c) -/

theorem add_markers_same_iff (fixed : FIXED_PARAMS) (msb : Bool)
    (hc : fixed.current_chnl ≤ 7)
    (h1 : -2147483648 ≤ fixed.sample_value) (h2 : fixed.sample_value < 2147483648) :
    (add_markers fixed msb).sample_value = fixed.sample_value
      ↔ byte_of (if msb then 3 else 0) fixed.sample_value
          = 0xC0 + (fixed.current_chnl : Int) + 1 := by
  have hu : ((to_u32 fixed.sample_value : Nat) : Int) = fixed.sample_value % 4294967296 := by
    unfold to_u32
    omega
  cases msb
  · rw [add_markers_lsb_value fixed hc]
    simp only [byte_of, to_i32, Bool.false_eq_true, if_false]
    norm_num
    split <;> omega
  · rw [add_markers_msb_value fixed hc]
    simp only [byte_of, if_true]
    norm_num
    omega

/-- C7 (as amended): `check_markers` overwrites the marker byte, that is it returns
true and leaves `add_markers` applied to the sample, if and only if markers are
enabled, the waveform type is one of counter, silence, steps, pink or white, and the
output is not float; otherwise it returns false and leaves the state unchanged, in
particular for saw, sine, square and burst and for any float output, whatever the
marker settings are.  For channels 0..7 the sample value differs afterwards exactly
when, in addition, the overwritten byte did not already hold the marker value. -/
theorem check_markers_applies_iff (fixed : FIXED_PARAMS) (user : COMMON_USER_PARAMS)
    (extra : ADDITIONAL_USER_PARAMS) :
    ((check_markers fixed user extra).1 = true
      ↔ (extra.markers_on = true
          ∧ (user.wf_type = WAVEFORM_TYPE_COUNTER ∨ user.wf_type = WAVEFORM_TYPE_SILENCE
              ∨ user.wf_type = WAVEFORM_TYPE_STEPS ∨ user.wf_type = WAVEFORM_TYPE_PINK
              ∨ user.wf_type = WAVEFORM_TYPE_WHITE)
          ∧ user.save_as_float = false))
    ∧ ((check_markers fixed user extra).1 = true →
        (check_markers fixed user extra).2 = add_markers fixed extra.markers_in_msb)
    ∧ ((check_markers fixed user extra).1 = false →
        (check_markers fixed user extra).2 = fixed)
    ∧ ((user.wf_type = WAVEFORM_TYPE_SAW ∨ user.wf_type = WAVEFORM_TYPE_SINE
          ∨ user.wf_type = WAVEFORM_TYPE_SQUARE ∨ user.wf_type = WAVEFORM_TYPE_BURST
          ∨ user.save_as_float = true) →
        check_markers fixed user extra = (false, fixed))
    ∧ (fixed.current_chnl ≤ 7 → -2147483648 ≤ fixed.sample_value →
        fixed.sample_value < 2147483648 →
        ((check_markers fixed user extra).2.sample_value ≠ fixed.sample_value
          ↔ ((check_markers fixed user extra).1 = true
              ∧ byte_of (if extra.markers_in_msb then 3 else 0) fixed.sample_value
                  ≠ 0xC0 + (fixed.current_chnl : Int) + 1))) := by
  refine ⟨?_, ?_, ?_, ?_, ?_⟩
  · unfold check_markers
    cases extra.markers_on <;> cases user.wf_type <;> cases user.save_as_float <;> simp
  · unfold check_markers
    cases extra.markers_on <;> cases user.wf_type <;> cases user.save_as_float <;> simp
  · unfold check_markers
    cases extra.markers_on <;> cases user.wf_type <;> cases user.save_as_float <;> simp
  · intro h
    unfold check_markers
    cases extra.markers_on <;> cases hw : user.wf_type <;> cases hf : user.save_as_float <;>
      simp [hw, hf] at h ⊢
  · intro hc h1 h2
    have key := add_markers_same_iff fixed extra.markers_in_msb hc h1 h2
    unfold check_markers
    cases extra.markers_on <;> cases user.wf_type <;> cases user.save_as_float <;>
      simp [key]

/-- C7 fails as stated: markers are enabled (high byte), the type is counter and the
output is 32-bit integer, yet at frame 0xC1000000, channel 0, the sample produced by
`generate_counter` already carries 0xC1 in its high byte and `check_markers` leaves
it as it was. -/
theorem check_markers_keeps_marked_sample :
    c7_extra.markers_on = true ∧ c7_user.wf_type = WAVEFORM_TYPE_COUNTER
    ∧ c7_user.save_as_float = false
    ∧ generate_counter { c7_fixed with sample_value := 0 } c7_user c7_extra = c7_fixed
    ∧ (check_markers c7_fixed c7_user c7_extra).2.sample_value = c7_fixed.sample_value := by
  decide

/-! ## The counter run with markers (wf_counter.c, wavgen.c) -/

theorem to_u32_to_i32 (u : Nat) (h : u < 2 ^ 32) : to_u32 (to_i32 u) = u := by
  unfold to_u32 to_i32
  split <;> omega

theorem counter_word_written (fixed : FIXED_PARAMS) (user : COMMON_USER_PARAMS)
    (extra : ADDITIONAL_USER_PARAMS) (hb : user.bytes_per_sample = 4) (hm : extra.markers_on = true)
    (hc : fixed.current_chnl ≤ 7) :
    to_u32 (add_markers (generate_counter fixed user extra) extra.markers_in_msb).sample_value
      = counter_marker_word extra.markers_in_msb fixed.sample_number fixed.current_chnl := by
  have hcc : (generate_counter fixed user extra).current_chnl = fixed.current_chnl := by
    unfold generate_counter
    simp [hb, BYTES_32BIT]
  cases hmsb : extra.markers_in_msb
  · have hv : (generate_counter fixed user extra).sample_value
        = to_i32 ((fixed.sample_number % 2 ^ 32) <<< 8 % 2 ^ 32) := by
      unfold generate_counter
      simp [hb, hm, hmsb, BYTES_32BIT]
    have h1 := to_u32_to_i32 ((fixed.sample_number % 2 ^ 32) <<< 8 % 2 ^ 32)
      (Nat.mod_lt _ (by decide))
    rw [add_markers_lsb_value _ (by rw [hcc]; exact hc), hv, hcc, h1]
    unfold counter_marker_word
    simp only [Bool.false_eq_true, if_false]
    rw [Nat.shiftLeft_eq, Nat.shiftLeft_eq, or_marker_low _ _ (by omega)]
    rw [to_u32_to_i32 _ (by omega)]
    omega
  · have hv : (generate_counter fixed user extra).sample_value
        = to_i32 (fixed.sample_number % 2 ^ 32) := by
      unfold generate_counter
      simp [hb, hm, hmsb, BYTES_32BIT]
    have h1 := to_u32_to_i32 (fixed.sample_number % 2 ^ 32) (Nat.mod_lt _ (by decide))
    rw [add_markers_msb_value _ (by rw [hcc]; exact hc), hv, hcc, h1]
    unfold counter_marker_word
    simp only [if_true]
    rw [Nat.lor_comm, or_marker_high _ _ (by omega)]
    unfold to_u32
    omega

theorem generate_counter_frame (fixed : FIXED_PARAMS) (user : COMMON_USER_PARAMS)
    (extra : ADDITIONAL_USER_PARAMS) :
    (generate_counter fixed user extra).current_chnl = fixed.current_chnl
    ∧ (generate_counter fixed user extra).sample_number = fixed.sample_number
    ∧ (generate_counter fixed user extra).gain = fixed.gain := by
  simp only [generate_counter]
  split_ifs <;> exact ⟨rfl, rfl, rfl⟩

theorem add_markers_frame (fixed : FIXED_PARAMS) (msb : Bool) :
    (add_markers fixed msb).current_chnl = fixed.current_chnl
    ∧ (add_markers fixed msb).sample_number = fixed.sample_number
    ∧ (add_markers fixed msb).gain = fixed.gain := by
  cases msb <;> simp [add_markers]

theorem finalise_counter (fixed : FIXED_PARAMS) (user : COMMON_USER_PARAMS)
    (extra : ADDITIONAL_USER_PARAMS) (wavfile : FILE)
    (ht : user.wf_type = WAVEFORM_TYPE_COUNTER) (hf : user.save_as_float = false)
    (hb : user.bytes_per_sample = 4) (hm : extra.markers_on = true)
    (hc : fixed.current_chnl ≤ 7) (hroom : 4 ≤ wavfile.room) :
    finalise_data (generate_counter fixed user extra) user extra wavfile
      = (true, add_markers (generate_counter fixed user extra) extra.markers_in_msb,
         { data := wavfile.data
             ++ le32 (counter_marker_word extra.markers_in_msb fixed.sample_number
                  fixed.current_chnl)
           room := wavfile.room - 4 }) := by
  have hl : check_level (generate_counter fixed user extra) user
      = generate_counter fixed user extra := by
    unfold check_level
    rw [ht]
  have hfm : check_format (generate_counter fixed user extra) user
      = generate_counter fixed user extra := by
    unfold check_format
    simp [hf]
  have hmk : check_markers (generate_counter fixed user extra) user extra
      = (true, add_markers (generate_counter fixed user extra) extra.markers_in_msb) := by
    unfold check_markers
    simp [hm, ht, hf]
  have hbuf := save_sample_buffer_32
    (add_markers (generate_counter fixed user extra) extra.markers_in_msb) user hf hb
  rw [counter_word_written fixed user extra hb hm hc] at hbuf
  have hs := save_sample_of_room _ user wavfile _ hbuf (by simpa using hroom)
  unfold finalise_data
  simp only [hl, hfm, hmk, hs, le32_length]

theorem channel_loop_counter (sin : IEEE → IEEE) (user : COMMON_USER_PARAMS)
    (ht : user.wf_type = WAVEFORM_TYPE_COUNTER) (hf : user.save_as_float = false)
    (hb : user.bytes_per_sample = 4) (k : Nat) :
    ∀ r : RUN, r.extra.markers_on = true → r.fixed.current_chnl + k ≤ 8 →
      4 * k ≤ r.wavfile.room →
      ∃ r2, channel_loop sin user k r = some r2
        ∧ r2.wavfile.data = r.wavfile.data
            ++ (List.range' r.fixed.current_chnl k).flatMap
                (fun c => le32 (counter_marker_word r.extra.markers_in_msb
                  r.fixed.sample_number c))
        ∧ r2.wavfile.room = r.wavfile.room - 4 * k
        ∧ r2.success = r.success
        ∧ r2.extra = r.extra
        ∧ r2.fixed.sample_number = r.fixed.sample_number := by
  induction k with
  | zero =>
      intro r _ _ _
      exact ⟨r, rfl, by simp, by simp, rfl, rfl, rfl⟩
  | succ k ih =>
      intro r hm hc hroom
      have hg : generate sin user r
          = some { r with fixed := generate_counter r.fixed user r.extra } := by
        unfold generate
        rw [ht]
      have hfin := finalise_counter r.fixed user r.extra r.wavfile ht hf hb hm (by omega)
        (by omega)
      have hfr := generate_counter_frame r.fixed user r.extra
      have hmf := add_markers_frame (generate_counter r.fixed user r.extra)
        r.extra.markers_in_msb
      simp only [channel_loop, hg, hfin, Bool.not_true, Bool.false_eq_true, if_false]
      obtain ⟨r2, h1, h2, h3, h4, h5, h6⟩ := ih
        { r with
          fixed := { add_markers (generate_counter r.fixed user r.extra)
                        r.extra.markers_in_msb with
                     current_chnl := (add_markers (generate_counter r.fixed user r.extra)
                        r.extra.markers_in_msb).current_chnl + 1 }
          wavfile := { data := r.wavfile.data
                         ++ le32 (counter_marker_word r.extra.markers_in_msb
                              r.fixed.sample_number r.fixed.current_chnl)
                       room := r.wavfile.room - 4 } }
        hm (by simp only [hmf.1, hfr.1]; omega) (by simp only []; omega)
      refine ⟨r2, h1, ?_, ?_, h4, h5, ?_⟩
      · rw [h2, List.range'_succ, List.flatMap_cons]
        simp only [hmf.1, hfr.1, hmf.2.1, hfr.2.1, List.append_assoc]
      · rw [h3]
        simp only []
        omega
      · rw [h6]
        simp only [hmf.2.1, hfr.2.1]

theorem sample_loop_counter (sin : IEEE → IEEE) (user : COMMON_USER_PARAMS)
    (ht : user.wf_type = WAVEFORM_TYPE_COUNTER) (hf : user.save_as_float = false)
    (hb : user.bytes_per_sample = 4) (hc : user.num_channels ≤ 8) (k : Nat) :
    ∀ r : RUN, r.extra.markers_on = true →
      4 * (k * user.num_channels) ≤ r.wavfile.room →
      ∃ r2, sample_loop sin user k r = some r2
        ∧ r2.wavfile.data = r.wavfile.data
            ++ (List.range' r.fixed.sample_number k).flatMap
                (fun n => (List.range' 0 user.num_channels).flatMap
                  (fun c => le32 (counter_marker_word r.extra.markers_in_msb n c)))
        ∧ r2.success = r.success := by
  induction k with
  | zero =>
      intro r _ _
      exact ⟨r, rfl, by simp, rfl⟩
  | succ k ih =>
      intro r hm hroom
      have hmul : (k + 1) * user.num_channels = k * user.num_channels + user.num_channels :=
        Nat.succ_mul k user.num_channels
      obtain ⟨r1, h1, h2, h3, h4, h5, h6⟩ := channel_loop_counter sin user ht hf hb
        user.num_channels { r with fixed := { r.fixed with current_chnl := 0 } } hm
        (by simp only []; omega) (by simp only []; omega)
      simp only [sample_loop, h1]
      obtain ⟨r2, g1, g2, g3⟩ := ih
        { r1 with fixed := { r1.fixed with sample_number := r1.fixed.sample_number + 1 } }
        (by simp only [h5]; exact hm) (by simp only [h3]; omega)
      refine ⟨r2, g1, ?_, ?_⟩
      · rw [g2, List.range'_succ, List.flatMap_cons]
        simp only [h2, h5, h6, List.append_assoc]
      · rw [g3]
        exact h4

/-- C5: a 32-bit counter run with markers enabled and at most 8 channels, on a sink
with room for the file, succeeds and writes after the header, for frame n = 0, 1, ...
and within it channel c = 0, 1, ..., the 32-bit word (little-endian)
((0xC1 + c) << 24) | (n mod 2^24) with markers in the high byte, and
((n mod 2^24) << 8) | (0xC1 + c) with markers in the low byte.  With two channels
and markers in the high byte the first four words are 0xC1000000, 0xC2000000,
0xC1000001, 0xC2000001. -/
theorem counter_run_words (sin : IEEE → IEEE) (fixed : FIXED_PARAMS)
    (user : COMMON_USER_PARAMS) (extra : ADDITIONAL_USER_PARAMS) (wavfile : FILE)
    (ht : user.wf_type = WAVEFORM_TYPE_COUNTER) (hf : user.save_as_float = false)
    (hb : user.bytes_per_sample = 4) (hm : extra.markers_on = true)
    (hc : user.num_channels ≤ 8)
    (hroom : 44 + 4 * (user.num_samples * user.num_channels) ≤ wavfile.room) :
    ∃ r, main sin fixed user extra wavfile = some r
      ∧ r.success = true
      ∧ r.wavfile.data
          = (write_headers user wavfile).2.data
            ++ (List.range user.num_samples).flatMap (fun n =>
                (List.range user.num_channels).flatMap (fun c =>
                  le32 (if extra.markers_in_msb then ((0xC1 + c) <<< 24) ||| (n % 2 ^ 24)
                        else ((n % 2 ^ 24) <<< 8) ||| (0xC1 + c))))
      ∧ (extra.markers_in_msb = true → user.num_channels = 2 → 2 ≤ user.num_samples →
          (r.wavfile.data.drop (write_headers user wavfile).2.data.length).take 16
            = le32 0xC1000000 ++ le32 0xC2000000 ++ le32 0xC1000001 ++ le32 0xC2000001) := by
  have hk := write_headers_of_room user wavfile (by simp only [hf]; simp; omega)
  have hkey : (write_headers user wavfile).2.room = wavfile.room - 44 := by
    rw [hk]
    simp [hf]
  obtain ⟨r, h1, h2, h3⟩ := sample_loop_counter sin user ht hf hb hc user.num_samples
    { fixed := { fixed with sample_number := 0 }
      extra := extra
      statics := STATICS.init
      wavfile := (write_headers user wavfile).2
      success := (write_headers user wavfile).1 }
    hm (by simp only [hkey]; omega)
  have hdata : r.wavfile.data
      = (write_headers user wavfile).2.data
        ++ (List.range user.num_samples).flatMap (fun n =>
            (List.range user.num_channels).flatMap (fun c =>
              le32 (if extra.markers_in_msb then ((0xC1 + c) <<< 24) ||| (n % 2 ^ 24)
                    else ((n % 2 ^ 24) <<< 8) ||| (0xC1 + c)))) := by
    rw [h2, List.range_eq_range', List.range_eq_range']
    rfl
  refine ⟨r, h1, ?_, hdata, ?_⟩
  · rw [h3, hk]
  · intro hmsb hc2 hn
    obtain ⟨m, hm2⟩ : ∃ m, user.num_samples = m + 2 := ⟨user.num_samples - 2, by omega⟩
    have e0 : ∀ n : Nat, (List.range 2).flatMap (fun c =>
        le32 (if true = true then ((0xC1 + c) <<< 24) ||| (n % 2 ^ 24)
              else ((n % 2 ^ 24) <<< 8) ||| (0xC1 + c)))
        = le32 ((0xC1 <<< 24) ||| (n % 2 ^ 24)) ++ le32 ((0xC2 <<< 24) ||| (n % 2 ^ 24)) := by
      intro n
      simp [List.range_succ, List.flatMap_cons]
    rw [hdata, List.drop_left, hmsb, hc2, hm2, List.range_eq_range', List.range'_succ,
      List.range'_succ, List.flatMap_cons, List.flatMap_cons, e0, e0]
    simp [le32]

/-! ## The payload length of a run (wavgen.c) -/

theorem finalise_data_of_room (fixed : FIXED_PARAMS) (user : COMMON_USER_PARAMS)
    (extra : ADDITIONAL_USER_PARAMS) (wavfile : FILE)
    (hsup : user.save_as_float = true ∨ user.bytes_per_sample = 4
      ∨ user.bytes_per_sample = 2)
    (hroom : (if user.save_as_float = true ∨ user.bytes_per_sample = 4 then 4 else 2)
      ≤ wavfile.room) :
    (finalise_data fixed user extra wavfile).1 = true
    ∧ (finalise_data fixed user extra wavfile).2.2.data.length
        = wavfile.data.length
          + (if user.save_as_float = true ∨ user.bytes_per_sample = 4 then 4 else 2)
    ∧ (finalise_data fixed user extra wavfile).2.2.room
        = wavfile.room
          - (if user.save_as_float = true ∨ user.bytes_per_sample = 4 then 4 else 2) := by
  unfold finalise_data
  simp only []
  cases hbuf : save_sample_buffer
      (check_markers (check_format (check_level fixed user) user) user extra).2 user with
  | none =>
      have hu := (save_sample_buffer_none_iff _ user).1 hbuf
      rcases hsup with h | h | h
      · rw [h] at hu; simp at hu
      · exact absurd h hu.2.1
      · exact absurd h hu.2.2
  | some buf =>
      have hlen := save_sample_buffer_length _ user buf hbuf
      rw [save_sample_of_room _ user wavfile buf hbuf (by rw [hlen]; exact hroom)]
      simp [hlen]

theorem channel_loop_length (sin : IEEE → IEEE) (user : COMMON_USER_PARAMS)
    (hsup : user.save_as_float = true ∨ user.bytes_per_sample = 4
      ∨ user.bytes_per_sample = 2) (k : Nat) :
    ∀ r r2 : RUN, channel_loop sin user k r = some r2 →
      k * (if user.save_as_float = true ∨ user.bytes_per_sample = 4 then 4 else 2)
        ≤ r.wavfile.room →
      r2.wavfile.data.length = r.wavfile.data.length
          + k * (if user.save_as_float = true ∨ user.bytes_per_sample = 4 then 4 else 2)
      ∧ r2.wavfile.room = r.wavfile.room
          - k * (if user.save_as_float = true ∨ user.bytes_per_sample = 4 then 4 else 2)
      ∧ r2.success = r.success := by
  induction k with
  | zero =>
      intro r r2 h _
      simp only [channel_loop, Option.some.injEq] at h
      subst h
      simp
  | succ k ih =>
      intro r r2 h hroom
      rw [Nat.succ_mul] at hroom
      simp only [channel_loop] at h
      cases hg : generate sin user r with
      | none => simp [hg] at h
      | some r1 =>
          simp only [hg] at h
          have hw := generate_wavfile sin user r r1 hg
          have e1 : r1.wavfile.room = r.wavfile.room := by rw [hw.1]
          have e2 : r1.wavfile.data.length = r.wavfile.data.length := by rw [hw.1]
          have hfin := finalise_data_of_room r1.fixed user r1.extra r1.wavfile hsup
            (by omega)
          simp only [hfin.1, Bool.not_true, Bool.false_eq_true, if_false] at h
          obtain ⟨g1, g2, g3⟩ := ih _ _ h (by simp only [hfin.2.2]; omega)
          simp only [hfin.2.1, hfin.2.2] at g1 g2
          refine ⟨?_, ?_, ?_⟩
          · rw [g1, Nat.succ_mul]; omega
          · rw [g2, Nat.succ_mul]; omega
          · rw [g3]; exact hw.2

theorem sample_loop_length (sin : IEEE → IEEE) (user : COMMON_USER_PARAMS)
    (hsup : user.save_as_float = true ∨ user.bytes_per_sample = 4
      ∨ user.bytes_per_sample = 2) (k : Nat) :
    ∀ r r2 : RUN, sample_loop sin user k r = some r2 →
      k * (user.num_channels
          * (if user.save_as_float = true ∨ user.bytes_per_sample = 4 then 4 else 2))
        ≤ r.wavfile.room →
      r2.wavfile.data.length = r.wavfile.data.length
          + k * (user.num_channels
              * (if user.save_as_float = true ∨ user.bytes_per_sample = 4 then 4 else 2))
      ∧ r2.success = r.success := by
  induction k with
  | zero =>
      intro r r2 h _
      simp only [sample_loop, Option.some.injEq] at h
      subst h
      simp
  | succ k ih =>
      intro r r2 h hroom
      rw [Nat.succ_mul] at hroom
      simp only [sample_loop] at h
      cases hc : channel_loop sin user user.num_channels
          { r with fixed := { r.fixed with current_chnl := 0 } } with
      | none => simp [hc] at h
      | some r1 =>
          simp only [hc] at h
          obtain ⟨c1, c2, c3⟩ := channel_loop_length sin user hsup _ _ _ hc
            (by simp only []; omega)
          obtain ⟨g1, g2⟩ := ih _ _ h (by simp only [c2]; omega)
          simp only [c1, c3] at g1 g2
          refine ⟨?_, g2⟩
          rw [g1, Nat.succ_mul]; omega

/-- What the generation loop writes: when the output format is supported and no
write fails, a completed run has written `num_samples * num_channels` samples of
the output width after the headers, `num_samples` being the bound of the outer
loop. -/
theorem main_payload_length (sin : IEEE → IEEE) (fixed : FIXED_PARAMS)
    (user : COMMON_USER_PARAMS) (extra : ADDITIONAL_USER_PARAMS) (wavfile : FILE) (r : RUN)
    (hsup : user.save_as_float = true ∨ user.bytes_per_sample = 4
      ∨ user.bytes_per_sample = 2)
    (hroom : (if user.save_as_float then 56 else 44)
        + user.num_samples * (user.num_channels
            * (if user.save_as_float = true ∨ user.bytes_per_sample = 4 then 4 else 2))
      ≤ wavfile.room)
    (h : main sin fixed user extra wavfile = some r) :
    r.success = true
    ∧ r.wavfile.data.length
        = (write_headers user wavfile).2.data.length
          + user.num_samples * (user.num_channels
              * (if user.save_as_float = true ∨ user.bytes_per_sample = 4 then 4 else 2)) := by
  have hk := write_headers_of_room user wavfile (by omega)
  have hkroom : (write_headers user wavfile).2.room
      = wavfile.room - (if user.save_as_float then 56 else 44) := by rw [hk]
  have hksucc : (write_headers user wavfile).1 = true := by rw [hk]
  unfold main at h
  obtain ⟨g1, g2⟩ := sample_loop_length sin user hsup _ _ _ h
    (by simp only [hkroom]; omega)
  exact ⟨by rw [g2]; exact hksucc, g1⟩

/-- C1 (the run where the claim fails): for the documented check run
`-b 32 -c 2 -s 4 -t counter -m msb`, option parsing sets `num_samples` to 8, the run
succeeds, the size field of the data chunk (bytes 40 to 43 of the file) holds 32, and
64 payload bytes follow the 44 header bytes. -/
theorem check_run_data_size_and_payload :
    parse_opts_data_quantities 4 1 check_user_parsed = some check_user
    ∧ (main sin_unused check_fixed check_user check_extra empty_sink).map
        (fun r => (r.success, (r.wavfile.data.drop 40).take 4,
          (r.wavfile.data.drop 44).length))
      = some (true, le32 32, 64) := by
  decide

/-! ## Instances -/

/-- The header of C2 for the check run: the 44 bytes written to an empty sink. -/
theorem write_headers_layout_witness :
    (if check_user.save_as_float then 56 else 44) ≤ empty_sink.room
    ∧ (write_headers check_user empty_sink).1 = true
    ∧ (write_headers check_user empty_sink).2.data
        = [0x52, 0x49, 0x46, 0x46, 0x44, 0, 0, 0, 0x57, 0x41, 0x56, 0x45,
           0x66, 0x6d, 0x74, 0x20, 0x10, 0, 0, 0, 0x01, 0, 0x02, 0,
           0x80, 0xbb, 0, 0, 0x00, 0xdc, 0x05, 0, 0x08, 0, 0x20, 0,
           0x64, 0x61, 0x74, 0x61, 0x20, 0, 0, 0] :=
  ⟨by decide, (write_headers_layout check_user empty_sink (by decide)).1,
    (write_headers_layout check_user empty_sink (by decide)).2.1.trans (by decide)⟩

/-- The check run as an instance of C5: the first sixteen payload bytes. -/
theorem counter_run_words_witness :
    check_user.num_channels ≤ 8
    ∧ 44 + 4 * (check_user.num_samples * check_user.num_channels) ≤ empty_sink.room
    ∧ ∃ r, main sin_unused check_fixed check_user check_extra empty_sink = some r
        ∧ r.success = true
        ∧ (r.wavfile.data.drop (write_headers check_user empty_sink).2.data.length).take 16
            = [0, 0, 0, 0xC1, 0, 0, 0, 0xC2, 1, 0, 0, 0xC1, 1, 0, 0, 0xC2] := by
  refine ⟨by decide, by decide, ?_⟩
  obtain ⟨r, h1, h2, _, h4⟩ := counter_run_words sin_unused check_fixed check_user
    check_extra empty_sink rfl rfl rfl rfl (by decide) (by decide)
  exact ⟨r, h1, h2, (h4 rfl rfl (by decide)).trans (by decide)⟩

/-- The sample 0x12345678 on channel 1 as an instance of C6. -/
theorem add_markers_replaces_one_byte_witness :
    c6_fixed.current_chnl ≤ 7
    ∧ byte_of 3 (add_markers c6_fixed true).sample_value = 0xC2
    ∧ byte_of 2 (add_markers c6_fixed true).sample_value = 0x34
    ∧ byte_of 0 (add_markers c6_fixed false).sample_value = 0xC2
    ∧ byte_of 3 (add_markers c6_fixed false).sample_value = 0x12 :=
  ⟨by decide,
    (add_markers_replaces_one_byte c6_fixed (by decide)).1.1.trans (by decide),
    (add_markers_replaces_one_byte c6_fixed (by decide)).1.2.2.2.trans (by decide),
    (add_markers_replaces_one_byte c6_fixed (by decide)).2.1.1.trans (by decide),
    (add_markers_replaces_one_byte c6_fixed (by decide)).2.1.2.2.2.trans (by decide)⟩

/-- Silence with low-byte markers on channel 0 as an instance of C7 (as amended):
the marker is applied and the sample becomes 0xC1. -/
theorem check_markers_applies_iff_witness :
    (check_markers check_fixed silence_user lsb_extra).1 = true
    ∧ (check_markers check_fixed silence_user lsb_extra).2.sample_value = 0xC1 := by
  have h := check_markers_applies_iff check_fixed silence_user lsb_extra
  have h1 : (check_markers check_fixed silence_user lsb_extra).1 = true :=
    h.1.2 ⟨rfl, Or.inr (Or.inl rfl), rfl⟩
  refine ⟨h1, ?_⟩
  rw [h.2.1 h1]
  decide

/-- A sine run at gain 1.0 as an instance of C8. -/
theorem check_level_unchanged_witness :
    (9999 / 10000 : ℚ) ≤ fp_value 1 0 ∧ fp_value 1 0 ≤ 10001 / 10000
    ∧ check_level check_fixed sine_user = check_fixed :=
  ⟨by norm_num [fp_value], by norm_num [fp_value],
    (check_level_unchanged check_fixed sine_user).2 1 0 rfl (by decide)
      (by norm_num [fp_value]) (by norm_num [fp_value])⟩

/-- The sample -65537 in 16-bit output as an instance of C9: the bytes FE FF, that
is -2, are written. -/
theorem save_sample_narrowing_witness :
    s16_user.save_as_float = false ∧ s16_user.bytes_per_sample = 2
    ∧ 2 ≤ empty_sink.room
    ∧ save_sample negative_fixed s16_user empty_sink
        = (true, { data := [0xFE, 0xFF], room := 4094 }) :=
  ⟨rfl, rfl, by decide,
    (((save_sample_narrowing negative_fixed s16_user empty_sink rfl).1 rfl).2.2.2
      (by decide)).trans (by decide)⟩

/-- A 24-bit write as an instance of C10 (as amended): it fails and the sink is
untouched. -/
theorem save_sample_fails_iff_witness :
    s24_user.save_as_float = false ∧ s24_user.bytes_per_sample = BYTES_24BIT
    ∧ save_sample check_fixed s24_user empty_sink = (false, empty_sink) :=
  ⟨rfl, rfl, (save_sample_fails_iff check_fixed s24_user empty_sink).2.2 rfl (Or.inl rfl)⟩

/-! ## The generator calls of a run -/

theorem run_values_add (sin : IEEE → IEEE) (user : COMMON_USER_PARAMS) (a b : Nat) :
    ∀ r : RUN, run_values sin user (a + b) r
      = match run_values sin user a r with
        | none => none
        | some (fs, r1) =>
            match run_values sin user b r1 with
            | none => none
            | some (gs, r2) => some (fs ++ gs, r2) := by
  induction a with
  | zero =>
      intro r
      simp only [Nat.zero_add, run_values]
      cases run_values sin user b r with
      | none => rfl
      | some p => rfl
  | succ a ih =>
      intro r
      rw [Nat.succ_add]
      simp only [run_values]
      cases frame_values sin user user.num_channels
          { r with fixed := { r.fixed with current_chnl := 0 } } with
      | none => rfl
      | some p =>
          obtain ⟨vs, r1⟩ := p
          simp only [ih]
          cases run_values sin user a
              { r1 with fixed := { r1.fixed with sample_number := r1.fixed.sample_number + 1 } } with
          | none => rfl
          | some q =>
              obtain ⟨fs, r2⟩ := q
              simp only []
              cases run_values sin user b r2 with
              | none => rfl
              | some w => rfl

/-! ## The steps run (wf_steps.c) -/

theorem generate_steps_eq (fixed : FIXED_PARAMS) (user : COMMON_USER_PARAMS) (st : STATICS)
    (hc1 : 1 ≤ user.num_channels) (hc2 : user.num_channels ≤ 8) (hs : st.steps_step ≤ 4) :
    generate_steps fixed user st
      = ({ fixed with sample_value := 536870911 * (st.steps_step : Int) },
         { st with steps_step :=
            if fixed.current_chnl + 1 = user.num_channels then (st.steps_step + 1) % 5
            else st.steps_step }) := by
  unfold generate_steps
  have e1 : to_u32 (MAX_LEVEL_32BIT / (NUM_STEPS : Int)) = 536870911 := by decide
  have e2 : (user.num_channels + (2 ^ 32 - 1)) % 2 ^ 32 = user.num_channels - 1 := by omega
  have e3 : to_i32 (536870911 * st.steps_step % 2 ^ 32) = 536870911 * (st.steps_step : Int) := by
    unfold to_i32
    split <;> omega
  have hN : NUM_STEPS = 4 := rfl
  simp only [e1, e2, e3]
  rw [hN]
  have hiff : (fixed.current_chnl = user.num_channels - 1)
      ↔ (fixed.current_chnl + 1 = user.num_channels) := by omega
  simp only [hiff]
  by_cases h : fixed.current_chnl + 1 = user.num_channels
  · simp only [h, if_true]
    by_cases h4 : st.steps_step = 4
    · simp [h4]
    · have h5 : (st.steps_step + 1) % 2 ^ 32 = st.steps_step + 1 := by omega
      have h6 : ¬ (st.steps_step + 1 > 4) := by omega
      have h7 : (st.steps_step + 1) % 5 = st.steps_step + 1 := by omega
      simp only [h5, h6, h7, if_false]
  · simp only [h, if_false]

theorem generate_steps_run (sin : IEEE → IEEE) (user : COMMON_USER_PARAMS) (r : RUN)
    (ht : user.wf_type = WAVEFORM_TYPE_STEPS) :
    generate sin user r
      = some { r with fixed := (generate_steps r.fixed user r.statics).1
                      statics := (generate_steps r.fixed user r.statics).2 } := by
  unfold generate
  rw [ht]

theorem frame_values_steps (sin : IEEE → IEEE) (user : COMMON_USER_PARAMS)
    (ht : user.wf_type = WAVEFORM_TYPE_STEPS)
    (hc1 : 1 ≤ user.num_channels) (hc2 : user.num_channels ≤ 8) (k : Nat) :
    ∀ r : RUN, r.fixed.current_chnl + k = user.num_channels → r.statics.steps_step ≤ 4 →
      ∃ r2, frame_values sin user k r
          = some (List.replicate k (536870911 * (r.statics.steps_step : Int)), r2)
        ∧ r2.statics.steps_step
            = (if k = 0 then r.statics.steps_step else (r.statics.steps_step + 1) % 5)
        ∧ r2.fixed.sample_number = r.fixed.sample_number := by
  induction k with
  | zero =>
      intro r _ _
      exact ⟨r, rfl, rfl, rfl⟩
  | succ k ih =>
      intro r hk hs
      have hg := generate_steps_run sin user r ht
      rw [generate_steps_eq r.fixed user r.statics hc1 hc2 hs] at hg
      simp only [frame_values, hg]
      by_cases hlast : k = 0
      · subst hlast
        have hc : r.fixed.current_chnl + 1 = user.num_channels := by omega
        simp only [frame_values, hc, if_true]
        exact ⟨_, rfl, by simp, rfl⟩
      · have hc : ¬ (r.fixed.current_chnl + 1 = user.num_channels) := by omega
        simp only [hc, if_false]
        obtain ⟨r2, h1, h2, h3⟩ := ih
          { r with
            fixed := { gain := r.fixed.gain
                       sample_value := 536870911 * (r.statics.steps_step : Int)
                       sample_number := r.fixed.sample_number
                       current_chnl := r.fixed.current_chnl + 1 }
            statics := { r.statics with steps_step := r.statics.steps_step } }
          (by simp only []; omega) hs
        simp only [] at h1 h2 h3
        refine ⟨r2, ?_, ?_, h3⟩
        · simp only [h1, List.replicate_succ]
        · simp only [h2, hlast, if_false]
          simp

theorem run_values_steps (sin : IEEE → IEEE) (user : COMMON_USER_PARAMS)
    (ht : user.wf_type = WAVEFORM_TYPE_STEPS)
    (hc1 : 1 ≤ user.num_channels) (hc2 : user.num_channels ≤ 8) (k : Nat) :
    ∀ r : RUN, r.statics.steps_step = r.fixed.sample_number % 5 →
      ∃ r2, run_values sin user k r
          = some ((List.range' r.fixed.sample_number k).map
              (fun n => List.replicate user.num_channels (536870911 * ((n % 5 : Nat) : Int))),
            r2) := by
  induction k with
  | zero =>
      intro r _
      exact ⟨r, rfl⟩
  | succ k ih =>
      intro r hs
      obtain ⟨r1, h1, h2, h3⟩ := frame_values_steps sin user ht hc1 hc2 user.num_channels
        { r with fixed := { r.fixed with current_chnl := 0 } } (by simp) (by simp only []; omega)
      simp only [] at h1 h2 h3
      have hne : ¬ (user.num_channels = 0) := by omega
      simp only [hne, if_false] at h2
      obtain ⟨r2, g1⟩ := ih
        { r1 with fixed := { r1.fixed with sample_number := r1.fixed.sample_number + 1 } }
        (by simp only [h2, h3, hs]; omega)
      simp only [h3] at g1
      refine ⟨r2, ?_⟩
      simp only [run_values, h1, h3, g1, hs, List.range'_succ, List.map_cons]

/-! ## The square run (wf_square.c) -/

theorem generate_square_eq (fixed : FIXED_PARAMS) (user : COMMON_USER_PARAMS) (st : STATICS)
    (hf1 : 1 ≤ user.frequency_hz) (hf2 : user.frequency_hz ≤ user.sample_rate / 2)
    (hr : user.sample_rate < 2 ^ 32)
    (hs : st.square_sample_value = 2147483647 ∨ st.square_sample_value = -2147483647) :
    generate_square fixed user st
      = some ({ fixed with sample_value := st.square_sample_value },
         { st with square_sample_value :=
            if fixed.current_chnl = 0
                ∧ fixed.sample_number % (user.sample_rate / user.frequency_hz / 2)
                    = user.sample_rate / user.frequency_hz / 2 - 1
            then -st.square_sample_value else st.square_sample_value }) := by
  have hL : 2 ≤ user.sample_rate / user.frequency_hz := by
    rw [Nat.le_div_iff_mul_le (by omega)]
    have := Nat.div_mul_le_self user.sample_rate 2
    have h3 : user.frequency_hz * 2 ≤ user.sample_rate / 2 * 2 := Nat.mul_le_mul_right 2 hf2
    omega
  have hLr : user.sample_rate / user.frequency_hz ≤ user.sample_rate := Nat.div_le_self _ _
  have hH : 1 ≤ user.sample_rate / user.frequency_hz / 2 := by omega
  have hw : wrap_i32 (-st.square_sample_value) = -st.square_sample_value := by
    rcases hs with h | h <;> rw [h] <;> decide
  have e1 : (user.sample_rate / user.frequency_hz / 2 + (2 ^ 32 - 1)) % 2 ^ 32
      = user.sample_rate / user.frequency_hz / 2 - 1 := by omega
  unfold generate_square udiv umod
  have hf0 : ¬ (user.frequency_hz = 0) := by omega
  have hH0 : ¬ (user.sample_rate / user.frequency_hz / 2 = 0) := by omega
  simp only [hf0, if_false, Option.bind_eq_bind, Option.some_bind, hH0, e1, hw]
  by_cases hc : fixed.current_chnl = 0
  · simp only [hc, if_true, true_and]
    split <;> rfl
  · simp only [hc, if_false, false_and]

theorem generate_square_run (sin : IEEE → IEEE) (user : COMMON_USER_PARAMS) (r : RUN)
    (ht : user.wf_type = WAVEFORM_TYPE_SQUARE) :
    generate sin user r
      = (generate_square r.fixed user r.statics).map
          (fun g => { r with fixed := g.1, statics := g.2 }) := by
  unfold generate
  rw [ht]

/-- Channels after the first: the polarity is emitted and kept. -/
theorem frame_values_square_rest (sin : IEEE → IEEE) (user : COMMON_USER_PARAMS)
    (ht : user.wf_type = WAVEFORM_TYPE_SQUARE)
    (hf1 : 1 ≤ user.frequency_hz) (hf2 : user.frequency_hz ≤ user.sample_rate / 2)
    (hr : user.sample_rate < 2 ^ 32) (k : Nat) :
    ∀ r : RUN, 1 ≤ r.fixed.current_chnl →
      (r.statics.square_sample_value = 2147483647
        ∨ r.statics.square_sample_value = -2147483647) →
      ∃ r2, frame_values sin user k r
          = some (List.replicate k r.statics.square_sample_value, r2)
        ∧ r2.statics.square_sample_value = r.statics.square_sample_value
        ∧ r2.fixed.sample_number = r.fixed.sample_number := by
  induction k with
  | zero =>
      intro r _ _
      exact ⟨r, rfl, rfl, rfl⟩
  | succ k ih =>
      intro r hc hs
      have hg := generate_square_run sin user r ht
      rw [generate_square_eq r.fixed user r.statics hf1 hf2 hr hs] at hg
      have hc0 : ¬ (r.fixed.current_chnl = 0) := by omega
      simp only [hc0, false_and, if_false, Option.map_some'] at hg
      obtain ⟨r2, h1, h2, h3⟩ := ih
        { r with
          fixed := { gain := r.fixed.gain
                     sample_value := r.statics.square_sample_value
                     sample_number := r.fixed.sample_number
                     current_chnl := r.fixed.current_chnl + 1 }
          statics := { r.statics with square_sample_value := r.statics.square_sample_value } }
        (by simp only []; omega) hs
      simp only [] at h1 h2 h3
      refine ⟨r2, ?_, h2, h3⟩
      simp only [frame_values, hg, h1, List.replicate_succ]

/-- One frame of a square run: channel 0 emits the polarity and flips it at the end
of a half period; the other channels emit what channel 0 left. -/
theorem frame_values_square (sin : IEEE → IEEE) (user : COMMON_USER_PARAMS)
    (ht : user.wf_type = WAVEFORM_TYPE_SQUARE)
    (hf1 : 1 ≤ user.frequency_hz) (hf2 : user.frequency_hz ≤ user.sample_rate / 2)
    (hr : user.sample_rate < 2 ^ 32) (k : Nat) (r : RUN)
    (hc : r.fixed.current_chnl = 0)
    (hs : r.statics.square_sample_value = 2147483647
        ∨ r.statics.square_sample_value = -2147483647) :
    ∃ r2, frame_values sin user (k + 1) r
        = some (r.statics.square_sample_value
            :: List.replicate k
                (if r.fixed.sample_number % (user.sample_rate / user.frequency_hz / 2)
                    = user.sample_rate / user.frequency_hz / 2 - 1
                 then -r.statics.square_sample_value else r.statics.square_sample_value), r2)
      ∧ r2.statics.square_sample_value
          = (if r.fixed.sample_number % (user.sample_rate / user.frequency_hz / 2)
                = user.sample_rate / user.frequency_hz / 2 - 1
             then -r.statics.square_sample_value else r.statics.square_sample_value)
      ∧ r2.fixed.sample_number = r.fixed.sample_number := by
  have hg := generate_square_run sin user r ht
  rw [generate_square_eq r.fixed user r.statics hf1 hf2 hr hs] at hg
  simp only [hc, true_and, Option.map_some'] at hg
  have hs2 : (if r.fixed.sample_number % (user.sample_rate / user.frequency_hz / 2)
                = user.sample_rate / user.frequency_hz / 2 - 1
             then -r.statics.square_sample_value else r.statics.square_sample_value)
        = 2147483647
      ∨ (if r.fixed.sample_number % (user.sample_rate / user.frequency_hz / 2)
                = user.sample_rate / user.frequency_hz / 2 - 1
             then -r.statics.square_sample_value else r.statics.square_sample_value)
        = -2147483647 := by
    split <;> omega
  obtain ⟨r2, h1, h2, h3⟩ := frame_values_square_rest sin user ht hf1 hf2 hr k
    { r with
      fixed := { gain := r.fixed.gain
                 sample_value := r.statics.square_sample_value
                 sample_number := r.fixed.sample_number
                 current_chnl := r.fixed.current_chnl + 1 }
      statics := { r.statics with square_sample_value :=
        if r.fixed.sample_number % (user.sample_rate / user.frequency_hz / 2)
            = user.sample_rate / user.frequency_hz / 2 - 1
        then -r.statics.square_sample_value else r.statics.square_sample_value } }
    (by simp only []; omega) hs2
  simp only [hc] at h1 h2 h3
  refine ⟨r2, ?_, h2, h3⟩
  simp only [frame_values, hg, h1]

theorem square_polarity_step (H n : Nat) (hH : 1 ≤ H) :
    (if n % H = H - 1
      then -(if n / H % 2 = 0 then (2147483647 : Int) else -2147483647)
      else (if n / H % 2 = 0 then (2147483647 : Int) else -2147483647))
    = (if (n + 1) / H % 2 = 0 then (2147483647 : Int) else -2147483647) := by
  have hdiv := Nat.succ_div n H
  have hdvd : H ∣ n + 1 ↔ n % H = H - 1 := by
    constructor
    · intro h
      have h1 : (n + 1) % H = 0 := Nat.mod_eq_zero_of_dvd h
      have h2 := Nat.mod_lt n hH
      have h3 := Nat.div_add_mod n H
      have h4 := Nat.div_add_mod (n + 1) H
      by_contra hne
      have h5 : n % H + 1 < H := by omega
      have h6 : (n + 1) % H = n % H + 1 := by
        rw [Nat.add_mod]
        have : n % H + 1 % H < H ∨ H = 1 := by
          by_cases h1' : H = 1
          · exact Or.inr h1'
          · left
            have : 1 % H = 1 := Nat.mod_eq_of_lt (by omega)
            omega
        rcases this with h7 | h7
        · by_cases h1' : H = 1
          · omega
          · have : 1 % H = 1 := Nat.mod_eq_of_lt (by omega)
            rw [this]
            exact Nat.mod_eq_of_lt (by omega)
        · omega
      omega
    · intro h
      apply Nat.dvd_of_mod_eq_zero
      rw [Nat.add_mod, h]
      by_cases h1' : H = 1
      · subst h1'; simp
      · have : 1 % H = 1 := Nat.mod_eq_of_lt (by omega)
        rw [this]
        have : H - 1 + 1 = H := by omega
        rw [this]
        exact Nat.mod_self H
  by_cases h : n % H = H - 1
  · have hd : H ∣ n + 1 := hdvd.2 h
    simp only [h, if_true, hd] at hdiv ⊢
    rw [hdiv]
    by_cases hp : n / H % 2 = 0
    · have : (n / H + 1) % 2 ≠ 0 := by omega
      simp [hp, this]
    · have : (n / H + 1) % 2 = 0 := by omega
      simp [hp, this]
  · have hd : ¬ (H ∣ n + 1) := fun hd => h (hdvd.1 hd)
    simp only [h, if_false, hd] at hdiv ⊢
    rw [hdiv]
    simp

theorem run_values_square (sin : IEEE → IEEE) (user : COMMON_USER_PARAMS)
    (ht : user.wf_type = WAVEFORM_TYPE_SQUARE)
    (hf1 : 1 ≤ user.frequency_hz) (hf2 : user.frequency_hz ≤ user.sample_rate / 2)
    (hr : user.sample_rate < 2 ^ 32) (hc : 1 ≤ user.num_channels) (k : Nat) :
    ∀ r : RUN,
      r.statics.square_sample_value
        = (if r.fixed.sample_number / (user.sample_rate / user.frequency_hz / 2) % 2 = 0
           then 2147483647 else -2147483647) →
      ∃ r2, run_values sin user k r
          = some ((List.range' r.fixed.sample_number k).map
              (fun n =>
                (if n / (user.sample_rate / user.frequency_hz / 2) % 2 = 0
                  then (2147483647 : Int) else -2147483647)
                :: List.replicate (user.num_channels - 1)
                    (if (n + 1) / (user.sample_rate / user.frequency_hz / 2) % 2 = 0
                      then (2147483647 : Int) else -2147483647)),
            r2) := by
  have hL : 2 ≤ user.sample_rate / user.frequency_hz := by
    rw [Nat.le_div_iff_mul_le (by omega)]
    have := Nat.div_mul_le_self user.sample_rate 2
    have h3 : user.frequency_hz * 2 ≤ user.sample_rate / 2 * 2 := Nat.mul_le_mul_right 2 hf2
    omega
  have hH : 1 ≤ user.sample_rate / user.frequency_hz / 2 := by omega
  obtain ⟨c, hcc⟩ : ∃ c, user.num_channels = c + 1 := ⟨user.num_channels - 1, by omega⟩
  induction k with
  | zero =>
      intro r _
      exact ⟨r, rfl⟩
  | succ k ih =>
      intro r hs
      have hs' : r.statics.square_sample_value = 2147483647
          ∨ r.statics.square_sample_value = -2147483647 := by
        rw [hs]; split <;> simp
      obtain ⟨r1, h1, h2, h3⟩ := frame_values_square sin user ht hf1 hf2 hr c
        { r with fixed := { r.fixed with current_chnl := 0 } } rfl hs'
      simp only [] at h1 h2 h3
      rw [hs, square_polarity_step _ _ hH] at h1 h2
      obtain ⟨r2, g1⟩ := ih
        { r1 with fixed := { r1.fixed with sample_number := r1.fixed.sample_number + 1 } }
        (by simp only [h2, h3])
      simp only [h3] at g1
      refine ⟨r2, ?_⟩
      simp only [run_values, hcc, h1, h3, g1, List.range'_succ, List.map_cons,
        Nat.add_sub_cancel]

/-! ## The value emitted at a frame -/

theorem emitted_of_run (sin : IEEE → IEEE) (fixed : FIXED_PARAMS)
    (user : COMMON_USER_PARAMS) (extra : ADDITIONAL_USER_PARAMS) (f : Nat → List Int)
    (n c : Nat) (r2 : RUN)
    (h : run_values sin user (n + 1) (RUN.start fixed extra { data := [], room := 0 } true)
      = some ((List.range' 0 (n + 1)).map f, r2)) :
    emitted sin fixed user extra n c = (f n).get? c := by
  unfold emitted generated
  rw [h]
  simp only [Option.map_some', Option.some_bind]
  have : ((List.range' 0 (n + 1)).map f).getD n [] = f n := by
    rw [← List.range_eq_range']
    simp [List.getD_eq_getElem?_getD]
  rw [this]

/-! ## The saw run (wf_saw.c) -/

theorem generate_saw_eq (fixed : FIXED_PARAMS) (user : COMMON_USER_PARAMS) (st : STATICS)
    (hf1 : 1 ≤ user.frequency_hz) (hf2 : user.frequency_hz ≤ user.sample_rate / 2)
    (hr : user.sample_rate ≤ 192000) :
    generate_saw fixed user st
      = some ({ fixed with sample_value := st.saw_sample_value },
         { st with saw_sample_value :=
            if st.saw_sample_value = 2147483647 then -2147483647
            else if wrap_i32 (st.saw_sample_value
                    + ((2 * (2147483647 / (2 * (user.sample_rate / user.frequency_hz))) : Nat) : Int))
                  > ((user.sample_rate / user.frequency_hz
                      * (2 * (2147483647 / (2 * (user.sample_rate / user.frequency_hz)))) : Nat) : Int)
            then wrap_i32 (to_i32 (2 * (user.sample_rate / user.frequency_hz
                      * (2 * (2147483647 / (2 * (user.sample_rate / user.frequency_hz)))))) * -1)
            else wrap_i32 (st.saw_sample_value
                    + ((2 * (2147483647 / (2 * (user.sample_rate / user.frequency_hz))) : Nat) : Int)) }) := by
  have hL : 2 ≤ user.sample_rate / user.frequency_hz := by
    rw [Nat.le_div_iff_mul_le (by omega)]
    have := Nat.div_mul_le_self user.sample_rate 2
    have h3 : user.frequency_hz * 2 ≤ user.sample_rate / 2 * 2 := Nat.mul_le_mul_right 2 hf2
    omega
  have hLr : user.sample_rate / user.frequency_hz ≤ user.sample_rate := Nat.div_le_self _ _
  generalize hLdef : user.sample_rate / user.frequency_hz = L at *
  have hq := Nat.div_mul_le_self 2147483647 (2 * L)
  generalize hqdef : 2147483647 / (2 * L) = q at *
  have hq4 : q ≤ 536870911 := by
    rw [← hqdef]
    calc 2147483647 / (2 * L) ≤ 2147483647 / 4 := Nat.div_le_div_left (by omega) (by decide)
      _ = 536870911 := by decide
  have hprod : L * (2 * q) ≤ 2147483647 := by
    have : L * (2 * q) = q * (2 * L) := by ring
    omega
  unfold generate_saw udiv
  have hf0 : ¬ (user.frequency_hz = 0) := by omega
  have e0 : to_u32 (2147483647 : Int) = 2147483647 := by decide
  have e1 : L * 2 % 2 ^ 32 = 2 * L := by omega
  have hns0 : ¬ (2 * L = 0) := by omega
  have e2 : q * 2 % 2 ^ 32 = 2 * q := by omega
  have e3 : 2 * q * (2 * L) % 2 ^ 32 = 2 * (L * (2 * q)) := by
    have : 2 * q * (2 * L) = 2 * (L * (2 * q)) := by ring
    rw [this]
    omega
  have e4 : to_i32 (2 * (L * (2 * q)) / 2) = ((L * (2 * q) : Nat) : Int) := by
    have : 2 * (L * (2 * q)) / 2 = L * (2 * q) := by omega
    rw [this]
    unfold to_i32
    split <;> omega
  have e5 : to_i32 (2 * q) = ((2 * q : Nat) : Int) := by
    unfold to_i32
    split <;> omega
  have e6 : wrap_i32 (MAX_LEVEL_32BIT * -1) = -2147483647 := by decide
  have e7 : MAX_LEVEL_32BIT = 2147483647 := rfl
  simp only [hf0, if_false, Option.bind_eq_bind, Option.some_bind, hLdef, e7, e0, e1, hns0,
    hqdef, e2, e3, e4, e5]
  rw [← e7, e6]
  split
  · rfl
  · split <;> rfl

theorem generate_saw_run (sin : IEEE → IEEE) (user : COMMON_USER_PARAMS) (r : RUN)
    (ht : user.wf_type = WAVEFORM_TYPE_SAW) :
    generate sin user r
      = (generate_saw r.fixed user r.statics).map
          (fun g => { r with fixed := g.1, statics := g.2 }) := by
  unfold generate
  rw [ht]

/-- One frame of a mono saw run: the running value is emitted and advanced. -/
theorem frame_values_saw (sin : IEEE → IEEE) (user : COMMON_USER_PARAMS)
    (ht : user.wf_type = WAVEFORM_TYPE_SAW)
    (hf1 : 1 ≤ user.frequency_hz) (hf2 : user.frequency_hz ≤ user.sample_rate / 2)
    (hr : user.sample_rate ≤ 192000) (r : RUN) :
    ∃ r2, frame_values sin user 1 r = some ([r.statics.saw_sample_value], r2)
      ∧ r2.statics.saw_sample_value
          = (if r.statics.saw_sample_value = 2147483647 then -2147483647
            else if wrap_i32 (r.statics.saw_sample_value
                    + ((2 * (2147483647 / (2 * (user.sample_rate / user.frequency_hz))) : Nat) : Int))
                  > ((user.sample_rate / user.frequency_hz
                      * (2 * (2147483647 / (2 * (user.sample_rate / user.frequency_hz)))) : Nat) : Int)
            then wrap_i32 (to_i32 (2 * (user.sample_rate / user.frequency_hz
                      * (2 * (2147483647 / (2 * (user.sample_rate / user.frequency_hz)))))) * -1)
            else wrap_i32 (r.statics.saw_sample_value
                    + ((2 * (2147483647 / (2 * (user.sample_rate / user.frequency_hz))) : Nat) : Int)))
      ∧ r2.fixed.sample_number = r.fixed.sample_number := by
  have hg := generate_saw_run sin user r ht
  rw [generate_saw_eq r.fixed user r.statics hf1 hf2 hr] at hg
  simp only [Option.map_some'] at hg
  simp only [frame_values, hg]
  exact ⟨_, rfl, rfl, rfl⟩

/-- The rising ramp of a mono saw run: while the ramp index `j` is at most
`L = rate / frequency`, frame after frame emits `j * step_size`. -/
theorem run_values_saw_ramp (sin : IEEE → IEEE) (user : COMMON_USER_PARAMS)
    (ht : user.wf_type = WAVEFORM_TYPE_SAW) (hc : user.num_channels = 1)
    (hf1 : 1 ≤ user.frequency_hz) (hf2 : user.frequency_hz ≤ user.sample_rate / 2)
    (hr : user.sample_rate ≤ 192000) (k : Nat) :
    ∀ (j : Nat) (r : RUN),
      r.statics.saw_sample_value
        = ((j * (2 * (2147483647 / (2 * (user.sample_rate / user.frequency_hz)))) : Nat) : Int) →
      j + k ≤ user.sample_rate / user.frequency_hz + 1 →
      ∃ r2, run_values sin user k r
          = some ((List.range' j k).map
              (fun i => [((i * (2 * (2147483647 / (2 * (user.sample_rate / user.frequency_hz))))
                  : Nat) : Int)]), r2)
        ∧ (j + k ≤ user.sample_rate / user.frequency_hz →
            r2.statics.saw_sample_value
              = (((j + k) * (2 * (2147483647 / (2 * (user.sample_rate / user.frequency_hz))))
                  : Nat) : Int)) := by
  have hL : 2 ≤ user.sample_rate / user.frequency_hz := by
    rw [Nat.le_div_iff_mul_le (by omega)]
    have := Nat.div_mul_le_self user.sample_rate 2
    have h3 : user.frequency_hz * 2 ≤ user.sample_rate / 2 * 2 := Nat.mul_le_mul_right 2 hf2
    omega
  have hLr : user.sample_rate / user.frequency_hz ≤ user.sample_rate := Nat.div_le_self _ _
  generalize hLdef : user.sample_rate / user.frequency_hz = L at *
  have hq := Nat.div_mul_le_self 2147483647 (2 * L)
  have hq1 : 1 ≤ 2147483647 / (2 * L) := by
    rw [Nat.le_div_iff_mul_le (by omega)]
    omega
  generalize hqdef : 2147483647 / (2 * L) = q at *
  have hprod : L * (2 * q) ≤ 2147483647 := by
    have : L * (2 * q) = q * (2 * L) := by ring
    omega
  induction k with
  | zero =>
      intro j r hs _
      exact ⟨r, rfl, fun _ => by simpa using hs⟩
  | succ k ih =>
      intro j r hs hjk
      obtain ⟨r1, h1, h2, _⟩ := frame_values_saw sin user ht hf1 hf2 hr
        { r with fixed := { r.fixed with current_chnl := 0 } }
      simp only [hLdef, hqdef] at h1 h2
      by_cases hk0 : k = 0
      · subst hk0
        refine ⟨{ r1 with fixed := { r1.fixed with sample_number := r1.fixed.sample_number + 1 } },
          ?_, ?_⟩
        · simp only [run_values, hc, h1, hs, List.range'_succ, List.range'_zero, List.map_cons,
            List.map_nil]
        · intro hle
          simp only [h2, hs]
          have hjl : j + 1 ≤ L := by omega
          have hmul : (j + 1) * (2 * q) ≤ L * (2 * q) := Nat.mul_le_mul_right _ hjl
          have hexp : (j + 1) * (2 * q) = j * (2 * q) + 2 * q := by ring
          have hne : ¬ (((j * (2 * q) : Nat) : Int) = 2147483647) := by omega
          have hw : wrap_i32 (((j * (2 * q) : Nat) : Int) + ((2 * q : Nat) : Int))
              = (((j + 1) * (2 * q) : Nat) : Int) := by
            unfold wrap_i32 to_i32 to_u32
            split <;> omega
          have hngt : ¬ ((((j + 1) * (2 * q) : Nat) : Int) > ((L * (2 * q) : Nat) : Int)) := by
            omega
          simp only [hne, if_false, hw, hngt]
      · have hjl : j + 1 ≤ L := by omega
        have hmul : (j + 1) * (2 * q) ≤ L * (2 * q) := Nat.mul_le_mul_right _ hjl
        have hexp : (j + 1) * (2 * q) = j * (2 * q) + 2 * q := by ring
        have hne : ¬ (((j * (2 * q) : Nat) : Int) = 2147483647) := by omega
        have hw : wrap_i32 (((j * (2 * q) : Nat) : Int) + ((2 * q : Nat) : Int))
            = (((j + 1) * (2 * q) : Nat) : Int) := by
          unfold wrap_i32 to_i32 to_u32
          split <;> omega
        have hngt : ¬ ((((j + 1) * (2 * q) : Nat) : Int) > ((L * (2 * q) : Nat) : Int)) := by
          omega
        rw [hs] at h2
        simp only [hne, if_false, hw, hngt] at h2
        obtain ⟨r2, g1, g2⟩ := ih (j + 1)
          { r1 with fixed := { r1.fixed with sample_number := r1.fixed.sample_number + 1 } }
          h2 (by omega)
        refine ⟨r2, ?_, ?_⟩
        · simp only [run_values, hc, h1, g1, hs, List.range'_succ, List.map_cons]
        · intro hle
          have := g2 (by omega)
          rw [this]
          congr 2
          omega

/-! ## Steps and square: what each frame carries -/

/-- The value that a steps run from fresh state emits for frame `n`, channel `c`. -/
theorem emitted_steps (sin : IEEE → IEEE) (fixed : FIXED_PARAMS) (user : COMMON_USER_PARAMS)
    (extra : ADDITIONAL_USER_PARAMS) (ht : user.wf_type = WAVEFORM_TYPE_STEPS)
    (hc1 : 1 ≤ user.num_channels) (hc2 : user.num_channels ≤ 8) (n c : Nat)
    (hc : c < user.num_channels) :
    emitted sin fixed user extra n c = some (536870911 * ((n % 5 : Nat) : Int)) := by
  obtain ⟨r2, h⟩ := run_values_steps sin user ht hc1 hc2 (n + 1)
    (RUN.start fixed extra { data := [], room := 0 } true) rfl
  have h0 : (RUN.start fixed extra { data := [], room := 0 } true).fixed.sample_number = 0 := rfl
  rw [h0] at h
  rw [emitted_of_run sin fixed user extra _ n c r2 h]
  simp [List.get?_eq_getElem?, List.getElem?_replicate, hc]

/-- The value that a square run from fresh state emits on channel 0 of frame `n`. -/
theorem emitted_square_channel0 (sin : IEEE → IEEE) (fixed : FIXED_PARAMS)
    (user : COMMON_USER_PARAMS) (extra : ADDITIONAL_USER_PARAMS)
    (ht : user.wf_type = WAVEFORM_TYPE_SQUARE)
    (hf1 : 1 ≤ user.frequency_hz) (hf2 : user.frequency_hz ≤ user.sample_rate / 2)
    (hr : user.sample_rate < 2 ^ 32) (hc : 1 ≤ user.num_channels) (n : Nat) :
    emitted sin fixed user extra n 0
      = some (if n / (user.sample_rate / user.frequency_hz / 2) % 2 = 0
          then 2147483647 else -2147483647) := by
  have h0 : (RUN.start fixed extra { data := [], room := 0 } true).fixed.sample_number = 0 := rfl
  have hH : 0 < user.sample_rate / user.frequency_hz / 2 := by
    have h1 : 2 ≤ user.sample_rate / user.frequency_hz := by
      rw [Nat.le_div_iff_mul_le (by omega)]
      have := Nat.div_mul_le_self user.sample_rate 2
      have h3 : user.frequency_hz * 2 ≤ user.sample_rate / 2 * 2 := Nat.mul_le_mul_right 2 hf2
      omega
    omega
  obtain ⟨r2, h⟩ := run_values_square sin user ht hf1 hf2 hr hc (n + 1)
    (RUN.start fixed extra { data := [], room := 0 } true)
    (by rw [h0, Nat.zero_div]; rfl)
  rw [h0] at h
  rw [emitted_of_run sin fixed user extra _ n 0 r2 h]
  rfl

/-- Valid frequencies give a cycle of at least two samples and a half-period of at
least one. -/
theorem cycle_bounds (r f : Nat) (hf1 : 1 ≤ f) (hf2 : f ≤ r / 2) :
    2 ≤ r / f ∧ 1 ≤ r / f / 2 := by
  have h1 : 2 ≤ r / f := by
    rw [Nat.le_div_iff_mul_le (by omega)]
    have := Nat.div_mul_le_self r 2
    have h3 : f * 2 ≤ r / 2 * 2 := Nat.mul_le_mul_right 2 hf2
    omega
  exact ⟨h1, by omega⟩

/-- C20: in a steps run with C channels, 1 ≤ C ≤ 8, from fresh state, the value
emitted for frame n, channel c is 536870911 × (n mod 5), with 536870911 =
floor(MAX_LEVEL_32BIT / 4), for every n and every channel c < C; the value is one of
the five levels 0, s, 2s, 3s, 4s and lies within the 32-bit range (no overflow). -/
theorem steps_levels (sin : IEEE → IEEE) (fixed : FIXED_PARAMS) (user : COMMON_USER_PARAMS)
    (extra : ADDITIONAL_USER_PARAMS) (ht : user.wf_type = WAVEFORM_TYPE_STEPS)
    (hc1 : 1 ≤ user.num_channels) (hc2 : user.num_channels ≤ 8) (n c : Nat)
    (hc : c < user.num_channels) :
    emitted sin fixed user extra n c
        = some (MAX_LEVEL_32BIT / 4 * ((n % 5 : Nat) : Int))
    ∧ MAX_LEVEL_32BIT / 4 = 536870911
    ∧ 0 ≤ MAX_LEVEL_32BIT / 4 * ((n % 5 : Nat) : Int)
    ∧ MAX_LEVEL_32BIT / 4 * ((n % 5 : Nat) : Int) ≤ MAX_LEVEL_32BIT := by
  have hm : MAX_LEVEL_32BIT / 4 = 536870911 := by decide
  have hM : MAX_LEVEL_32BIT = 2147483647 := rfl
  have h5 : n % 5 < 5 := Nat.mod_lt _ (by omega)
  refine ⟨?_, hm, ?_, ?_⟩
  · rw [hm]
    exact emitted_steps sin fixed user extra ht hc1 hc2 n c hc
  · rw [hm]; omega
  · rw [hm, hM]; omega

/-- C17: for every rate r (an unsigned 32-bit number) and frequency f with
1 ≤ f ≤ r/2, floor(r/f) ≥ 2 and the half-period H = floor(floor(r/f) / 2) is at least
1, and in a square run from fresh state the value emitted on channel 0 at frame n is
+MAX_LEVEL_32BIT when floor(n / H) is even and -MAX_LEVEL_32BIT when it is odd; the
first value is +MAX_LEVEL_32BIT and every value has magnitude MAX_LEVEL_32BIT. -/
theorem square_channel0_polarity (sin : IEEE → IEEE) (fixed : FIXED_PARAMS)
    (user : COMMON_USER_PARAMS) (extra : ADDITIONAL_USER_PARAMS)
    (ht : user.wf_type = WAVEFORM_TYPE_SQUARE)
    (hf1 : 1 ≤ user.frequency_hz) (hf2 : user.frequency_hz ≤ user.sample_rate / 2)
    (hr : user.sample_rate < 2 ^ 32) (hc : 1 ≤ user.num_channels) (n : Nat) :
    2 ≤ user.sample_rate / user.frequency_hz
    ∧ 1 ≤ user.sample_rate / user.frequency_hz / 2
    ∧ emitted sin fixed user extra n 0
        = some (if n / (user.sample_rate / user.frequency_hz / 2) % 2 = 0
            then MAX_LEVEL_32BIT else -MAX_LEVEL_32BIT)
    ∧ emitted sin fixed user extra 0 0 = some MAX_LEVEL_32BIT
    ∧ (∃ v, emitted sin fixed user extra n 0 = some v ∧ v.natAbs = 2147483647) := by
  have hb := cycle_bounds user.sample_rate user.frequency_hz hf1 hf2
  have hn := emitted_square_channel0 sin fixed user extra ht hf1 hf2 hr hc n
  have h0 := emitted_square_channel0 sin fixed user extra ht hf1 hf2 hr hc 0
  have hM : MAX_LEVEL_32BIT = 2147483647 := rfl
  refine ⟨hb.1, hb.2, ?_, ?_, ?_⟩
  · rw [hM]; exact hn
  · rw [h0, hM, Nat.zero_div]; rfl
  · rw [hn]
    split
    · exact ⟨_, rfl, rfl⟩
    · exact ⟨_, rfl, rfl⟩

/-- C18 (the run where the claim fails): in the two-channel square run at 48000 Hz
and 440 Hz the half-period is 54 frames, and in frame 53 channel 0 carries
+MAX_LEVEL_32BIT while channel 1 carries -MAX_LEVEL_32BIT. -/
theorem square_frame_53_not_synchronized :
    emitted sin_unused check_fixed sq2_user off_extra 53 0 = some 2147483647
    ∧ emitted sin_unused check_fixed sq2_user off_extra 53 1 = some (-2147483647) := by
  have h0 : (RUN.start check_fixed off_extra { data := [], room := 0 } true).fixed.sample_number
      = 0 := rfl
  obtain ⟨r2, h⟩ := run_values_square sin_unused sq2_user rfl (by decide) (by decide)
    (by decide) (by decide) 54
    (RUN.start check_fixed off_extra { data := [], room := 0 } true) (by decide)
  rw [h0] at h
  constructor
  · rw [emitted_of_run sin_unused check_fixed sq2_user off_extra _ 53 0 r2 h]
    decide
  · rw [emitted_of_run sin_unused check_fixed sq2_user off_extra _ 53 1 r2 h]
    decide

/-- C19 (the run where the claim fails): at 48000 Hz and 440 Hz, floor(r/f) is 109,
and the channel-0 values of a square run do not repeat after 109 frames. -/
theorem square_cycle_is_not_109 :
    sq2_user.sample_rate / sq2_user.frequency_hz = 109
    ∧ ¬ (∀ n, emitted sin_unused check_fixed sq2_user off_extra (n + 109) 0
          = emitted sin_unused check_fixed sq2_user off_extra n 0) := by
  refine ⟨by decide, fun h => ?_⟩
  have h1 := h 53
  rw [emitted_square_channel0 sin_unused check_fixed sq2_user off_extra rfl (by decide)
      (by decide) (by decide) (by decide) (53 + 109),
    emitted_square_channel0 sin_unused check_fixed sq2_user off_extra rfl (by decide)
      (by decide) (by decide) (by decide) 53] at h1
  revert h1
  decide

/-- C19 (amended): for every rate r (an unsigned 32-bit number) and frequency f with
1 ≤ f ≤ r/2, the full cycle of a square run on channel 0 is 2 × H samples,
H = floor(floor(r/f) / 2): the values repeat after 2 × H frames and after no smaller
positive number of frames; 2 × H is floor(r/f) when floor(r/f) is even. -/
theorem square_cycle_length (sin : IEEE → IEEE) (fixed : FIXED_PARAMS)
    (user : COMMON_USER_PARAMS) (extra : ADDITIONAL_USER_PARAMS)
    (ht : user.wf_type = WAVEFORM_TYPE_SQUARE)
    (hf1 : 1 ≤ user.frequency_hz) (hf2 : user.frequency_hz ≤ user.sample_rate / 2)
    (hr : user.sample_rate < 2 ^ 32) (hc : 1 ≤ user.num_channels) :
    (∀ n, emitted sin fixed user extra (n + 2 * (user.sample_rate / user.frequency_hz / 2)) 0
        = emitted sin fixed user extra n 0)
    ∧ (∀ p, 0 < p → p < 2 * (user.sample_rate / user.frequency_hz / 2) →
        ∃ n, emitted sin fixed user extra (n + p) 0 ≠ emitted sin fixed user extra n 0)
    ∧ (user.sample_rate / user.frequency_hz % 2 = 0 →
        2 * (user.sample_rate / user.frequency_hz / 2)
          = user.sample_rate / user.frequency_hz) := by
  have hb := (cycle_bounds user.sample_rate user.frequency_hz hf1 hf2).2
  have he := emitted_square_channel0 sin fixed user extra ht hf1 hf2 hr hc
  generalize user.sample_rate / user.frequency_hz = L at *
  generalize hH : L / 2 = H at *
  refine ⟨?_, ?_, ?_⟩
  · intro n
    rw [he, he]
    have : (n + 2 * H) / H = n / H + 2 := by
      rw [show n + 2 * H = n + H * 2 by ring, Nat.add_mul_div_left _ _ (by omega)]
    rw [this, Nat.add_mod_right]
  · intro p hp0 hp2
    by_cases hp : p ≤ H
    · refine ⟨H - p, ?_⟩
      rw [he, he]
      have e1 : H - p + p = H := by omega
      have e2 : (H - p) / H = 0 := Nat.div_eq_of_lt (by omega)
      rw [e1, e2, Nat.div_self (by omega)]
      decide
    · refine ⟨0, ?_⟩
      rw [he, he]
      have e1 : (0 + p) / H = 1 := by
        rw [Nat.zero_add]
        apply Nat.div_eq_of_lt_le <;> omega
      rw [e1, Nat.zero_div]
      decide
  · intro hev
    omega

/-! ## Saw: the first ramp and what follows it -/

/-- The rising ramp of a mono saw run from fresh state, frame by frame. -/
theorem generated_saw_ramp (sin : IEEE → IEEE) (fixed : FIXED_PARAMS)
    (user : COMMON_USER_PARAMS) (extra : ADDITIONAL_USER_PARAMS)
    (ht : user.wf_type = WAVEFORM_TYPE_SAW) (hc : user.num_channels = 1)
    (hf1 : 1 ≤ user.frequency_hz) (hf2 : user.frequency_hz ≤ user.sample_rate / 2)
    (hr : user.sample_rate ≤ 192000) (k : Nat)
    (hk : k ≤ user.sample_rate / user.frequency_hz + 1) :
    ∃ r2, run_values sin user k (RUN.start fixed extra { data := [], room := 0 } true)
        = some ((List.range' 0 k).map
            (fun i => [((i * (2 * (2147483647 / (2 * (user.sample_rate / user.frequency_hz))))
                : Nat) : Int)]), r2)
      ∧ (k ≤ user.sample_rate / user.frequency_hz →
          r2.statics.saw_sample_value
            = ((k * (2 * (2147483647 / (2 * (user.sample_rate / user.frequency_hz))))
                : Nat) : Int)) := by
  obtain ⟨r2, h1, h2⟩ := run_values_saw_ramp sin user ht hc hf1 hf2 hr k 0
    (RUN.start fixed extra { data := [], room := 0 } true)
    (by simp [RUN.start, STATICS.init]) (by omega)
  refine ⟨r2, h1, fun hle => ?_⟩
  have := h2 (by omega)
  rw [this, Nat.zero_add]

/-- The value that a mono saw run from fresh state emits at frame `k` of the rising
ramp. -/
theorem emitted_saw_ramp (sin : IEEE → IEEE) (fixed : FIXED_PARAMS)
    (user : COMMON_USER_PARAMS) (extra : ADDITIONAL_USER_PARAMS)
    (ht : user.wf_type = WAVEFORM_TYPE_SAW) (hc : user.num_channels = 1)
    (hf1 : 1 ≤ user.frequency_hz) (hf2 : user.frequency_hz ≤ user.sample_rate / 2)
    (hr : user.sample_rate ≤ 192000) (k : Nat)
    (hk : k ≤ user.sample_rate / user.frequency_hz) :
    emitted sin fixed user extra k 0
      = some ((k * (2 * (2147483647 / (2 * (user.sample_rate / user.frequency_hz)))) : Nat)
          : Int) := by
  obtain ⟨r2, h1, _⟩ := generated_saw_ramp sin fixed user extra ht hc hf1 hf2 hr (k + 1)
    (by omega)
  rw [emitted_of_run sin fixed user extra _ k 0 r2 h1]
  rfl

/-- The step size of a valid saw configuration is positive and the peak level fits
under `MAX_LEVEL_32BIT`. -/
theorem saw_step_bounds (r f : Nat) (hf1 : 1 ≤ f) (hf2 : f ≤ r / 2) (hr : r ≤ 192000) :
    0 < 2 * (2147483647 / (2 * (r / f)))
    ∧ r / f * (2 * (2147483647 / (2 * (r / f)))) ≤ 2147483647 := by
  have hL : 2 ≤ r / f := by
    rw [Nat.le_div_iff_mul_le (by omega)]
    have := Nat.div_mul_le_self r 2
    have h3 : f * 2 ≤ r / 2 * 2 := Nat.mul_le_mul_right 2 hf2
    omega
  have hLr : r / f ≤ r := Nat.div_le_self _ _
  generalize r / f = L at *
  have hq := Nat.div_mul_le_self 2147483647 (2 * L)
  have hq1 : 1 ≤ 2147483647 / (2 * L) := by
    rw [Nat.le_div_iff_mul_le (by omega)]
    omega
  generalize 2147483647 / (2 * L) = q at *
  have : L * (2 * q) = q * (2 * L) := by ring
  omega

/-- C13: for a mono saw run from fresh state with 1 ≤ f ≤ r/2 and r ≤ 192000,
writing L = floor(r/f) and step_size = 2 × floor(MAX_LEVEL_32BIT / (2 × L)), the
first L + 1 emitted values are exactly 0, step_size, 2 × step_size, ..., L × step_size
(frame k carries k × step_size for every k ≤ L), step_size is positive, and the peak
level L × step_size does not exceed MAX_LEVEL_32BIT = 2147483647. -/
theorem saw_ramp_values (sin : IEEE → IEEE) (fixed : FIXED_PARAMS)
    (user : COMMON_USER_PARAMS) (extra : ADDITIONAL_USER_PARAMS)
    (ht : user.wf_type = WAVEFORM_TYPE_SAW) (hc : user.num_channels = 1)
    (hf1 : 1 ≤ user.frequency_hz) (hf2 : user.frequency_hz ≤ user.sample_rate / 2)
    (hr : user.sample_rate ≤ 192000) :
    generated sin fixed user extra (user.sample_rate / user.frequency_hz + 1)
        = some ((List.range (user.sample_rate / user.frequency_hz + 1)).map
            (fun k => [((k * (2 * (2147483647 / (2 * (user.sample_rate / user.frequency_hz))))
                : Nat) : Int)]))
    ∧ (∀ k, k ≤ user.sample_rate / user.frequency_hz →
        emitted sin fixed user extra k 0
          = some ((k * (2 * (2147483647 / (2 * (user.sample_rate / user.frequency_hz))))
              : Nat) : Int))
    ∧ 0 < 2 * (2147483647 / (2 * (user.sample_rate / user.frequency_hz)))
    ∧ ((user.sample_rate / user.frequency_hz
          * (2 * (2147483647 / (2 * (user.sample_rate / user.frequency_hz)))) : Nat) : Int)
        ≤ MAX_LEVEL_32BIT := by
  have hb := saw_step_bounds user.sample_rate user.frequency_hz hf1 hf2 hr
  refine ⟨?_, ?_, hb.1, ?_⟩
  · obtain ⟨r2, h1, _⟩ := generated_saw_ramp sin fixed user extra ht hc hf1 hf2 hr
      (user.sample_rate / user.frequency_hz + 1) (le_refl _)
    unfold generated
    rw [h1, List.range_eq_range']
    rfl
  · intro k hk
    exact emitted_saw_ramp sin fixed user extra ht hc hf1 hf2 hr k hk
  · have hM : MAX_LEVEL_32BIT = 2147483647 := rfl
    rw [hM]
    exact_mod_cast hb.2

/-- C15: in `generate_saw`, for every configuration, if the value emitted by one call
is exactly MAX_LEVEL_32BIT then that call leaves -MAX_LEVEL_32BIT as the running value,
whatever the step size, and the next call returns and emits exactly
-MAX_LEVEL_32BIT. -/
theorem generate_saw_max_level (fixed fixed2 : FIXED_PARAMS) (user : COMMON_USER_PARAMS)
    (st : STATICS) (fixed1 : FIXED_PARAMS) (st1 : STATICS)
    (h : generate_saw fixed user st = some (fixed1, st1))
    (hv : fixed1.sample_value = MAX_LEVEL_32BIT) :
    st1.saw_sample_value = -MAX_LEVEL_32BIT
    ∧ ∃ st2, generate_saw fixed2 user st1
        = some ({ fixed2 with sample_value := -MAX_LEVEL_32BIT }, st2) := by
  have hw : wrap_i32 (MAX_LEVEL_32BIT * -1) = -MAX_LEVEL_32BIT := by decide
  have hne : ¬ (-MAX_LEVEL_32BIT = MAX_LEVEL_32BIT) := by decide
  unfold generate_saw at h ⊢
  cases h1 : udiv user.sample_rate user.frequency_hz with
  | none =>
    try rw [h1] at h
    exact absurd h (by simp)
  | some cycle =>
    try rw [h1] at h
    simp only [Option.bind_eq_bind, Option.some_bind] at h ⊢
    cases h2 : udiv (to_u32 MAX_LEVEL_32BIT) (cycle * 2 % 2 ^ 32) with
    | none =>
      try rw [h2] at h
      exact absurd h (by simp)
    | some quot =>
      try rw [h2] at h
      simp only [Option.some_bind] at h ⊢
      by_cases hm : st.saw_sample_value = MAX_LEVEL_32BIT
      · simp only [hm, if_true, Option.some.injEq, Prod.mk.injEq] at h
        obtain ⟨_, h4⟩ := h
        have hs1 : st1.saw_sample_value = -MAX_LEVEL_32BIT := by
          rw [← h4]; exact hw
        refine ⟨hs1, ?_⟩
        rw [hs1]
        simp only [hne, if_false]
        split
        · exact ⟨_, rfl⟩
        · exact ⟨_, rfl⟩
      · exfalso
        simp only [hm, if_false] at h
        split at h
        · simp only [Option.some.injEq, Prod.mk.injEq] at h
          exact hm (by rw [← hv, ← h.1])
        · simp only [Option.some.injEq, Prod.mk.injEq] at h
          exact hm (by rw [← hv, ← h.1])

/-- The second of two elements appended to a list sits one past its length. -/
theorem getD_append_two (fs : List (List Int)) (a b : List Int) :
    (fs ++ [a, b]).getD (fs.length + 1) [] = b := by
  induction fs with
  | nil => rfl
  | cons x xs ih => simpa using ih

/-- The frame after the peak of the first ramp of a mono saw run, when adding the
step to the peak does not leave the 32-bit range: the value emitted is the one the
flip assigns. -/
theorem emitted_saw_after_peak (sin : IEEE → IEEE) (fixed : FIXED_PARAMS)
    (user : COMMON_USER_PARAMS) (extra : ADDITIONAL_USER_PARAMS)
    (ht : user.wf_type = WAVEFORM_TYPE_SAW) (hc : user.num_channels = 1)
    (hf1 : 1 ≤ user.frequency_hz) (hf2 : user.frequency_hz ≤ user.sample_rate / 2)
    (hr : user.sample_rate ≤ 192000)
    (hno : user.sample_rate / user.frequency_hz
          * (2 * (2147483647 / (2 * (user.sample_rate / user.frequency_hz))))
        + 2 * (2147483647 / (2 * (user.sample_rate / user.frequency_hz))) ≤ 2147483647) :
    emitted sin fixed user extra (user.sample_rate / user.frequency_hz + 1) 0
      = some (wrap_i32 (to_i32 (2 * (user.sample_rate / user.frequency_hz
                      * (2 * (2147483647 / (2 * (user.sample_rate / user.frequency_hz))))))
                * -1)) := by
  have hb := saw_step_bounds user.sample_rate user.frequency_hz hf1 hf2 hr
  obtain ⟨r1, h1, h2⟩ := generated_saw_ramp sin fixed user extra ht hc hf1 hf2 hr
    (user.sample_rate / user.frequency_hz) (by omega)
  have h2 := h2 (le_refl _)
  obtain ⟨ra, ha1, ha2, _⟩ := frame_values_saw sin user ht hf1 hf2 hr
    { r1 with fixed := { r1.fixed with current_chnl := 0 } }
  obtain ⟨rb, hb1, _, _⟩ := frame_values_saw sin user ht hf1 hf2 hr
    { ra with fixed := { ra.fixed with sample_number := ra.fixed.sample_number + 1,
                                       current_chnl := 0 } }
  have hadd := run_values_add sin user (user.sample_rate / user.frequency_hz) 2
    (RUN.start fixed extra { data := [], room := 0 } true)
  simp only [h1] at hadd
  generalize hL : user.sample_rate / user.frequency_hz = L at *
  generalize hq : 2147483647 / (2 * L) = q at *
  have hpar : L * (2 * q) = 2 * (L * q) := by ring
  have hne : ¬ (((L * (2 * q) : Nat) : Int) = 2147483647) := by omega
  have hw : wrap_i32 (((L * (2 * q) : Nat) : Int) + ((2 * q : Nat) : Int))
      = ((L * (2 * q) + 2 * q : Nat) : Int) := by
    unfold wrap_i32 to_i32 to_u32
    split <;> omega
  have hgt : (((L * (2 * q) + 2 * q : Nat) : Int) > ((L * (2 * q) : Nat) : Int)) := by
    omega
  simp only [h2, hne, if_false, hw, hgt, if_true] at ha1 ha2 hb1
  have htwo : run_values sin user 2 r1
      = some ([[((L * (2 * q) : Nat) : Int)],
               [wrap_i32 (to_i32 (2 * (L * (2 * q))) * -1)]],
             { rb with fixed := { rb.fixed with sample_number := rb.fixed.sample_number + 1 } }) := by
    simp only [run_values, hc, ha1, hb1, ha2]
  simp only [htwo] at hadd
  have hget : ∀ (fs : List (List Int)) (a b : List Int), fs.length = L →
      (fs ++ [a, b]).getD (L + 1) [] = b := by
    intro fs a b hl
    rw [← hl]
    exact getD_append_two fs a b
  unfold emitted generated
  rw [hadd]
  simp only [Option.map_some', Option.some_bind]
  rw [hget _ _ _ (by simp)]
  rfl

/-- C14 (the run where the claim fails): in the mono saw run at 48000 Hz and 1 Hz,
L = 48000, step_size = 44738 and the peak level is 2147424000.  Frame 48000 emits the
peak; adding step_size gives 2147468738, above the peak and within the 32-bit range,
and frame 48001 emits +119296, not -2147424000. -/
theorem saw_flip_value_is_positive :
    saw_1hz_user.sample_rate / saw_1hz_user.frequency_hz = 48000
    ∧ 2 * (2147483647 / (2 * 48000)) = 44738
    ∧ emitted sin_unused check_fixed saw_1hz_user off_extra 48000 0 = some 2147424000
    ∧ emitted sin_unused check_fixed saw_1hz_user off_extra 48001 0 = some 119296 := by
  refine ⟨by decide, by decide, ?_, ?_⟩
  · rw [emitted_saw_ramp sin_unused check_fixed saw_1hz_user off_extra rfl rfl (by decide)
      (by decide) (by decide) 48000 (by decide)]
    decide
  · have h := emitted_saw_after_peak sin_unused check_fixed saw_1hz_user off_extra rfl rfl
      (by decide) (by decide) (by decide) (by decide)
    have e : saw_1hz_user.sample_rate / saw_1hz_user.frequency_hz + 1 = 48001 := by decide
    rw [e] at h
    rw [h]
    decide

/-- C16 (the runs where the claim fails): in the mono saw run at 48000 Hz and 440 Hz,
floor(r/f) is 109, frame 0 emits 0 and frame 109 emits the peak 2147483556, so the
values do not repeat after 109 frames; at 1000 Hz, floor(r/f) is 48, frame 0 emits 0
and frame 48 emits the peak 2147483616. -/
theorem saw_cycle_is_not_the_quotient :
    saw_user.sample_rate / saw_user.frequency_hz = 109
    ∧ emitted sin_unused check_fixed saw_user off_extra 0 0 = some 0
    ∧ emitted sin_unused check_fixed saw_user off_extra 109 0 = some 2147483556
    ∧ saw_1k_user.sample_rate / saw_1k_user.frequency_hz = 48
    ∧ emitted sin_unused check_fixed saw_1k_user off_extra 0 0 = some 0
    ∧ emitted sin_unused check_fixed saw_1k_user off_extra 48 0 = some 2147483616 := by
  refine ⟨by decide, ?_, ?_, by decide, ?_, ?_⟩
  · rw [emitted_saw_ramp sin_unused check_fixed saw_user off_extra rfl rfl (by decide)
      (by decide) (by decide) 0 (by decide)]
    decide
  · rw [emitted_saw_ramp sin_unused check_fixed saw_user off_extra rfl rfl (by decide)
      (by decide) (by decide) 109 (by decide)]
    decide
  · rw [emitted_saw_ramp sin_unused check_fixed saw_1k_user off_extra rfl rfl (by decide)
      (by decide) (by decide) 0 (by decide)]
    decide
  · rw [emitted_saw_ramp sin_unused check_fixed saw_1k_user off_extra rfl rfl (by decide)
      (by decide) (by decide) 48 (by decide)]
    decide

/-! ## The documented check run (wavgen.c) -/

/-- C11 (the run where the claim fails): for the documented check run
`-b 32 -c 2 -s 4 -t counter -m msb`, the outer loop of `main` ends with its index at
8, not 4; 64 payload bytes follow the 44 header bytes, not 4 × 2 × 4 = 32; and the last
frame written carries the counter value 7 on both channels. -/
theorem check_run_frames :
    parse_opts_data_quantities 4 1 check_user_parsed = some check_user
    ∧ (main sin_unused check_fixed check_user check_extra empty_sink).map
        (fun r => (r.success, r.fixed.sample_number, (r.wavfile.data.drop 44).length,
          r.wavfile.data.drop 100))
      = some (true, 8, 64, le32 0xC1000007 ++ le32 0xC2000007) := by
  decide

/-- C12 (the run where the claim fails): the first 64 bytes that the documented check
run writes are not the 64 bytes of the hex dump in wavgen.c, whose RIFF size field is
0x34 and whose data size field is 0x10. -/
theorem check_run_is_not_the_documented_dump :
    (main sin_unused check_fixed check_user check_extra empty_sink).map
        (fun r => r.wavfile.data.take 64) ≠ some documented_dump
    ∧ documented_dump
      = [0x52, 0x49, 0x46, 0x46] ++ le32 0x34 ++ [0x57, 0x41, 0x56, 0x45]
        ++ [0x66, 0x6d, 0x74, 0x20] ++ le32 16 ++ le16 1 ++ le16 2 ++ le32 48000
        ++ le32 384000 ++ le16 8 ++ le16 32
        ++ [0x64, 0x61, 0x74, 0x61] ++ le32 0x10
        ++ le32 0xC1000000 ++ le32 0xC2000000 ++ le32 0xC1000001 ++ le32 0xC2000001
        ++ le32 0xC1000002 := by
  decide

/-- C12 (amended): for the documented check run `-b 32 -c 2 -s 4 -t counter -m msb` at
48000 Hz the first 64 bytes of output are: "RIFF", size field 0x44, "WAVE", the fmt
chunk (size 16, tag 1, 2 channels, rate 48000, byte rate 384000, block align 8,
32 bits), "data", size field 0x20, and the words 0xC1000000, 0xC2000000, 0xC1000001,
0xC2000001, 0xC1000002; they differ from the documented dump in the two size
fields only. -/
theorem check_run_first_64_bytes :
    (main sin_unused check_fixed check_user check_extra empty_sink).map
        (fun r => r.wavfile.data.take 64)
      = some ([0x52, 0x49, 0x46, 0x46] ++ le32 0x44 ++ [0x57, 0x41, 0x56, 0x45]
        ++ [0x66, 0x6d, 0x74, 0x20] ++ le32 16 ++ le16 1 ++ le16 2 ++ le32 48000
        ++ le32 384000 ++ le16 8 ++ le16 32
        ++ [0x64, 0x61, 0x74, 0x61] ++ le32 0x20
        ++ le32 0xC1000000 ++ le32 0xC2000000 ++ le32 0xC1000001 ++ le32 0xC2000001
        ++ le32 0xC1000002)
    ∧ (main sin_unused check_fixed check_user check_extra empty_sink).map
        (fun r => r.wavfile.data.take 64)
      = some ((documented_dump.set 4 0x44).set 40 0x20) := by
  decide

/-! ## Instances for the generators -/

theorem saw_ramp_values_witness :
    saw_user.wf_type = WAVEFORM_TYPE_SAW ∧ saw_user.num_channels = 1
    ∧ 1 ≤ saw_user.frequency_hz ∧ saw_user.frequency_hz ≤ saw_user.sample_rate / 2
    ∧ saw_user.sample_rate ≤ 192000
    ∧ emitted sin_unused check_fixed saw_user off_extra 0 0 = some 0
    ∧ emitted sin_unused check_fixed saw_user off_extra 1 0 = some 19701684
    ∧ emitted sin_unused check_fixed saw_user off_extra 109 0 = some 2147483556 := by
  have h := (saw_ramp_values sin_unused check_fixed saw_user off_extra rfl rfl (by decide)
    (by decide) (by decide)).2.1
  exact ⟨rfl, rfl, by decide, by decide, by decide,
    (h 0 (by decide)).trans (by decide), (h 1 (by decide)).trans (by decide),
    (h 109 (by decide)).trans (by decide)⟩

theorem generate_saw_max_level_witness :
    generate_saw check_fixed saw_user { STATICS.init with saw_sample_value := 2147483647 }
      = some ({ check_fixed with sample_value := 2147483647 },
              { STATICS.init with saw_sample_value := -2147483647 })
    ∧ ∃ st2, generate_saw c6_fixed saw_user { STATICS.init with saw_sample_value := -2147483647 }
        = some ({ c6_fixed with sample_value := -MAX_LEVEL_32BIT }, st2) :=
  ⟨by decide,
    (generate_saw_max_level check_fixed c6_fixed saw_user
      { STATICS.init with saw_sample_value := 2147483647 }
      { check_fixed with sample_value := 2147483647 }
      { STATICS.init with saw_sample_value := -2147483647 } (by decide) rfl).2⟩

theorem square_channel0_polarity_witness :
    sq2_user.wf_type = WAVEFORM_TYPE_SQUARE
    ∧ 1 ≤ sq2_user.frequency_hz ∧ sq2_user.frequency_hz ≤ sq2_user.sample_rate / 2
    ∧ sq2_user.sample_rate < 2 ^ 32 ∧ 1 ≤ sq2_user.num_channels
    ∧ emitted sin_unused check_fixed sq2_user off_extra 53 0 = some 2147483647
    ∧ emitted sin_unused check_fixed sq2_user off_extra 54 0 = some (-2147483647) :=
  ⟨rfl, by decide, by decide, by decide, by decide,
    (square_channel0_polarity sin_unused check_fixed sq2_user off_extra rfl (by decide)
      (by decide) (by decide) (by decide) 53).2.2.1.trans (by decide),
    (square_channel0_polarity sin_unused check_fixed sq2_user off_extra rfl (by decide)
      (by decide) (by decide) (by decide) 54).2.2.1.trans (by decide)⟩

theorem square_cycle_length_witness :
    sq2_user.wf_type = WAVEFORM_TYPE_SQUARE
    ∧ 1 ≤ sq2_user.frequency_hz ∧ sq2_user.frequency_hz ≤ sq2_user.sample_rate / 2
    ∧ sq2_user.sample_rate < 2 ^ 32 ∧ 1 ≤ sq2_user.num_channels
    ∧ 2 * (sq2_user.sample_rate / sq2_user.frequency_hz / 2) = 108
    ∧ emitted sin_unused check_fixed sq2_user off_extra
          (53 + 2 * (sq2_user.sample_rate / sq2_user.frequency_hz / 2)) 0
        = emitted sin_unused check_fixed sq2_user off_extra 53 0 :=
  ⟨rfl, by decide, by decide, by decide, by decide, by decide,
    (square_cycle_length sin_unused check_fixed sq2_user off_extra rfl (by decide)
      (by decide) (by decide) (by decide)).1 53⟩

theorem steps_levels_witness :
    steps_user.wf_type = WAVEFORM_TYPE_STEPS
    ∧ 1 ≤ steps_user.num_channels ∧ steps_user.num_channels ≤ 8
    ∧ 1 < steps_user.num_channels
    ∧ emitted sin_unused check_fixed steps_user off_extra 7 1 = some 1073741822 :=
  ⟨rfl, by decide, by decide, by decide,
    (steps_levels sin_unused check_fixed steps_user off_extra rfl (by decide) (by decide)
      7 1 (by decide)).1.trans (by decide)⟩

/-! ## The random number generator (wf_noise.c) -/

/-- The multiplier 16807 has no factor in common with the modulus 2^31 - 1, so a
seed in 1..2^31 - 2 is never mapped to 0. -/
theorem lehmer_nonzero (s : Nat) (h1 : 1 ≤ s) (h2 : s ≤ 2147483646) :
    16807 * s % 2147483647 ≠ 0 := by
  intro h
  have hd : 2147483647 ∣ s * 16807 := by
    rw [Nat.mul_comm]
    exact Nat.dvd_of_mod_eq_zero h
  have hc : Nat.Coprime 2147483647 16807 := by norm_num
  have := Nat.le_of_dvd (by omega) (hc.dvd_of_dvd_mul_right hd)
  omega

/-- One conditional subtraction reduces a number below twice the modulus that is not
a multiple of it. -/
theorem fold_once (x : Nat) (hx : x < 4294967294) (hnz : x % 2147483647 ≠ 0) :
    (if x > 2147483647 then x - 2147483647 else x) = x % 2147483647 := by
  split <;> omega

/-- The closed form of `rand_31` on a seed in 1..2^31 - 2. -/
theorem rand_31_eq (s : Nat) (h1 : 1 ≤ s) (h2 : s ≤ 2147483646) :
    rand_31 (s : Int)
      = (16807 * s % 2147483647, ((16807 * s % 2147483647 : Nat) : Int)) := by
  have hnz := lehmer_nonzero s h1 h2
  have e1 : to_u32 (s : Int) = s := by
    unfold to_u32
    omega
  have e2 : to_u32 ((s : Int) / 65536) = s / 65536 := by
    unfold to_u32
    omega
  have m1 : ∀ u : Nat, u &&& 0xFFFF = u % 65536 := by
    intro u
    have h := Nat.and_pow_two_sub_one_eq_mod u 16
    simpa using h
  have m2 : ∀ u : Nat, u &&& 0x7FFF = u % 32768 := by
    intro u
    have h := Nat.and_pow_two_sub_one_eq_mod u 15
    simpa using h
  unfold rand_31
  simp only [e1, e2, m1, m2, Nat.shiftLeft_eq, Nat.shiftRight_eq_div_pow]
  simp only [Nat.reducePow]
  have hs := Nat.div_add_mod s 65536
  have ha := Nat.mod_lt s (show 65536 > 0 by decide)
  generalize s % 65536 = a at hs ha ⊢
  generalize s / 65536 = b at hs ⊢
  have hb : b ≤ 32767 := by omega
  have w1 : 16807 * a % 4294967296 = 16807 * a := Nat.mod_eq_of_lt (by omega)
  have w2 : 16807 * b % 4294967296 = 16807 * b := Nat.mod_eq_of_lt (by omega)
  rw [w1, w2]
  have hh := Nat.div_add_mod (16807 * b) 32768
  have hc := Nat.mod_lt (16807 * b) (show 32768 > 0 by decide)
  generalize 16807 * b % 32768 = c at hh hc ⊢
  generalize 16807 * b / 32768 = d at hh ⊢
  have hd : d ≤ 16806 := by omega
  have w3 : (16807 * a + c * 65536) % 4294967296 = 16807 * a + c * 65536 :=
    Nat.mod_eq_of_lt (by omega)
  rw [w3]
  have w4 : (16807 * a + c * 65536 + d) % 4294967296 = 16807 * a + c * 65536 + d :=
    Nat.mod_eq_of_lt (by omega)
  rw [w4]
  have hsum : 16807 * s = 16807 * a + c * 65536 + d + 2147483647 * d := by omega
  have hx : 16807 * a + c * 65536 + d < 4294967294 := by omega
  generalize 16807 * a + c * 65536 + d = x at hsum hx ⊢
  have hmod : 16807 * s % 2147483647 = x % 2147483647 := by
    rw [hsum, Nat.add_mul_mod_self_left]
  rw [hmod] at hnz
  rw [hmod, fold_once x hx hnz]
  have hu : x % 2147483647 < 2147483648 := by omega
  generalize x % 2147483647 = u at hu ⊢
  have t1 : to_i32 u = (u : Int) := by
    unfold to_i32
    split <;> omega
  have t2 : to_u32 (u : Int) = u := by
    unfold to_u32
    omega
  rw [t1, t2]

/-- The seed after `k` draws is 16807^k mod 2^31 - 1, and it is never 0. -/
theorem rand_31_draw_eq (k : Nat) :
    rand_31_draw k = ((16807 ^ k % 2147483647 : Nat) : Int)
    ∧ 1 ≤ 16807 ^ k % 2147483647 ∧ 16807 ^ k % 2147483647 ≤ 2147483646 := by
  induction k with
  | zero => exact ⟨rfl, by decide, by decide⟩
  | succ k ih =>
    obtain ⟨h0, h1, h2⟩ := ih
    have hm : 16807 * (16807 ^ k % 2147483647) % 2147483647
        = 16807 ^ (k + 1) % 2147483647 := by
      rw [pow_succ, Nat.mul_comm (16807 ^ k) 16807, Nat.mul_mod 16807 (16807 ^ k),
        Nat.mul_mod 16807 (16807 ^ k % 2147483647), Nat.mod_mod]
    have hnz := lehmer_nonzero _ h1 h2
    have hlt := Nat.mod_lt (16807 ^ (k + 1)) (show 2147483647 > 0 by decide)
    rw [hm] at hnz
    refine ⟨?_, by omega, by omega⟩
    show (rand_31 (rand_31_draw k)).2 = _
    rw [h0, rand_31_eq _ h1 h2, hm]

/-- C23: for every seed s with 1 ≤ s ≤ 2^31 - 2, `rand_31` returns, and stores as the
new seed, exactly (16807 × s) mod (2^31 - 1); none of its 32-bit unsigned products and
sums wraps; the result again lies in 1..2^31 - 2; and starting from seed 1 the seed
after k draws (the k-th value drawn) is 16807^k mod (2^31 - 1), never 0. -/
theorem rand_31_lehmer (s : Nat) (h1 : 1 ≤ s) (h2 : s ≤ 2147483646) :
    rand_31 (s : Int)
        = (16807 * s % 2147483647, ((16807 * s % 2147483647 : Nat) : Int))
    ∧ (16807 * (s % 65536) < 2 ^ 32 ∧ 16807 * (s / 65536) < 2 ^ 32
        ∧ 16807 * (s % 65536) + 16807 * (s / 65536) % 32768 * 65536
            + 16807 * (s / 65536) / 32768 < 2 ^ 32)
    ∧ (1 ≤ 16807 * s % 2147483647 ∧ 16807 * s % 2147483647 ≤ 2147483646)
    ∧ (∀ k, rand_31_draw k = ((16807 ^ k % 2147483647 : Nat) : Int)
        ∧ rand_31_draw k ≠ 0) := by
  have hnz := lehmer_nonzero s h1 h2
  have hlt := Nat.mod_lt (16807 * s) (show 2147483647 > 0 by decide)
  refine ⟨rand_31_eq s h1 h2, ?_, ⟨by omega, by omega⟩, ?_⟩
  · have hs := Nat.div_add_mod s 65536
    have ha := Nat.mod_lt s (show 65536 > 0 by decide)
    generalize s % 65536 = a at hs ha ⊢
    generalize s / 65536 = b at hs ⊢
    have hh := Nat.div_add_mod (16807 * b) 32768
    have hc := Nat.mod_lt (16807 * b) (show 32768 > 0 by decide)
    generalize 16807 * b % 32768 = c at hh hc ⊢
    generalize 16807 * b / 32768 = d at hh ⊢
    refine ⟨by omega, by omega, by omega⟩
  · intro k
    obtain ⟨e1, e2, _⟩ := rand_31_draw_eq k
    refine ⟨e1, ?_⟩
    rw [e1]
    omega

theorem rand_31_lehmer_witness :
    (1 : Nat) ≤ 16807 ∧ 16807 ≤ 2147483646
    ∧ rand_31 ((16807 : Nat) : Int) = (282475249, 282475249)
    ∧ rand_31_draw 2 = 282475249 :=
  ⟨by decide, by decide,
    (rand_31_lehmer 16807 (by decide) (by decide)).1.trans (by decide),
    ((rand_31_lehmer 16807 (by decide) (by decide)).2.2.2 2).1.trans (by decide)⟩

/-! ## The white-noise sample (wf_noise.c) -/

/-- The recentring of `generate_white` does not leave the 32-bit range for a raw
value in 1..2^31 - 2. -/
theorem white_recentre (x : Nat) (h1 : 1 ≤ x) (h2 : x ≤ 2147483646) :
    wrap_i32 (((x : Int) - ((0x7FFFFFFF / 2 : Nat) : Int)) * 2) = 2 * ((x : Int) - 1073741823) := by
  unfold wrap_i32 to_i32 to_u32
  norm_num
  split <;> omega

/-- C24: when `generate_white` draws (channel 0, or uncorrelated mode) and the raw
generator output x lies in 1..2^31 - 2, the sample emitted and stored is exactly
2 × (x - 1073741823), the conversion to a signed 32-bit integer does not wrap, and
the sample lies within [-MAX_LEVEL_32BIT, MAX_LEVEL_32BIT]. -/
theorem generate_white_sample (fixed : FIXED_PARAMS) (extra : ADDITIONAL_USER_PARAMS)
    (st : STATICS) (hd : fixed.current_chnl = 0 ∨ extra.uncorrelated = true)
    (h1 : 1 ≤ (rand_31 st.white_seed).1) (h2 : (rand_31 st.white_seed).1 ≤ 2147483646) :
    (generate_white fixed extra st).1.sample_value
        = 2 * (((rand_31 st.white_seed).1 : Int) - 1073741823)
    ∧ (generate_white fixed extra st).2.white_last_sample
        = 2 * (((rand_31 st.white_seed).1 : Int) - 1073741823)
    ∧ -MAX_LEVEL_32BIT ≤ 2 * (((rand_31 st.white_seed).1 : Int) - 1073741823)
    ∧ 2 * (((rand_31 st.white_seed).1 : Int) - 1073741823) ≤ MAX_LEVEL_32BIT := by
  have hM : MAX_LEVEL_32BIT = 2147483647 := rfl
  have hc : (fixed.current_chnl = 0 || extra.uncorrelated) = true := by
    rcases hd with h | h
    · simp [h]
    · simp [h]
  have hw := white_recentre _ h1 h2
  refine ⟨?_, ?_, by rw [hM]; omega, by rw [hM]; omega⟩
  · unfold generate_white
    rw [if_pos hc]
    exact hw
  · unfold generate_white
    rw [if_pos hc]
    exact hw

theorem generate_white_sample_witness :
    (check_fixed.current_chnl = 0 ∨ off_extra.uncorrelated = true)
    ∧ (rand_31 STATICS.init.white_seed).1 = 16807
    ∧ (generate_white check_fixed off_extra STATICS.init).1.sample_value = -2147450032 :=
  ⟨Or.inl rfl, by decide,
    (generate_white_sample check_fixed off_extra STATICS.init (Or.inl rfl) (by decide)
      (by decide)).1.trans (by decide)⟩

/-! ## An invariant rule for the generator calls of a run -/

/-- The element that follows a prefix sits at the index given by its length. -/
theorem nth_append_cons (vs ws : List Int) (v : Int) :
    (vs ++ v :: ws).get? vs.length = some v := by
  induction vs with
  | nil => rfl
  | cons x xs ih => simpa using ih

theorem frame_values_add (sin : IEEE → IEEE) (user : COMMON_USER_PARAMS) (a b : Nat) :
    ∀ r : RUN, frame_values sin user (a + b) r
      = match frame_values sin user a r with
        | none => none
        | some (vs, r1) =>
            match frame_values sin user b r1 with
            | none => none
            | some (ws, r2) => some (vs ++ ws, r2) := by
  induction a with
  | zero =>
      intro r
      simp only [Nat.zero_add, frame_values]
      cases frame_values sin user b r with
      | none => rfl
      | some p => rfl
  | succ a ih =>
      intro r
      rw [Nat.succ_add]
      simp only [frame_values]
      cases generate sin user r with
      | none => rfl
      | some r1 =>
          simp only [ih]
          cases frame_values sin user a
              { r1 with fixed := { r1.fixed with current_chnl := r1.fixed.current_chnl + 1 } } with
          | none => rfl
          | some q =>
              obtain ⟨vs, r2⟩ := q
              simp only []
              cases frame_values sin user b r2 with
              | none => rfl
              | some w => rfl

/-- An invariant of the generator calls of one frame: `k` more channels from
channel `c`. -/
theorem frame_values_invariant (sin : IEEE → IEEE) (user : COMMON_USER_PARAMS)
    (P : Nat → Nat → RUN → Prop)
    (hstep : ∀ n c r, c < user.num_channels → P n c r →
      ∃ r1, generate sin user r = some r1
        ∧ P n (c + 1)
            { r1 with fixed := { r1.fixed with current_chnl := r1.fixed.current_chnl + 1 } })
    (n k : Nat) :
    ∀ (c : Nat) (r : RUN), c + k ≤ user.num_channels → P n c r →
      ∃ vs r2, frame_values sin user k r = some (vs, r2) ∧ vs.length = k ∧ P n (c + k) r2 := by
  induction k with
  | zero =>
      intro c r _ h
      exact ⟨[], r, rfl, rfl, h⟩
  | succ k ih =>
      intro c r hc h
      obtain ⟨r1, g1, g2⟩ := hstep n c r (by omega) h
      obtain ⟨vs, r2, f1, f2, f3⟩ := ih (c + 1) _ (by omega) g2
      refine ⟨r1.fixed.sample_value :: vs, r2, ?_, ?_, ?_⟩
      · simp only [frame_values, g1, f1]
      · simp [f2]
      · have e : c + 1 + k = c + (k + 1) := by omega
        rw [← e]
        exact f3

/-- An invariant of the generator calls of `k` whole frames. -/
theorem run_values_invariant (sin : IEEE → IEEE) (user : COMMON_USER_PARAMS)
    (P : Nat → Nat → RUN → Prop)
    (hstep : ∀ n c r, c < user.num_channels → P n c r →
      ∃ r1, generate sin user r = some r1
        ∧ P n (c + 1)
            { r1 with fixed := { r1.fixed with current_chnl := r1.fixed.current_chnl + 1 } })
    (hframe : ∀ n r, P n user.num_channels r →
      P (n + 1) 0
        { r with fixed := { r.fixed with sample_number := r.fixed.sample_number + 1,
                                         current_chnl := 0 } })
    (k : Nat) :
    ∀ (n : Nat) (r : RUN), P n 0 { r with fixed := { r.fixed with current_chnl := 0 } } →
      ∃ fs r2, run_values sin user k r = some (fs, r2) ∧ fs.length = k
        ∧ P (n + k) 0 { r2 with fixed := { r2.fixed with current_chnl := 0 } } := by
  induction k with
  | zero =>
      intro n r h
      exact ⟨[], r, rfl, rfl, h⟩
  | succ k ih =>
      intro n r h
      obtain ⟨vs, r1, f1, _, f3⟩ := frame_values_invariant sin user P hstep n
        user.num_channels 0 _ (by omega) h
      rw [Nat.zero_add] at f3
      obtain ⟨fs, r2, g1, g2, g3⟩ := ih (n + 1)
        { r1 with fixed := { r1.fixed with sample_number := r1.fixed.sample_number + 1 } }
        (hframe n r1 f3)
      refine ⟨vs :: fs, r2, ?_, ?_, ?_⟩
      · simp only [run_values, f1, g1]
      · simp [g2]
      · have e : n + 1 + k = n + (k + 1) := by omega
        rw [← e]
        exact g3

/-- The invariant rule for the generator calls of a run: a property that holds at the
start, is carried over each call and over each change of frame, holds in the state
before every call; no call traps, and the value emitted for frame `n`, channel `c`
is the one that the call made in that state leaves. -/
theorem call_invariant (sin : IEEE → IEEE) (fixed : FIXED_PARAMS)
    (user : COMMON_USER_PARAMS) (extra : ADDITIONAL_USER_PARAMS)
    (P : Nat → Nat → RUN → Prop)
    (h0 : P 0 0 (RUN.start { fixed with current_chnl := 0 } extra
      { data := [], room := 0 } true))
    (hstep : ∀ n c r, c < user.num_channels → P n c r →
      ∃ r1, generate sin user r = some r1
        ∧ P n (c + 1)
            { r1 with fixed := { r1.fixed with current_chnl := r1.fixed.current_chnl + 1 } })
    (hframe : ∀ n r, P n user.num_channels r →
      P (n + 1) 0
        { r with fixed := { r.fixed with sample_number := r.fixed.sample_number + 1,
                                         current_chnl := 0 } })
    (n c : Nat) (hc : c < user.num_channels) :
    ∃ r r1, before_call sin fixed user extra n c = some r ∧ P n c r
      ∧ generate sin user r = some r1
      ∧ emitted sin fixed user extra n c = some r1.fixed.sample_value
      ∧ P n (c + 1)
          { r1 with fixed := { r1.fixed with current_chnl := r1.fixed.current_chnl + 1 } } := by
  obtain ⟨fs, r0, a1, a2, a3⟩ := run_values_invariant sin user P hstep hframe n 0
    (RUN.start fixed extra { data := [], room := 0 } true) h0
  rw [Nat.zero_add] at a3
  obtain ⟨vs, r, b1, b2, b3⟩ := frame_values_invariant sin user P hstep n c 0 _ (by omega) a3
  rw [Nat.zero_add] at b3
  obtain ⟨r1, c1, c2⟩ := hstep n c r hc b3
  obtain ⟨ws, r3, d1, _, _⟩ := frame_values_invariant sin user P hstep n
    (user.num_channels - (c + 1)) (c + 1) _ (by omega) c2
  refine ⟨r, r1, ?_, b3, c1, ?_, c2⟩
  · unfold before_call
    rw [a1]
    simp only [b1, Option.map_some']
  · have hone : frame_values sin user (1 + (user.num_channels - (c + 1))) r
        = some (r1.fixed.sample_value :: ws, r3) := by
      rw [Nat.add_comm]
      simp only [frame_values, c1, d1]
    have hfr : frame_values sin user user.num_channels
        { r0 with fixed := { r0.fixed with current_chnl := 0 } }
        = some (vs ++ r1.fixed.sample_value :: ws, r3) := by
      have e : user.num_channels = c + (1 + (user.num_channels - (c + 1))) := by omega
      rw [e, frame_values_add]
      simp only [b1, hone]
    have hrun := run_values_add sin user n 1
      (RUN.start fixed extra { data := [], room := 0 } true)
    have hlast : run_values sin user 1 r0
        = some ([vs ++ r1.fixed.sample_value :: ws],
            { r3 with fixed := { r3.fixed with sample_number := r3.fixed.sample_number + 1 } }) := by
      simp only [run_values, hfr]
    simp only [a1, hlast] at hrun
    unfold emitted generated
    rw [hrun]
    simp only [Option.map_some', Option.some_bind]
    have g1 : (fs ++ [vs ++ r1.fixed.sample_value :: ws]).getD n []
        = vs ++ r1.fixed.sample_value :: ws := by
      rw [← a2]
      simp [List.getD_eq_getElem?_getD]
    rw [g1, ← b2]
    exact nth_append_cons vs ws _

/-- The state before the first call of a run. -/
theorem before_call_zero (sin : IEEE → IEEE) (fixed : FIXED_PARAMS)
    (user : COMMON_USER_PARAMS) (extra : ADDITIONAL_USER_PARAMS) :
    before_call sin fixed user extra 0 0
      = some (RUN.start { fixed with current_chnl := 0 } extra { data := [], room := 0 } true) :=
  rfl

/-- The state before the call for the next channel of a frame. -/
theorem before_call_succ (sin : IEEE → IEEE) (fixed : FIXED_PARAMS)
    (user : COMMON_USER_PARAMS) (extra : ADDITIONAL_USER_PARAMS) (n c : Nat) (r r1 : RUN)
    (h : before_call sin fixed user extra n c = some r)
    (hg : generate sin user r = some r1) :
    before_call sin fixed user extra n (c + 1)
      = some { r1 with fixed := { r1.fixed with current_chnl := r1.fixed.current_chnl + 1 } } := by
  unfold before_call at h ⊢
  cases hr : run_values sin user n (RUN.start fixed extra { data := [], room := 0 } true) with
  | none =>
      rw [hr] at h
      exact absurd h (by simp)
  | some p =>
      obtain ⟨fs, r0⟩ := p
      rw [hr] at h
      simp only at h ⊢
      cases hf : frame_values sin user c
          { r0 with fixed := { r0.fixed with current_chnl := 0 } } with
      | none =>
          rw [hf] at h
          exact absurd h (by simp)
      | some q =>
          obtain ⟨vs, r2⟩ := q
          rw [hf] at h
          simp only [Option.map_some', Option.some.injEq] at h
          subst h
          rw [frame_values_add, hf]
          simp only [frame_values, hg, Option.map_some']

/-- The state before the first call of the next frame. -/
theorem before_call_frame (sin : IEEE → IEEE) (fixed : FIXED_PARAMS)
    (user : COMMON_USER_PARAMS) (extra : ADDITIONAL_USER_PARAMS) (n : Nat) (r : RUN)
    (h : before_call sin fixed user extra n user.num_channels = some r) :
    before_call sin fixed user extra (n + 1) 0
      = some { r with fixed := { r.fixed with sample_number := r.fixed.sample_number + 1,
                                              current_chnl := 0 } } := by
  unfold before_call at h ⊢
  cases hr : run_values sin user n (RUN.start fixed extra { data := [], room := 0 } true) with
  | none =>
      rw [hr] at h
      exact absurd h (by simp)
  | some p =>
      obtain ⟨fs, r0⟩ := p
      rw [hr] at h
      simp only at h
      cases hf : frame_values sin user user.num_channels
          { r0 with fixed := { r0.fixed with current_chnl := 0 } } with
      | none =>
          rw [hf] at h
          exact absurd h (by simp)
      | some q =>
          obtain ⟨vs, r2⟩ := q
          rw [hf] at h
          simp only [Option.map_some', Option.some.injEq] at h
          subst h
          have hone : run_values sin user 1 r0
              = some ([vs], { r2 with fixed :=
                  { r2.fixed with sample_number := r2.fixed.sample_number + 1 } }) := by
            simp only [run_values, hf]
          rw [run_values_add, hr]
          simp only [hone, frame_values, Option.map_some']

/-- The invariant rule with the state named: the property may speak of the state
before the call as the one the run really reaches. -/
theorem call_invariant_at (sin : IEEE → IEEE) (fixed : FIXED_PARAMS)
    (user : COMMON_USER_PARAMS) (extra : ADDITIONAL_USER_PARAMS)
    (P : Nat → Nat → RUN → Prop)
    (h0 : P 0 0 (RUN.start { fixed with current_chnl := 0 } extra
      { data := [], room := 0 } true))
    (hstep : ∀ n c r, c < user.num_channels →
      before_call sin fixed user extra n c = some r → P n c r →
      ∃ r1, generate sin user r = some r1
        ∧ P n (c + 1)
            { r1 with fixed := { r1.fixed with current_chnl := r1.fixed.current_chnl + 1 } })
    (hframe : ∀ n r, P n user.num_channels r →
      P (n + 1) 0
        { r with fixed := { r.fixed with sample_number := r.fixed.sample_number + 1,
                                         current_chnl := 0 } })
    (n c : Nat) (hc : c < user.num_channels) :
    ∃ r r1, before_call sin fixed user extra n c = some r ∧ P n c r
      ∧ generate sin user r = some r1
      ∧ emitted sin fixed user extra n c = some r1.fixed.sample_value
      ∧ P n (c + 1)
          { r1 with fixed := { r1.fixed with current_chnl := r1.fixed.current_chnl + 1 } } := by
  obtain ⟨r, r1, a1, a2, a3, a4, a5⟩ := call_invariant sin fixed user extra
    (fun n c r => before_call sin fixed user extra n c = some r ∧ P n c r)
    ⟨before_call_zero sin fixed user extra, h0⟩
    (fun n c r hc h => by
      obtain ⟨r1, g1, g2⟩ := hstep n c r hc h.1 h.2
      exact ⟨r1, g1, before_call_succ sin fixed user extra n c r r1 h.1 g1, g2⟩)
    (fun n r h => ⟨before_call_frame sin fixed user extra n r h.1, hframe n r h.2⟩)
    n c hc
  exact ⟨r, r1, a1, a2.2, a3, a4, a5.2⟩

/-- When no generator call traps, the value emitted for a call is the one that the
generator leaves in the state the run reaches before it. -/
theorem emitted_of_before_call (sin : IEEE → IEEE) (fixed : FIXED_PARAMS)
    (user : COMMON_USER_PARAMS) (extra : ADDITIONAL_USER_PARAMS)
    (htot : ∀ r, ∃ r1, generate sin user r = some r1)
    (n c : Nat) (hc : c < user.num_channels) (r r1 : RUN)
    (h : before_call sin fixed user extra n c = some r)
    (hg : generate sin user r = some r1) :
    emitted sin fixed user extra n c = some r1.fixed.sample_value := by
  obtain ⟨r', r1', a1, _, a3, a4, _⟩ := call_invariant sin fixed user extra
    (fun _ _ _ => True) trivial
    (fun n c r _ _ => by
      obtain ⟨r1, g1⟩ := htot r
      exact ⟨r1, g1, trivial⟩)
    (fun _ _ _ => trivial) n c hc
  rw [h] at a1
  simp only [Option.some.injEq] at a1
  subst a1
  rw [hg] at a3
  simp only [Option.some.injEq] at a3
  subst a3
  exact a4

/-! ## The counter run without markers (wf_counter.c) -/

theorem generate_counter_run (sin : IEEE → IEEE) (user : COMMON_USER_PARAMS) (r : RUN)
    (ht : user.wf_type = WAVEFORM_TYPE_COUNTER) :
    generate sin user r = some { r with fixed := generate_counter r.fixed user r.extra } := by
  unfold generate
  rw [ht]

/-- The value of `generate_counter` depends on the sample number only, and the call
leaves the sample number and the channel index as they are. -/
theorem generate_counter_eq (fixed : FIXED_PARAMS) (user : COMMON_USER_PARAMS)
    (extra : ADDITIONAL_USER_PARAMS) (n : Nat) (h : fixed.sample_number = n) :
    (generate_counter fixed user extra).sample_value
        = (generate_counter
            { gain := .fin 1 0, sample_value := 0, sample_number := n, current_chnl := 0 }
            user extra).sample_value
    ∧ (generate_counter fixed user extra).sample_number = fixed.sample_number
    ∧ (generate_counter fixed user extra).current_chnl = fixed.current_chnl := by
  subst h
  unfold generate_counter
  simp only []
  split
  · exact ⟨rfl, rfl, rfl⟩
  · split
    · exact ⟨rfl, rfl, rfl⟩
    · split
      · exact ⟨rfl, rfl, rfl⟩
      · exact ⟨rfl, rfl, rfl⟩

/-- The value that a counter run emits for frame `n`, channel `c`. -/
theorem emitted_counter (sin : IEEE → IEEE) (fixed : FIXED_PARAMS)
    (user : COMMON_USER_PARAMS) (extra : ADDITIONAL_USER_PARAMS)
    (ht : user.wf_type = WAVEFORM_TYPE_COUNTER) (n c : Nat) (hc : c < user.num_channels) :
    emitted sin fixed user extra n c
      = some (generate_counter
          { gain := .fin 1 0, sample_value := 0, sample_number := n, current_chnl := 0 }
          user extra).sample_value := by
  obtain ⟨r, r1, _, a2, a3, a4, _⟩ := call_invariant sin fixed user extra
    (fun n _ r => r.fixed.sample_number = n ∧ r.extra = extra)
    ⟨rfl, rfl⟩
    (fun n c r _ h => by
      refine ⟨_, generate_counter_run sin user r ht, ?_, h.2⟩
      exact (generate_counter_eq r.fixed user r.extra n h.1).2.1.trans h.1)
    (fun n r h => ⟨by rw [← h.1], h.2⟩) n c hc
  rw [generate_counter_run sin user r ht] at a3
  simp only [Option.some.injEq] at a3
  subst a3
  rw [a4]
  simp only [a2.2]
  rw [(generate_counter_eq r.fixed user extra n a2.1).1]

/-- C21: the value of `generate_counter` does not depend on the channel index; in a
counter run, for every frame n, bit depth and marker setting, every channel of the
frame receives the same value before markers as channel 0; and for 32-bit or float
output without low-byte markers that value is the frame index n as a 32-bit pattern
(n mod 2^32), one more (mod 2^32) in each following frame. -/
theorem counter_same_on_all_channels (sin : IEEE → IEEE) (fixed : FIXED_PARAMS)
    (user : COMMON_USER_PARAMS) (extra : ADDITIONAL_USER_PARAMS)
    (ht : user.wf_type = WAVEFORM_TYPE_COUNTER) (n c : Nat) (hc : c < user.num_channels) :
    (∀ k, (generate_counter { fixed with current_chnl := k } user extra).sample_value
        = (generate_counter fixed user extra).sample_value)
    ∧ emitted sin fixed user extra n c = emitted sin fixed user extra n 0
    ∧ (∃ v, emitted sin fixed user extra n c = some v)
    ∧ (user.bytes_per_sample = BYTES_32BIT ∨ user.save_as_float = true →
        extra.markers_on = false ∨ extra.markers_in_msb = true →
        emitted sin fixed user extra n c = some (to_i32 (n % 2 ^ 32))
        ∧ emitted sin fixed user extra (n + 1) c = some (to_i32 ((n + 1) % 2 ^ 32))
        ∧ to_u32 (to_i32 (n % 2 ^ 32)) = n % 2 ^ 32
        ∧ to_u32 (to_i32 ((n + 1) % 2 ^ 32)) = (to_u32 (to_i32 (n % 2 ^ 32)) + 1) % 2 ^ 32) := by
  have hv : ∀ m, (user.bytes_per_sample = BYTES_32BIT ∨ user.save_as_float = true) →
      (extra.markers_on = false ∨ extra.markers_in_msb = true) →
      (generate_counter
        { gain := .fin 1 0, sample_value := 0, sample_number := m, current_chnl := 0 }
        user extra).sample_value = to_i32 (m % 2 ^ 32) := by
    intro m hb hm
    have h1 : (extra.markers_on && !extra.markers_in_msb) = false := by
      rcases hm with h | h
      · simp [h]
      · simp [h]
    have h2 : (decide (user.bytes_per_sample = BYTES_32BIT) || user.save_as_float) = true := by
      rcases hb with h | h
      · simp [h]
      · simp [h]
    unfold generate_counter
    simp only [h1, h2, Bool.false_eq_true, if_false, if_true]
  have hu : ∀ m : Nat, to_u32 (to_i32 (m % 2 ^ 32)) = m % 2 ^ 32 := by
    intro m
    unfold to_u32 to_i32
    split <;> omega
  refine ⟨?_, ?_, ⟨_, emitted_counter sin fixed user extra ht n c hc⟩, ?_⟩
  · intro k
    rw [(generate_counter_eq { fixed with current_chnl := k } user extra
        fixed.sample_number rfl).1,
      (generate_counter_eq fixed user extra fixed.sample_number rfl).1]
  · rw [emitted_counter sin fixed user extra ht n c hc,
      emitted_counter sin fixed user extra ht n 0 (by omega)]
  · intro hb hm
    refine ⟨?_, ?_, hu n, ?_⟩
    · rw [emitted_counter sin fixed user extra ht n c hc, hv n hb hm]
    · rw [emitted_counter sin fixed user extra ht (n + 1) c hc, hv (n + 1) hb hm]
    · rw [hu, hu]
      omega

theorem counter_same_on_all_channels_witness :
    check_user.wf_type = WAVEFORM_TYPE_COUNTER ∧ 1 < check_user.num_channels
    ∧ emitted sin_unused check_fixed check_user check_extra 5 1
        = emitted sin_unused check_fixed check_user check_extra 5 0
    ∧ emitted sin_unused check_fixed check_user check_extra 5 1 = some 5 := by
  have h := counter_same_on_all_channels sin_unused check_fixed check_user check_extra rfl 5 1
    (by decide)
  exact ⟨rfl, by decide, h.2.1, (h.2.2.2 (Or.inl rfl) (Or.inr rfl)).1.trans (by decide)⟩

/-! ## The draw schedule of the noise generators (wf_noise.c) -/

/-- One more draw: the value returned is the next seed, and it lies in 1..2^31 - 2. -/
theorem rand_31_draw_step (k : Nat) :
    (rand_31 (rand_31_draw k)).2 = rand_31_draw (k + 1)
    ∧ (((rand_31 (rand_31_draw k)).1 : Nat) : Int) = rand_31_draw (k + 1)
    ∧ 1 ≤ (rand_31 (rand_31_draw k)).1 ∧ (rand_31 (rand_31_draw k)).1 ≤ 2147483646 := by
  obtain ⟨h0, h1, h2⟩ := rand_31_draw_eq k
  have hnz := lehmer_nonzero _ h1 h2
  have hlt := Nat.mod_lt (16807 * (16807 ^ k % 2147483647)) (show 2147483647 > 0 by decide)
  have hs : rand_31_draw (k + 1) = (rand_31 (rand_31_draw k)).2 := rfl
  rw [hs, h0, rand_31_eq _ h1 h2]
  exact ⟨rfl, rfl, by omega, by omega⟩

theorem generate_white_run (sin : IEEE → IEEE) (user : COMMON_USER_PARAMS) (r : RUN)
    (ht : user.wf_type = WAVEFORM_TYPE_WHITE) :
    generate sin user r
      = some { r with fixed := (generate_white r.fixed r.extra r.statics).1,
                      statics := (generate_white r.fixed r.extra r.statics).2 } := by
  unfold generate
  rw [ht]

theorem generate_pink_run (sin : IEEE → IEEE) (user : COMMON_USER_PARAMS) (r : RUN)
    (ht : user.wf_type = WAVEFORM_TYPE_PINK) :
    generate sin user r
      = some { r with fixed := (generate_pink r.fixed r.extra r.statics).1,
                      statics := (generate_pink r.fixed r.extra r.statics).2 } := by
  unfold generate
  rw [ht]

/-- What a call of `generate_white` does when the seed is the one after `k` draws. -/
theorem generate_white_step (fixed : FIXED_PARAMS) (extra : ADDITIONAL_USER_PARAMS)
    (st : STATICS) (k : Nat) (hs : st.white_seed = rand_31_draw k) :
    (generate_white fixed extra st).1.current_chnl = fixed.current_chnl
    ∧ (generate_white fixed extra st).1.sample_number = fixed.sample_number
    ∧ ((fixed.current_chnl = 0 ∨ extra.uncorrelated = true) →
        (generate_white fixed extra st).2.white_seed = rand_31_draw (k + 1)
        ∧ (generate_white fixed extra st).1.sample_value
            = 2 * (rand_31_draw (k + 1) - 1073741823)
        ∧ (generate_white fixed extra st).2.white_last_sample
            = 2 * (rand_31_draw (k + 1) - 1073741823))
    ∧ (¬ (fixed.current_chnl = 0 ∨ extra.uncorrelated = true) →
        (generate_white fixed extra st).2 = st
        ∧ (generate_white fixed extra st).1.sample_value = st.white_last_sample) := by
  obtain ⟨d1, d2, d3, d4⟩ := rand_31_draw_step k
  refine ⟨?_, ?_, ?_, ?_⟩
  · unfold generate_white
    split <;> rfl
  · unfold generate_white
    split <;> rfl
  · intro hd
    have hw := generate_white_sample fixed extra st hd (by rw [hs]; exact d3)
      (by rw [hs]; exact d4)
    rw [hs, d2] at hw
    refine ⟨?_, hw.1, hw.2.1⟩
    have hc : (fixed.current_chnl = 0 || extra.uncorrelated) = true := by
      rcases hd with h | h
      · simp [h]
      · simp [h]
    unfold generate_white
    rw [if_pos hc]
    show (rand_31 st.white_seed).2 = _
    rw [hs, d1]
  · intro hd
    have hc : ¬ ((fixed.current_chnl = 0 || extra.uncorrelated) = true) := by
      intro h
      apply hd
      simpa using h
    unfold generate_white
    rw [if_neg hc]
    exact ⟨rfl, rfl⟩

/-- What a call of `generate_pink` does to the seed and to the stored sample. -/
theorem generate_pink_step (fixed : FIXED_PARAMS) (extra : ADDITIONAL_USER_PARAMS)
    (st : STATICS) :
    (generate_pink fixed extra st).1.current_chnl = fixed.current_chnl
    ∧ (generate_pink fixed extra st).1.sample_number = fixed.sample_number
    ∧ ((fixed.current_chnl = 0 ∨ extra.uncorrelated = true) →
        (generate_pink fixed extra st).2.pink_seed = (rand_31 st.pink_seed).2
        ∧ (generate_pink fixed extra st).2.pink_last_sample
            = (generate_pink fixed extra st).1.sample_value)
    ∧ (¬ (fixed.current_chnl = 0 ∨ extra.uncorrelated = true) →
        (generate_pink fixed extra st).2.pink_seed = st.pink_seed
        ∧ (generate_pink fixed extra st).2.pink_last_sample = st.pink_last_sample
        ∧ (generate_pink fixed extra st).1.sample_value = st.pink_last_sample) := by
  refine ⟨?_, ?_, ?_, ?_⟩
  · unfold generate_pink
    simp only []
    split <;> rfl
  · unfold generate_pink
    simp only []
    split <;> rfl
  · intro hd
    have hc : (fixed.current_chnl = 0 || extra.uncorrelated) = true := by
      rcases hd with h | h
      · simp [h]
      · simp [h]
    unfold generate_pink
    simp only []
    rw [if_pos hc]
    exact ⟨rfl, rfl⟩
  · intro hd
    have hc : ¬ ((fixed.current_chnl = 0 || extra.uncorrelated) = true) := by
      intro h
      apply hd
      simpa using h
    unfold generate_pink
    simp only []
    rw [if_neg hc]
    exact ⟨rfl, rfl, rfl⟩

/-- The seed and the samples of a white-noise run, call by call. -/
theorem white_schedule (sin : IEEE → IEEE) (fixed : FIXED_PARAMS)
    (user : COMMON_USER_PARAMS) (extra : ADDITIONAL_USER_PARAMS)
    (ht : user.wf_type = WAVEFORM_TYPE_WHITE) (n c : Nat) (hc : c < user.num_channels) :
    emitted sin fixed user extra n c
        = some (2 * (rand_31_draw
            (if extra.uncorrelated = true then n * user.num_channels + c + 1 else n + 1)
            - 1073741823))
    ∧ ∃ r, before_call sin fixed user extra n c = some r
        ∧ r.statics.white_seed
            = rand_31_draw (if extra.uncorrelated = true then n * user.num_channels + c
                else if c = 0 then n else n + 1) := by
  have hC : 1 ≤ user.num_channels := by omega
  obtain ⟨r, r1, a1, a2, _, a4, a5⟩ := call_invariant sin fixed user extra
    (fun n c r => r.extra = extra ∧ r.fixed.current_chnl = c
      ∧ r.statics.white_seed
          = rand_31_draw (if extra.uncorrelated = true then n * user.num_channels + c
              else if c = 0 then n else n + 1)
      ∧ (∀ c', c = c' + 1 →
          r.fixed.sample_value
            = 2 * (rand_31_draw
                (if extra.uncorrelated = true then n * user.num_channels + c' + 1 else n + 1)
                - 1073741823)
          ∧ (extra.uncorrelated = false →
              r.statics.white_last_sample = 2 * (rand_31_draw (n + 1) - 1073741823))))
    ⟨rfl, rfl, by
      show (1 : Int) = _
      split <;> simp [rand_31_draw], fun c' h => by omega⟩
    (fun n c r _ h => by
      obtain ⟨h1, h2, h3, h4⟩ := h
      have hg := generate_white_run sin user r ht
      rw [h1] at hg
      refine ⟨_, hg, ?_⟩
      obtain ⟨s1, _, s3, s4⟩ := generate_white_step r.fixed extra r.statics _ h3
      rw [h2] at s3 s4
      refine ⟨rfl, by show _ + 1 = c + 1; rw [s1, h2], ?_, ?_⟩
      · show (generate_white r.fixed extra r.statics).2.white_seed = _
        by_cases hu : extra.uncorrelated = true
        · rw [(s3 (Or.inr hu)).1]
          simp only [hu, if_true]
          congr 1
        · by_cases h0 : c = 0
          · rw [(s3 (Or.inl h0)).1]
            simp [hu, h0]
          · rw [(s4 (by tauto)).1, h3]
            simp [hu, h0]
      · intro c' hc'
        have hcc : c' = c := by omega
        subst hcc
        show (generate_white r.fixed extra r.statics).1.sample_value = _
          ∧ (_ → (generate_white r.fixed extra r.statics).2.white_last_sample = _)
        by_cases hu : extra.uncorrelated = true
        · rw [(s3 (Or.inr hu)).2.1]
          simp [hu]
        · by_cases h0 : c' = 0
          · rw [(s3 (Or.inl h0)).2.1, (s3 (Or.inl h0)).2.2]
            simp [hu, h0]
          · obtain ⟨c'', hc''⟩ : ∃ c'', c' = c'' + 1 := ⟨c' - 1, by omega⟩
            have hl := ((h4 c'' hc'').2 (by simpa using hu))
            rw [(s4 (by tauto)).2, (s4 (by tauto)).1, hl]
            simp [hu])
    (fun n r h => by
      obtain ⟨h1, _, h3, _⟩ := h
      refine ⟨h1, rfl, ?_, fun c' h => by omega⟩
      show r.statics.white_seed = _
      rw [h3]
      by_cases hu : extra.uncorrelated = true
      · simp only [hu, if_true]
        congr 1
        ring
      · have hne : ¬ (user.num_channels = 0) := by omega
        simp [hu, hne])
    n c hc
  refine ⟨?_, r, a1, a2.2.2.1⟩
  rw [a4]
  exact congrArg some (a5.2.2.2 c rfl).1

/-- The seed of a pink-noise run, call by call, and the repetition of the value of
channel 0 in correlated mode. -/
theorem pink_schedule (sin : IEEE → IEEE) (fixed : FIXED_PARAMS)
    (user : COMMON_USER_PARAMS) (extra : ADDITIONAL_USER_PARAMS)
    (ht : user.wf_type = WAVEFORM_TYPE_PINK) (n c : Nat) (hc : c < user.num_channels) :
    (∃ r, before_call sin fixed user extra n c = some r
        ∧ r.statics.pink_seed
            = rand_31_draw (if extra.uncorrelated = true then n * user.num_channels + c
                else if c = 0 then n else n + 1))
    ∧ (extra.uncorrelated = false →
        emitted sin fixed user extra n c = emitted sin fixed user extra n 0)
    ∧ ∃ v, emitted sin fixed user extra n c = some v := by
  have hC : 1 ≤ user.num_channels := by omega
  have htot : ∀ r, ∃ r1, generate sin user r = some r1 :=
    fun r => ⟨_, generate_pink_run sin user r ht⟩
  obtain ⟨r, r1, a1, a2, a3, a4, a5⟩ := call_invariant_at sin fixed user extra
    (fun n c r => r.extra = extra ∧ r.fixed.current_chnl = c
      ∧ r.statics.pink_seed
          = rand_31_draw (if extra.uncorrelated = true then n * user.num_channels + c
              else if c = 0 then n else n + 1)
      ∧ (∀ c', c = c' + 1 → extra.uncorrelated = false →
          emitted sin fixed user extra n 0 = some r.statics.pink_last_sample
          ∧ emitted sin fixed user extra n c' = some r.fixed.sample_value))
    ⟨rfl, rfl, by
      show (1 : Int) = _
      split <;> simp [rand_31_draw], fun c' h => by omega⟩
    (fun n c r hcn hb h => by
      obtain ⟨h1, h2, h3, h4⟩ := h
      have hg := generate_pink_run sin user r ht
      have hem := emitted_of_before_call sin fixed user extra htot n c hcn r _ hb hg
      rw [h1] at hg hem
      refine ⟨_, hg, ?_⟩
      obtain ⟨s1, _, s3, s4⟩ := generate_pink_step r.fixed extra r.statics
      rw [h2] at s3 s4
      refine ⟨rfl, by show _ + 1 = c + 1; rw [s1, h2], ?_, ?_⟩
      · show (generate_pink r.fixed extra r.statics).2.pink_seed = _
        by_cases hu : extra.uncorrelated = true
        · rw [(s3 (Or.inr hu)).1, h3, (rand_31_draw_step _).1]
          simp only [hu, if_true]
          congr 1
        · by_cases h0 : c = 0
          · rw [(s3 (Or.inl h0)).1, h3, (rand_31_draw_step _).1]
            simp [hu, h0]
          · rw [(s4 (by tauto)).1, h3]
            simp [hu, h0]
      · intro c' hc' hu
        have hcc : c' = c := by omega
        subst hcc
        show emitted sin fixed user extra n 0
            = some (generate_pink r.fixed extra r.statics).2.pink_last_sample
          ∧ emitted sin fixed user extra n c'
            = some (generate_pink r.fixed extra r.statics).1.sample_value
        refine ⟨?_, hem⟩
        by_cases h0 : c' = 0
        · rw [(s3 (Or.inl h0)).2]
          rw [h0] at hem
          exact hem
        · obtain ⟨c'', hc''⟩ : ∃ c'', c' = c'' + 1 := ⟨c' - 1, by omega⟩
          have hun : ¬ (extra.uncorrelated = true) := by simp [hu]
          rw [(s4 (by tauto)).2.1]
          exact (h4 c'' hc'' hu).1)
    (fun n r h => by
      obtain ⟨h1, _, h3, _⟩ := h
      refine ⟨h1, rfl, ?_, fun c' h => by omega⟩
      show r.statics.pink_seed = _
      rw [h3]
      by_cases hu : extra.uncorrelated = true
      · simp only [hu, if_true]
        congr 1
        ring
      · have hne : ¬ (user.num_channels = 0) := by omega
        simp [hu, hne])
    n c hc
  refine ⟨⟨r, a1, a2.2.2.1⟩, ?_, ⟨_, a4⟩⟩
  intro hu
  by_cases h0 : c = 0
  · rw [h0]
  · have hun : ¬ (extra.uncorrelated = true) := by simp [hu]
    obtain ⟨c'', hc''⟩ : ∃ c'', c = c'' + 1 := ⟨c - 1, by omega⟩
    have hl := (a2.2.2.2 c'' hc'' hu).1
    rw [hl, a4]
    have hg := generate_pink_run sin user r ht
    rw [hg] at a3
    simp only [Option.some.injEq] at a3
    subst a3
    obtain ⟨_, _, _, s4⟩ := generate_pink_step r.fixed r.extra r.statics
    rw [a2.1, a2.2.1] at s4
    show some (generate_pink r.fixed r.extra r.statics).1.sample_value = _
    rw [a2.1, (s4 (by tauto)).2.2]

/-! ## The burst run (wf_burst.c) -/

/-- The remainder of the predecessor, when the remainder is not 0. -/
theorem pred_mod_add_one (n p : Nat) (hp : 0 < p) (h : n % p ≠ 0) :
    (n - 1) % p + 1 = n % p := by
  have hd := Nat.div_add_mod n p
  have hlt := Nat.mod_lt n hp
  have e : n - 1 = n % p - 1 + p * (n / p) := by omega
  rw [e, Nat.add_mul_mod_self_left, Nat.mod_eq_of_lt (by omega)]
  omega

/-- What a call of `generate_burst` does when neither division traps: `b` is the
burst counter after the reset, `K` the length of a burst in samples. -/
theorem generate_burst_eq (sin : IEEE → IEEE) (fixed : FIXED_PARAMS)
    (user : COMMON_USER_PARAMS) (extra : ADDITIONAL_USER_PARAMS) (st : STATICS)
    (hf : 1 ≤ user.frequency_hz)
    (hp : 1 ≤ user.sample_rate / 1000 * extra.period_ms % 2 ^ 32)
    (b K : Nat)
    (hb : b = if fixed.sample_number % (user.sample_rate / 1000 * extra.period_ms % 2 ^ 32) = 0
                ∧ fixed.current_chnl = 0 then 0 else st.burst_sample)
    (hK : K = user.sample_rate / user.frequency_hz
                * (if extra.num_cycles < 1 then 1 else extra.num_cycles) % 2 ^ 32) :
    ∃ f1 e1 s1, generate_burst sin fixed user extra st = some (f1, e1, s1)
      ∧ f1.sample_number = fixed.sample_number ∧ f1.current_chnl = fixed.current_chnl
      ∧ e1.period_ms = extra.period_ms
      ∧ e1.num_cycles = (if extra.num_cycles < 1 then 1 else extra.num_cycles)
      ∧ f1.sample_value
          = (if b < K then burst_sine sin (user.sample_rate / user.frequency_hz) b else 0)
      ∧ s1.burst_sample = (if b < K then (b + 1) % 2 ^ 64 else b) := by
  have e1 : udiv user.sample_rate user.frequency_hz
      = some (user.sample_rate / user.frequency_hz) := by
    unfold udiv
    rw [if_neg (by omega)]
  have e2 : ∀ e : ADDITIONAL_USER_PARAMS, e.period_ms = extra.period_ms →
      umod fixed.sample_number (user.sample_rate / 1000 * e.period_ms % 2 ^ 32)
        = some (fixed.sample_number % (user.sample_rate / 1000 * extra.period_ms % 2 ^ 32)) := by
    intro e he
    unfold umod
    rw [he, if_neg (by omega)]
  unfold generate_burst
  simp only [e1, Option.bind_eq_bind, Option.some_bind]
  rw [e2 _ (by split <;> rfl)]
  simp only [Option.some_bind, Bool.and_eq_true, decide_eq_true_eq]
  have hcyc : (if extra.num_cycles < 1 then { extra with num_cycles := 1 } else extra).num_cycles
      = (if extra.num_cycles < 1 then 1 else extra.num_cycles) := by
    split <;> rfl
  have hper : (if extra.num_cycles < 1 then { extra with num_cycles := 1 } else extra).period_ms
      = extra.period_ms := by
    split <;> rfl
  rw [hcyc, ← hb, ← hK]
  by_cases hlt : b < K
  · rw [if_pos hlt]
    refine ⟨_, _, _, rfl, rfl, rfl, hper, hcyc, ?_, ?_⟩
    · rw [if_pos hlt]
      rfl
    · rw [if_pos hlt]
  · rw [if_neg hlt]
    refine ⟨_, _, _, rfl, rfl, rfl, hper, hcyc, ?_, ?_⟩
    · rw [if_neg hlt]
    · rw [if_neg hlt]

theorem generate_burst_run (sin : IEEE → IEEE) (user : COMMON_USER_PARAMS) (r : RUN)
    (ht : user.wf_type = WAVEFORM_TYPE_BURST) :
    generate sin user r
      = (generate_burst sin r.fixed user r.extra r.statics).map
          (fun g => { r with fixed := g.1, extra := g.2.1, statics := g.2.2 }) := by
  unfold generate
  rw [ht]

/-- The values and the burst counter of a mono burst run, sample by sample. -/
theorem burst_schedule (sin : IEEE → IEEE) (fixed : FIXED_PARAMS)
    (user : COMMON_USER_PARAMS) (extra : ADDITIONAL_USER_PARAMS)
    (ht : user.wf_type = WAVEFORM_TYPE_BURST) (hc : user.num_channels = 1)
    (hf : 1 ≤ user.frequency_hz)
    (hp : 1 ≤ user.sample_rate / 1000 * extra.period_ms % 2 ^ 32) (n : Nat) :
    emitted sin fixed user extra n 0
        = some (if n % (user.sample_rate / 1000 * extra.period_ms % 2 ^ 32)
                  < user.sample_rate / user.frequency_hz * max extra.num_cycles 1 % 2 ^ 32
            then burst_sine sin (user.sample_rate / user.frequency_hz)
                  (n % (user.sample_rate / 1000 * extra.period_ms % 2 ^ 32))
            else 0)
    ∧ ∃ r, before_call sin fixed user extra n 1 = some r
        ∧ r.statics.burst_sample
            = min (n % (user.sample_rate / 1000 * extra.period_ms % 2 ^ 32) + 1)
                (user.sample_rate / user.frequency_hz * max extra.num_cycles 1 % 2 ^ 32) := by
  have hmax : ∀ e : ADDITIONAL_USER_PARAMS,
      (if e.num_cycles < 1 then 1 else e.num_cycles) = max e.num_cycles 1 := by
    intro e
    split <;> omega
  generalize hPd : user.sample_rate / 1000 * extra.period_ms % 2 ^ 32 = Pd at hp ⊢
  generalize hB : user.sample_rate / user.frequency_hz = B
  have hKlt : B * max extra.num_cycles 1 % 2 ^ 32 < 2 ^ 32 := Nat.mod_lt _ (by decide)
  generalize hKd : B * max extra.num_cycles 1 % 2 ^ 32 = K at hKlt ⊢
  obtain ⟨r, r1, a1, _, a3, a4, a5⟩ := call_invariant sin fixed user extra
    (fun n c r => r.fixed.sample_number = n ∧ r.fixed.current_chnl = c
      ∧ r.extra.period_ms = extra.period_ms
      ∧ max r.extra.num_cycles 1 = max extra.num_cycles 1
      ∧ (c = 0 → r.statics.burst_sample = if n = 0 then 0 else min ((n - 1) % Pd + 1) K)
      ∧ (c = 1 → r.statics.burst_sample = min (n % Pd + 1) K
          ∧ r.fixed.sample_value = if n % Pd < K then burst_sine sin B (n % Pd) else 0))
    ⟨rfl, rfl, rfl, rfl, fun _ => rfl, fun h => by omega⟩
    (fun n c r hcn h => by
      obtain ⟨h1, h2, h3, h4, h5, _⟩ := h
      have hc0 : c = 0 := by omega
      have hp' : 1 ≤ user.sample_rate / 1000 * r.extra.period_ms % 2 ^ 32 := by
        rw [h3, hPd]
        exact hp
      obtain ⟨f1, e1, s1, g0, g1, g2, g3, g4, g5, g6⟩ :=
        generate_burst_eq sin r.fixed user r.extra r.statics hf hp' _ _ rfl rfl
      rw [h3, hPd, hB, hmax, h4, hKd, h1, h2, h5 hc0] at g5 g6
      have hg := generate_burst_run sin user r ht
      rw [g0] at hg
      refine ⟨_, hg, ?_⟩
      have hb : (if n % Pd = 0 ∧ c = 0 then 0
            else if n = 0 then 0 else min ((n - 1) % Pd + 1) K) = min (n % Pd) K := by
        by_cases hz : n % Pd = 0
        · rw [if_pos ⟨hz, hc0⟩, hz]
          omega
        · have hn0 : n ≠ 0 := by
            intro h0
            apply hz
            rw [h0, Nat.zero_mod]
          rw [if_neg (by tauto), if_neg hn0, pred_mod_add_one n Pd (by omega) hz]
      rw [hb] at g5 g6
      refine ⟨g1.trans h1, by show f1.current_chnl + 1 = c + 1; rw [g2, h2], g3.trans h3,
        by show max e1.num_cycles 1 = _; rw [g4, hmax, h4]; omega, fun h => by omega, ?_⟩
      intro _
      refine ⟨?_, ?_⟩
      · show s1.burst_sample = _
        rw [g6]
        split <;> omega
      · show f1.sample_value = _
        rw [g5]
        by_cases hlt : n % Pd < K
        · rw [if_pos hlt, if_pos (by omega), Nat.min_eq_left (by omega)]
        · rw [if_neg hlt, if_neg (by omega)])
    (fun n r h => by
      obtain ⟨h1, _, h3, h4, _, h6⟩ := h
      rw [hc] at h6
      refine ⟨by show r.fixed.sample_number + 1 = n + 1; rw [h1], rfl, h3, h4, ?_,
        fun h => by omega⟩
      intro _
      show r.statics.burst_sample = _
      rw [(h6 rfl).1, if_neg (by omega)]
      simp)
    n 0 (by omega)
  have a6 := a5.2.2.2.2.2 rfl
  refine ⟨?_, _, before_call_succ sin fixed user extra n 0 r r1 a1 a3, a6.1⟩
  rw [a4]
  exact congrArg some a6.2

/-! ## Noise and burst: what each call does -/

/-- C25: in a noise run with C channels from fresh state, the seed before the call
for frame n, channel c is the seed after n draws for channel 0 and after n + 1 draws
for the other channels in correlated mode (one draw per frame), and after n × C + c
draws in uncorrelated mode (one draw per channel), for white and for pink noise
alike.  In a white-noise run every channel of frame n carries the sample
2 × (x - 1073741823) of draw number n + 1 in correlated mode, and channel c carries
that of draw number n × C + c + 1 in uncorrelated mode; in a correlated pink-noise
run every channel repeats the value of channel 0 of its frame. -/
theorem noise_draw_schedule (sin : IEEE → IEEE) (fixed : FIXED_PARAMS)
    (user : COMMON_USER_PARAMS) (extra : ADDITIONAL_USER_PARAMS) (n c : Nat)
    (hc : c < user.num_channels) :
    (user.wf_type = WAVEFORM_TYPE_WHITE →
      emitted sin fixed user extra n c
          = some (2 * (rand_31_draw
              (if extra.uncorrelated = true then n * user.num_channels + c + 1 else n + 1)
              - 1073741823))
      ∧ ∃ r, before_call sin fixed user extra n c = some r
          ∧ r.statics.white_seed
              = rand_31_draw (if extra.uncorrelated = true then n * user.num_channels + c
                  else if c = 0 then n else n + 1))
    ∧ (user.wf_type = WAVEFORM_TYPE_PINK →
      (∃ r, before_call sin fixed user extra n c = some r
          ∧ r.statics.pink_seed
              = rand_31_draw (if extra.uncorrelated = true then n * user.num_channels + c
                  else if c = 0 then n else n + 1))
      ∧ (extra.uncorrelated = false →
          emitted sin fixed user extra n c = emitted sin fixed user extra n 0)
      ∧ ∃ v, emitted sin fixed user extra n c = some v) :=
  ⟨fun ht => white_schedule sin fixed user extra ht n c hc,
   fun ht => pink_schedule sin fixed user extra ht n c hc⟩

theorem noise_draw_schedule_witness :
    1 < white2_user.num_channels
    ∧ emitted sin_unused check_fixed white2_user off_extra 1 1 = some (-1582533148)
    ∧ emitted sin_unused check_fixed white2_user uncorrelated_extra 1 1
        = some (-177596330) :=
  ⟨by decide,
    ((noise_draw_schedule sin_unused check_fixed white2_user off_extra 1 1
      (by decide)).1 rfl).1.trans (by decide),
    ((noise_draw_schedule sin_unused check_fixed white2_user uncorrelated_extra 1 1
      (by decide)).1 rfl).1.trans (by decide)⟩

set_option maxRecDepth 100000 in
/-- C27 (the run where the claim fails): in the mono burst run at 48000 Hz with
12000 Hz cycles (B = 4), 2^30 cycles per burst and a period of 4800 samples, the
product B × num_cycles is 2^32, which the 32-bit multiplication turns into 0: sample
1 has offset 1 < 2^32 inside the period, the sine value for that offset is
2147483647, and the run emits 0. -/
theorem burst_length_wraps :
    burst4_user.sample_rate / burst4_user.frequency_hz = 4
    ∧ burst4_user.sample_rate / 1000 * many_cycles_extra.period_ms % 2 ^ 32 = 4800
    ∧ 1 % 4800 < 4 * max many_cycles_extra.num_cycles 1
    ∧ burst_sine sin_quarter 4 (1 % 4800) = 2147483647
    ∧ emitted sin_quarter check_fixed burst4_user many_cycles_extra 1 0 = some 0
    ∧ emitted sin_quarter check_fixed burst4_user many_cycles_extra 1 0
        ≠ some (if 1 % 4800 < 4 * max many_cycles_extra.num_cycles 1
            then burst_sine sin_quarter 4 (1 % 4800) else 0) := by
  decide

/-- C27 (amended): for a mono burst run from fresh state with period length
P = (r / 1000) × period_ms (as a 32-bit number) at least 1, burst length
B = floor(r/f) and K = (B × max(num_cycles, 1)) mod 2^32, the product being formed in
32-bit unsigned arithmetic: for every sample index n the generator emits the sine
value for intra-burst offset (n mod P) when (n mod P) < K and exactly 0 otherwise; the
burst counter after the call is min(n mod P + 1, K), so it restarts from 0 at every
multiple of P; and K is B × max(num_cycles, 1) whenever that is below 2^32. -/
theorem burst_mono_values (sin : IEEE → IEEE) (fixed : FIXED_PARAMS)
    (user : COMMON_USER_PARAMS) (extra : ADDITIONAL_USER_PARAMS)
    (ht : user.wf_type = WAVEFORM_TYPE_BURST) (hc : user.num_channels = 1)
    (hf : 1 ≤ user.frequency_hz)
    (hp : 1 ≤ user.sample_rate / 1000 * extra.period_ms % 2 ^ 32) (n : Nat) :
    emitted sin fixed user extra n 0
        = some (if n % (user.sample_rate / 1000 * extra.period_ms % 2 ^ 32)
                  < user.sample_rate / user.frequency_hz * max extra.num_cycles 1 % 2 ^ 32
            then burst_sine sin (user.sample_rate / user.frequency_hz)
                  (n % (user.sample_rate / 1000 * extra.period_ms % 2 ^ 32))
            else 0)
    ∧ (∃ r, before_call sin fixed user extra n 1 = some r
        ∧ r.statics.burst_sample
            = min (n % (user.sample_rate / 1000 * extra.period_ms % 2 ^ 32) + 1)
                (user.sample_rate / user.frequency_hz * max extra.num_cycles 1 % 2 ^ 32))
    ∧ (user.sample_rate / user.frequency_hz * max extra.num_cycles 1 < 2 ^ 32 →
        user.sample_rate / user.frequency_hz * max extra.num_cycles 1 % 2 ^ 32
          = user.sample_rate / user.frequency_hz * max extra.num_cycles 1) := by
  obtain ⟨h1, h2⟩ := burst_schedule sin fixed user extra ht hc hf hp n
  exact ⟨h1, h2, fun h => Nat.mod_eq_of_lt h⟩

set_option maxRecDepth 100000 in
theorem burst_mono_values_witness :
    burst_441_user.wf_type = WAVEFORM_TYPE_BURST ∧ burst_441_user.num_channels = 1
    ∧ 1 ≤ burst_441_user.frequency_hz
    ∧ burst_441_user.sample_rate / 1000 * burst_200_extra.period_ms % 2 ^ 32 = 8800
    ∧ burst_441_user.sample_rate / burst_441_user.frequency_hz
        * max burst_200_extra.num_cycles 1 % 2 ^ 32 = 400
    ∧ emitted sin_unused check_fixed burst_441_user burst_200_extra 500 0 = some 0
    ∧ emitted sin_unused check_fixed burst_441_user burst_200_extra 8800 0
        = some (burst_sine sin_unused 100 0) :=
  ⟨rfl, rfl, by decide, by decide, by decide,
    (burst_mono_values sin_unused check_fixed burst_441_user burst_200_extra rfl rfl
      (by decide) (by decide) 500).1.trans (by decide),
    (burst_mono_values sin_unused check_fixed burst_441_user burst_200_extra rfl rfl
      (by decide) (by decide) 8800).1.trans (by decide)⟩

/-! ## The shift of the counter (wf_counter.c) -/

/-- C22 (the samples where the claim fails): with markers off, sample index 1 becomes
65536 = 1 << 16 for 16-bit output (not 1 << 8) and 256 = 1 << 8 for 24-bit output
(not 1 << 16). -/
theorem generate_counter_shift_16_and_24 :
    off_extra.markers_on = false
    ∧ (generate_counter { check_fixed with sample_number := 1 } counter16_user
        off_extra).sample_value = 65536
    ∧ (generate_counter { check_fixed with sample_number := 1 } counter24_user
        off_extra).sample_value = 256 := by
  decide

/-- C22 (amended): with markers off, `generate_counter` shifts the sample index left
by 16 bits for 16-bit output, by 8 bits for 24-bit output, and not at all for 32-bit
or float output (the result taken as a signed 32-bit number); so the 16-bit word that
is written for sample index n is n mod 2^16. -/
theorem generate_counter_shift (fixed : FIXED_PARAMS) (user : COMMON_USER_PARAMS)
    (extra : ADDITIONAL_USER_PARAMS) (hm : extra.markers_on = false) :
    (user.bytes_per_sample = BYTES_32BIT ∨ user.save_as_float = true →
      (generate_counter fixed user extra).sample_value = to_i32 (fixed.sample_number % 2 ^ 32))
    ∧ (user.bytes_per_sample = BYTES_24BIT → user.save_as_float = false →
      (generate_counter fixed user extra).sample_value
        = to_i32 (((fixed.sample_number % 2 ^ 32) <<< 8) % 2 ^ 32))
    ∧ (user.bytes_per_sample = BYTES_16BIT → user.save_as_float = false →
      (generate_counter fixed user extra).sample_value
          = to_i32 (((fixed.sample_number % 2 ^ 32) <<< 16) % 2 ^ 32)
      ∧ save_sample_buffer (generate_counter fixed user extra) user
          = some (le16 (fixed.sample_number % 2 ^ 16))) := by
  have h32 : BYTES_32BIT = 4 := rfl
  have h24 : BYTES_24BIT = 3 := rfl
  have h16 : BYTES_16BIT = 2 := rfl
  refine ⟨?_, ?_, ?_⟩
  · intro h
    unfold generate_counter
    rcases h with h | h
    · simp [hm, h]
    · simp [hm, h]
  · intro h hf
    unfold generate_counter
    simp [hm, h, hf, h32, h24]
  · intro h hf
    have hv : (generate_counter fixed user extra).sample_value
        = to_i32 (((fixed.sample_number % 2 ^ 32) <<< 16) % 2 ^ 32) := by
      unfold generate_counter
      simp [hm, h, hf, h32, h24, h16]
    refine ⟨hv, ?_⟩
    have key : ∀ n : Nat,
        to_u16 (to_i16 (to_u16 (to_i32 (((n % 2 ^ 32) <<< 16) % 2 ^ 32) / 65536)))
          = n % 2 ^ 16 := by
      intro n
      simp only [Nat.shiftLeft_eq]
      unfold to_i32 to_u16 to_i16
      split <;> split <;> omega
    have hne : ¬ (BYTES_16BIT = BYTES_32BIT) := by decide
    unfold save_sample_buffer
    rw [hv]
    simp only [hf, h, hne, Bool.false_eq_true, if_false, if_true]
    rw [key]

theorem generate_counter_shift_witness :
    off_extra.markers_on = false
    ∧ counter16_user.bytes_per_sample = BYTES_16BIT ∧ counter16_user.save_as_float = false
    ∧ (generate_counter { check_fixed with sample_number := 5 } counter16_user
        off_extra).sample_value = 327680
    ∧ save_sample_buffer
        (generate_counter { check_fixed with sample_number := 5 } counter16_user off_extra)
        counter16_user = some [5, 0] := by
  have h := (generate_counter_shift { check_fixed with sample_number := 5 } counter16_user
    off_extra rfl).2.2 rfl rfl
  exact ⟨rfl, rfl, rfl, h.1.trans (by decide), h.2.trans (by decide)⟩

/-! ## Level scaling, write errors and the burst period -/

set_option maxRecDepth 100000 in
/-- C29 (the sample where the claim fails): with gain 0.1 (the `double`
7205759403792794 × 2^-56, outside [0.9999, 1.0001]) the level-scaling stage of a sine
run turns the sample -7 into 0, while the exact product lies between -0.71 and -0.69
and its nearest integer is -1; the sample +7 becomes 1. -/
theorem check_level_negative_sample :
    tenth_gain_fixed.gain = IEEE.fin 7205759403792794 (-56)
    ∧ fp_lt tenth_gain_fixed.gain (double_lit 9999 10000) = true
    ∧ (check_level tenth_gain_fixed sine_user).sample_value = 0
    ∧ round (fp_value 7205759403792794 (-56) * (-7)) = -1
    ∧ (check_level { tenth_gain_fixed with sample_value := 7 } sine_user).sample_value = 1 := by
  refine ⟨by decide, by decide, by decide, ?_, by decide⟩
  rw [round_eq, Int.floor_eq_iff]
  constructor <;> norm_num [fp_value]

/-- C30 (the run where the claim fails): in the mono counter run on a sink that takes
the header and one sample, a run of one sample succeeds, a run of two samples fails
(the write of sample 1 fails), and the run of three samples still ends with the outer
index at 3 and with the counter value 2 of sample 2 in `fixed.sample_value`: the
generator was called again after the failure. -/
theorem run_goes_on_after_write_error :
    (main sin_unused check_fixed { counter3_user with num_samples := 1 } off_extra
        one_sample_sink).map (fun r => (r.success, r.fixed.sample_number)) = some (true, 1)
    ∧ (main sin_unused check_fixed { counter3_user with num_samples := 2 } off_extra
        one_sample_sink).map
        (fun r => (r.success, r.fixed.sample_number, r.fixed.sample_value))
      = some (false, 2, 1)
    ∧ (main sin_unused check_fixed counter3_user off_extra one_sample_sink).map
        (fun r => (r.success, r.fixed.sample_number, r.fixed.sample_value,
          r.wavfile.data.length, r.wavfile.room))
      = some (false, 3, 2, 48, 0) := by
  decide

/-- C28 (the configuration where the claim fails): a burst run at 800 Hz sample rate,
100 Hz, period 100 ms, one channel is within the stated ranges, its period length
(800 / 1000) × 100 is 0 samples, and the first call of `generate_burst` takes a
remainder by zero, with whatever sine function: the run does not return. -/
theorem generate_burst_traps_below_1000_hz :
    (1 ≤ burst_800_user.sample_rate ∧ burst_800_user.sample_rate ≤ 192000)
    ∧ (1 ≤ burst_800_user.frequency_hz
        ∧ burst_800_user.frequency_hz ≤ burst_800_user.sample_rate / 2)
    ∧ 1 ≤ off_extra.period_ms
    ∧ (1 ≤ burst_800_user.num_channels ∧ burst_800_user.num_channels ≤ 8)
    ∧ burst_800_user.sample_rate / 1000 * off_extra.period_ms = 0
    ∧ (∀ sin : IEEE → IEEE,
        generate_burst sin { check_fixed with sample_number := 0 } burst_800_user off_extra
          STATICS.init = none)
    ∧ (∀ sin : IEEE → IEEE,
        main sin check_fixed burst_800_user off_extra empty_sink = none) := by
  refine ⟨by decide, by decide, by decide, by decide, by decide, ?_, ?_⟩
  · intro sin
    rfl
  · intro sin
    rfl

set_option maxRecDepth 100000 in
/-- C26 (the configuration where the claim fails): at 44100 Hz with a period of
200 ms, floor(r × p / 1000) is 8820 but `generate_burst` works with
(44100 / 1000) × 200 = 8800 samples: with the burst counter at its end value 400, the
call for sample 8800 restarts the burst (the counter is reset and advanced to 1) and
the call for sample 8820 does not. -/
theorem generate_burst_period_441 :
    burst_441_user.sample_rate * burst_200_extra.period_ms / 1000 = 8820
    ∧ burst_441_user.sample_rate / 1000 * burst_200_extra.period_ms = 8800
    ∧ (generate_burst sin_unused { check_fixed with sample_number := 8800 } burst_441_user
          burst_200_extra { STATICS.init with burst_sample := 400 }).map
        (fun g => (g.1.sample_value, g.2.2.burst_sample)) = some (0, 1)
    ∧ (generate_burst sin_unused { check_fixed with sample_number := 8820 } burst_441_user
          burst_200_extra { STATICS.init with burst_sample := 400 }).map
        (fun g => (g.1.sample_value, g.2.2.burst_sample)) = some (0, 400) := by
  decide

/-! ## The finalising stage with markers (wf_output.c, wf_markers.c) -/

/-- The bytes of a sample after `add_markers`, channel 0..7. -/
theorem add_markers_bytes (fixed : FIXED_PARAMS) (hc : fixed.current_chnl ≤ 7) :
    (byte_of 3 (add_markers fixed true).sample_value = 0xC0 + (fixed.current_chnl : Int) + 1
      ∧ byte_of 0 (add_markers fixed true).sample_value = byte_of 0 fixed.sample_value
      ∧ byte_of 1 (add_markers fixed true).sample_value = byte_of 1 fixed.sample_value
      ∧ byte_of 2 (add_markers fixed true).sample_value = byte_of 2 fixed.sample_value)
    ∧ (byte_of 0 (add_markers fixed false).sample_value = 0xC0 + (fixed.current_chnl : Int) + 1
      ∧ byte_of 1 (add_markers fixed false).sample_value = byte_of 1 fixed.sample_value
      ∧ byte_of 2 (add_markers fixed false).sample_value = byte_of 2 fixed.sample_value
      ∧ byte_of 3 (add_markers fixed false).sample_value = byte_of 3 fixed.sample_value) := by
  have hu : ∀ v : Int, (to_u32 v : Int) = v % 4294967296 := by
    intro v
    unfold to_u32
    omega
  have hf := hu fixed.sample_value
  refine ⟨?_, ?_⟩
  · rw [add_markers_msb_value fixed hc]
    simp only [byte_of]
    norm_num
    refine ⟨?_, ?_, ?_, ?_⟩ <;> omega
  · rw [add_markers_lsb_value fixed hc]
    simp only [byte_of, to_i32]
    norm_num
    refine ⟨?_, ?_, ?_, ?_⟩ <;> split <;> omega

/-- Level scaling leaves the channel index as it is. -/
theorem check_level_current_chnl (fixed : FIXED_PARAMS) (user : COMMON_USER_PARAMS) :
    (check_level fixed user).current_chnl = fixed.current_chnl := by
  unfold check_level
  generalize (fp_gt fixed.gain (double_lit 10001 10000)
    || fp_lt fixed.gain (double_lit 9999 10000)) = cond
  cases user.wf_type <;> cases cond <;> rfl

/-- Format conversion does nothing for integer output. -/
theorem check_format_integer (fixed : FIXED_PARAMS) (user : COMMON_USER_PARAMS)
    (hf : user.save_as_float = false) : check_format fixed user = fixed := by
  unfold check_format
  simp [hf]

/-- For the types that take markers, integer output and markers enabled,
`check_markers` is `add_markers`. -/
theorem check_markers_adds (fixed : FIXED_PARAMS) (user : COMMON_USER_PARAMS)
    (extra : ADDITIONAL_USER_PARAMS) (hm : extra.markers_on = true)
    (hf : user.save_as_float = false)
    (ht : user.wf_type = WAVEFORM_TYPE_COUNTER ∨ user.wf_type = WAVEFORM_TYPE_SILENCE
      ∨ user.wf_type = WAVEFORM_TYPE_STEPS ∨ user.wf_type = WAVEFORM_TYPE_PINK
      ∨ user.wf_type = WAVEFORM_TYPE_WHITE) :
    (check_markers fixed user extra).2 = add_markers fixed extra.markers_in_msb := by
  unfold check_markers
  rcases ht with h | h | h | h | h <;> simp [hm, hf, h]

/-- With markers disabled `check_markers` leaves the sample as it is. -/
theorem check_markers_off (fixed : FIXED_PARAMS) (user : COMMON_USER_PARAMS)
    (extra : ADDITIONAL_USER_PARAMS) (hm : extra.markers_on = false) :
    (check_markers fixed user extra).2 = fixed := by
  unfold check_markers
  simp [hm]

/-- The state after `check_markers` is either the state before or the marked one. -/
theorem check_markers_cases (fixed : FIXED_PARAMS) (user : COMMON_USER_PARAMS)
    (extra : ADDITIONAL_USER_PARAMS) :
    (check_markers fixed user extra).2 = fixed
    ∨ (check_markers fixed user extra).2 = add_markers fixed extra.markers_in_msb := by
  unfold check_markers
  cases extra.markers_on <;> cases user.wf_type <;> cases user.save_as_float <;> simp

/-- For saw, sine, square and burst `check_markers` leaves the sample as it is,
whatever the marker settings. -/
theorem check_markers_other_types (fixed : FIXED_PARAMS) (user : COMMON_USER_PARAMS)
    (extra : ADDITIONAL_USER_PARAMS)
    (ht : user.wf_type = WAVEFORM_TYPE_SAW ∨ user.wf_type = WAVEFORM_TYPE_SINE
      ∨ user.wf_type = WAVEFORM_TYPE_SQUARE ∨ user.wf_type = WAVEFORM_TYPE_BURST) :
    (check_markers fixed user extra).2 = fixed := by
  unfold check_markers
  cases extra.markers_on <;> rcases ht with h | h | h | h <;> simp [h]

/-- C37: for white or pink noise with markers enabled and 32-bit integer output, any
gain and any generated sample on channel 0..7, the word that `finalise_data` writes is
the marked, gain-scaled sample: its marked byte (3 for high-byte markers, 0 for
low-byte markers) is exactly 0xC0 + channel_index + 1 and its other three bytes are
those of the sample after level scaling. -/
theorem finalise_data_noise_markers (fixed : FIXED_PARAMS) (user : COMMON_USER_PARAMS)
    (extra : ADDITIONAL_USER_PARAMS) (wavfile : FILE)
    (ht : user.wf_type = WAVEFORM_TYPE_WHITE ∨ user.wf_type = WAVEFORM_TYPE_PINK)
    (hm : extra.markers_on = true) (hf : user.save_as_float = false)
    (hb : user.bytes_per_sample = BYTES_32BIT) (hc : fixed.current_chnl ≤ 7) :
    (finalise_data fixed user extra wavfile).2.1
        = add_markers (check_level fixed user) extra.markers_in_msb
    ∧ (finalise_data fixed user extra wavfile).2.2
        = (fwrite (le32 (to_u32 (finalise_data fixed user extra wavfile).2.1.sample_value))
            wavfile).2
    ∧ (∀ k : Nat, k < 4 →
        byte_of k (finalise_data fixed user extra wavfile).2.1.sample_value
          = if k = (if extra.markers_in_msb = true then 3 else 0)
            then 0xC0 + (fixed.current_chnl : Int) + 1
            else byte_of k (check_level fixed user).sample_value)
    ∧ le32 (to_u32 (finalise_data fixed user extra wavfile).2.1.sample_value)
        = [(byte_of 0 (finalise_data fixed user extra wavfile).2.1.sample_value).toNat,
           (byte_of 1 (finalise_data fixed user extra wavfile).2.1.sample_value).toNat,
           (byte_of 2 (finalise_data fixed user extra wavfile).2.1.sample_value).toNat,
           (byte_of 3 (finalise_data fixed user extra wavfile).2.1.sample_value).toNat] := by
  have h1 : (finalise_data fixed user extra wavfile).2.1
      = add_markers (check_level fixed user) extra.markers_in_msb := by
    unfold finalise_data
    simp only []
    rw [check_format_integer _ user hf]
    exact check_markers_adds _ user extra hm hf (by tauto)
  have hc' : (check_level fixed user).current_chnl ≤ 7 := by
    rw [check_level_current_chnl]
    exact hc
  have hby := add_markers_bytes (check_level fixed user) hc'
  rw [check_level_current_chnl] at hby
  refine ⟨h1, ?_, ?_, le32_to_u32_bytes _⟩
  · have h4 : BYTES_32BIT = 4 := rfl
    have hbuf := save_sample_buffer_32 (finalise_data fixed user extra wavfile).2.1 user hf
      (by rw [hb, h4])
    have hfin : (finalise_data fixed user extra wavfile).2.2
        = (save_sample (finalise_data fixed user extra wavfile).2.1 user wavfile).2 := rfl
    rw [hfin]
    unfold save_sample
    rw [hbuf]
  · intro k hk
    rw [h1]
    cases hmsb : extra.markers_in_msb
    · obtain ⟨g0, g1, g2, g3⟩ := hby.2
      have : k = 0 ∨ k = 1 ∨ k = 2 ∨ k = 3 := by omega
      rcases this with h | h | h | h <;> subst h <;> simp [g0, g1, g2, g3]
    · obtain ⟨g3, g0, g1, g2⟩ := hby.1
      have : k = 0 ∨ k = 1 ∨ k = 2 ∨ k = 3 := by omega
      rcases this with h | h | h | h <;> subst h <;> simp [g0, g1, g2, g3]

set_option maxRecDepth 100000 in
theorem finalise_data_noise_markers_witness :
    (white_marked_user.wf_type = WAVEFORM_TYPE_WHITE
      ∨ white_marked_user.wf_type = WAVEFORM_TYPE_PINK)
    ∧ lsb_extra.markers_on = true ∧ white_marked_user.save_as_float = false
    ∧ white_marked_user.bytes_per_sample = BYTES_32BIT ∧ tenth_gain_sample.current_chnl ≤ 7
    ∧ (check_level tenth_gain_sample white_marked_user).sample_value = 0x1D208A6
    ∧ le32 (to_u32 (finalise_data tenth_gain_sample white_marked_user lsb_extra
          empty_sink).2.1.sample_value) = [0xC2, 0x08, 0xD2, 0x01] := by
  have h := finalise_data_noise_markers tenth_gain_sample white_marked_user lsb_extra
    empty_sink (Or.inl rfl) rfl rfl rfl (by decide)
  refine ⟨Or.inl rfl, rfl, rfl, rfl, by decide, by decide, ?_⟩
  rw [h.1]
  decide

/-- The state that `finalise_data` hands to `save_sample` for integer output. -/
theorem finalise_data_integer (fixed : FIXED_PARAMS) (user : COMMON_USER_PARAMS)
    (extra : ADDITIONAL_USER_PARAMS) (wavfile : FILE) (hf : user.save_as_float = false) :
    (finalise_data fixed user extra wavfile).2.1
        = (check_markers (check_level fixed user) user extra).2
    ∧ (finalise_data fixed user extra wavfile).1
        = (save_sample (check_markers (check_level fixed user) user extra).2 user wavfile).1
    ∧ (finalise_data fixed user extra wavfile).2.2
        = (save_sample (check_markers (check_level fixed user) user extra).2 user
            wavfile).2 := by
  unfold finalise_data
  simp only []
  rw [check_format_integer _ user hf]
  exact ⟨rfl, rfl, rfl⟩

set_option maxRecDepth 100000 in
/-- C40 (the run where the claim fails): a 16-bit burst run with markers enabled in
the high byte (`-t burst -b 16 -m msb`) and the sample 0x12345678 on channel 1:
`check_markers` injects no marker for the burst type, so the two bytes written are
0x34 0x12, the upper half of the sample, and the high byte 0x12 is not the marker
0xC0 + 1 + 1 = 0xC2. -/
theorem finalise_data_16_bit_burst_msb :
    burst16_user.save_as_float = false ∧ burst16_user.bytes_per_sample = BYTES_16BIT
    ∧ c6_fixed.current_chnl = 1
    ∧ (c7_extra.markers_on = true ∧ c7_extra.markers_in_msb = true)
    ∧ save_sample_buffer (finalise_data c6_fixed burst16_user c7_extra empty_sink).2.1
        burst16_user = some [0x34, 0x12]
    ∧ (finalise_data c6_fixed burst16_user c7_extra empty_sink).2.2.data = [0x34, 0x12]
    ∧ (0x12 : Nat) ≠ 0xC0 + c6_fixed.current_chnl + 1 := by
  decide

/-- C40 (amended): for 16-bit integer output and a sample on channel 0..7, with
markers in the low byte the two bytes that `finalise_data` writes, its result and the
sink afterwards are the same as with markers disabled, for every waveform type and
sample value; with markers enabled in the high byte, for a type that takes markers
(counter, silence, steps, pink, white) the bytes written are byte 2 of the level-scaled
sample followed by 0xC0 + channel_index + 1; for saw, sine, square and burst no marker
is injected, and the bytes written, the result and the sink are those with markers
disabled, wherever the markers are asked for. -/
theorem finalise_data_16_bit_markers (fixed : FIXED_PARAMS) (user : COMMON_USER_PARAMS)
    (extra : ADDITIONAL_USER_PARAMS) (wavfile : FILE)
    (hf : user.save_as_float = false) (hb : user.bytes_per_sample = BYTES_16BIT)
    (hc : fixed.current_chnl ≤ 7) :
    (extra.markers_in_msb = false →
      save_sample_buffer (finalise_data fixed user extra wavfile).2.1 user
          = save_sample_buffer
              (finalise_data fixed user { extra with markers_on := false } wavfile).2.1 user
      ∧ (finalise_data fixed user extra wavfile).1
          = (finalise_data fixed user { extra with markers_on := false } wavfile).1
      ∧ (finalise_data fixed user extra wavfile).2.2
          = (finalise_data fixed user { extra with markers_on := false } wavfile).2.2)
    ∧ (extra.markers_in_msb = true → extra.markers_on = true →
        (user.wf_type = WAVEFORM_TYPE_COUNTER ∨ user.wf_type = WAVEFORM_TYPE_SILENCE
          ∨ user.wf_type = WAVEFORM_TYPE_STEPS ∨ user.wf_type = WAVEFORM_TYPE_PINK
          ∨ user.wf_type = WAVEFORM_TYPE_WHITE) →
        save_sample_buffer (finalise_data fixed user extra wavfile).2.1 user
          = some [(byte_of 2 (check_level fixed user).sample_value).toNat,
                  0xC0 + fixed.current_chnl + 1])
    ∧ ((user.wf_type = WAVEFORM_TYPE_SAW ∨ user.wf_type = WAVEFORM_TYPE_SINE
          ∨ user.wf_type = WAVEFORM_TYPE_SQUARE ∨ user.wf_type = WAVEFORM_TYPE_BURST) →
        save_sample_buffer (finalise_data fixed user extra wavfile).2.1 user
            = save_sample_buffer
                (finalise_data fixed user { extra with markers_on := false } wavfile).2.1 user
        ∧ (finalise_data fixed user extra wavfile).1
            = (finalise_data fixed user { extra with markers_on := false } wavfile).1
        ∧ (finalise_data fixed user extra wavfile).2.2
            = (finalise_data fixed user { extra with markers_on := false } wavfile).2.2) := by
  have h2 : BYTES_16BIT = 2 := rfl
  have hb2 : user.bytes_per_sample = 2 := by rw [hb, h2]
  have hc' : (check_level fixed user).current_chnl ≤ 7 := by
    rw [check_level_current_chnl]
    exact hc
  have hby := add_markers_bytes (check_level fixed user) hc'
  rw [check_level_current_chnl] at hby
  obtain ⟨a1, a2, a3⟩ := finalise_data_integer fixed user extra wavfile hf
  obtain ⟨b1, b2, b3⟩ := finalise_data_integer fixed user { extra with markers_on := false }
    wavfile hf
  have hoff := check_markers_off (check_level fixed user) user
    { extra with markers_on := false } rfl
  refine ⟨?_, ?_, ?_⟩
  · intro hl
    have hbuf : save_sample_buffer (check_markers (check_level fixed user) user extra).2 user
        = save_sample_buffer (check_level fixed user) user := by
      rw [save_sample_buffer_16 _ user hf hb2, save_sample_buffer_16 _ user hf hb2]
      rcases check_markers_cases (check_level fixed user) user extra with h | h
      · rw [h]
      · rw [h, hl, hby.2.2.2.1, hby.2.2.2.2]
    refine ⟨?_, ?_, ?_⟩
    · rw [a1, b1, hoff, hbuf]
    · rw [a2, b2, hoff]
      unfold save_sample
      rw [hbuf]
    · rw [a3, b3, hoff]
      unfold save_sample
      rw [hbuf]
  · intro hmsb hm ht
    rw [a1, check_markers_adds _ user extra hm hf ht, hmsb,
      save_sample_buffer_16 _ user hf hb2, hby.1.1, hby.1.2.2.2]
    have e : (0xC0 + (fixed.current_chnl : Int) + 1).toNat = 0xC0 + fixed.current_chnl + 1 := by
      omega
    rw [e]
  · intro ht
    have hsame := check_markers_other_types (check_level fixed user) user extra ht
    refine ⟨?_, ?_, ?_⟩
    · rw [a1, b1, hoff, hsame]
    · rw [a2, b2, hoff, hsame]
    · rw [a3, b3, hoff, hsame]

set_option maxRecDepth 100000 in
theorem finalise_data_16_bit_markers_witness :
    steps16_user.save_as_float = false ∧ steps16_user.bytes_per_sample = BYTES_16BIT
    ∧ c6_fixed.current_chnl ≤ 7 ∧ lsb_extra.markers_in_msb = false
    ∧ (finalise_data c6_fixed steps16_user lsb_extra empty_sink).2.2.data = [0x34, 0x12]
    ∧ (finalise_data c6_fixed steps16_user { lsb_extra with markers_on := false }
        empty_sink).2.2.data = [0x34, 0x12]
    ∧ (c7_extra.markers_in_msb = true ∧ c7_extra.markers_on = true)
    ∧ steps16_user.wf_type = WAVEFORM_TYPE_STEPS
    ∧ save_sample_buffer (finalise_data c6_fixed steps16_user c7_extra empty_sink).2.1
        steps16_user = some [0x34, 0xC2] := by
  have h := finalise_data_16_bit_markers c6_fixed steps16_user lsb_extra empty_sink rfl rfl
    (by decide)
  have g := finalise_data_16_bit_markers c6_fixed steps16_user c7_extra empty_sink rfl rfl
    (by decide)
  refine ⟨rfl, rfl, by decide, rfl, ?_, by decide, ⟨rfl, rfl⟩, rfl, ?_⟩
  · rw [(h.1 rfl).2.2]
    decide
  · rw [g.2.1 rfl rfl (Or.inr (Or.inr (Or.inl rfl)))]
    decide

/-! ## The fact chunk of a float file -/

/-- C32: for float output on a sink with room for the whole file, with at least one
channel and `user.num_samples` below 2^32, the sample-count field of the fact chunk
(bytes 44 to 47 of the file) holds `user.num_samples`, and that is the number of
frames the generation loop writes: the payload is
`user.num_samples` × channels × 4 bytes, so the file holds `user.num_samples` samples
per channel. -/
theorem fact_chunk_sample_count (sin : IEEE → IEEE) (fixed : FIXED_PARAMS)
    (user : COMMON_USER_PARAMS) (extra : ADDITIONAL_USER_PARAMS) (wavfile : FILE) (r : RUN)
    (hf : user.save_as_float = true) (hC : 1 ≤ user.num_channels)
    (hn : user.num_samples < 2 ^ 32)
    (hroom : 56 + user.num_samples * (user.num_channels * 4) ≤ wavfile.room)
    (h : main sin fixed user extra wavfile = some r) :
    r.success = true
    ∧ (r.wavfile.data.drop (wavfile.data.length + 44)).take 4 = le32 user.num_samples
    ∧ r.wavfile.data.length
        = wavfile.data.length + 56 + user.num_samples * (user.num_channels * 4)
    ∧ (r.wavfile.data.length - (wavfile.data.length + 56)) / (user.num_channels * 4)
        = user.num_samples := by
  have hw : (if user.save_as_float = true ∨ user.bytes_per_sample = 4 then 4 else 2) = 4 := by
    simp [hf]
  obtain ⟨g1, g2⟩ := main_payload_length sin fixed user extra wavfile r (Or.inl hf)
    (by rw [hw]; simp only [hf, if_true]; exact hroom) h
  rw [hw] at g2
  have key := write_headers_of_room user wavfile (by simp only [hf, if_true]; omega)
  obtain ⟨p, hp⟩ := sample_loop_appends sin user _ _ _ h
  have hlen : (write_headers user wavfile).2.data.length = wavfile.data.length + 56 := by
    rw [key]
    simp [hf]
  rw [hlen] at g2
  have hmod : user.num_samples % 2 ^ 32 = user.num_samples := Nat.mod_eq_of_lt hn
  refine ⟨g1, ?_, g2, ?_⟩
  · have hd : r.wavfile.data = (write_headers user wavfile).2.data ++ p := hp
    rw [hd, key]
    simp only [hf, if_true, hmod]
    simp [List.drop_append, List.take_append, le32, le16]
  · rw [g2]
    have : wavfile.data.length + 56 + user.num_samples * (user.num_channels * 4)
        - (wavfile.data.length + 56) = user.num_samples * (user.num_channels * 4) := by omega
    rw [this]
    exact Nat.mul_div_cancel _ (by omega)

theorem fact_chunk_sample_count_witness :
    float_user.save_as_float = true ∧ 1 ≤ float_user.num_channels
    ∧ 56 + float_user.num_samples * (float_user.num_channels * 4) ≤ empty_sink.room
    ∧ ∃ r, main sin_unused check_fixed float_user off_extra empty_sink = some r
        ∧ (r.wavfile.data.drop 44).take 4 = [3, 0, 0, 0]
        ∧ r.wavfile.data.length = 56 + 3 * (2 * 4) := by
  refine ⟨rfl, by decide, by decide, ?_⟩
  have hm : ∃ r, main sin_unused check_fixed float_user off_extra empty_sink = some r := by
    cases h : main sin_unused check_fixed float_user off_extra empty_sink with
    | none => exact absurd h (by decide)
    | some r => exact ⟨r, rfl⟩
  obtain ⟨r, hr⟩ := hm
  have h := fact_chunk_sample_count sin_unused check_fixed float_user off_extra empty_sink r
    rfl (by decide) (by decide) (by decide) hr
  exact ⟨r, hr, h.2.1, h.2.2.1⟩

/-! ## Counter values and saw increments at the 32-bit limit -/

/-- C33 (the frames where the claim fails): in the 16-bit counter run without markers
frame 32768, reached after 0.7 s at 48000 Hz, carries the value -2147483648 (the 16-bit
word written is 0x8000, that is -32768); and for 32-bit output with low-byte markers
the value before markers of frame 8388608 is -2147483648 too. -/
theorem counter_value_negative :
    32768 < counter16_user.num_samples
    ∧ emitted sin_unused check_fixed counter16_user off_extra 32768 0 = some (-2147483648)
    ∧ save_sample_buffer
        (generate_counter { check_fixed with sample_number := 32768 } counter16_user off_extra)
        counter16_user = some [0x00, 0x80]
    ∧ (generate_counter { check_fixed with sample_number := 8388608 } check_user
        lsb_extra).sample_value = -2147483648 := by
  refine ⟨by decide, ?_, by decide, by decide⟩
  rw [emitted_counter sin_unused check_fixed counter16_user off_extra rfl 32768 0 (by decide)]
  decide

set_option maxRecDepth 100000 in
/-- C35 (the call where the claim fails): in the mono saw run at 48000 Hz and 440 Hz
the step size is 19701684 and the running value before the call for frame 109 is the
peak 2147483556; that call adds the step, and 2147483556 + 19701684 = 2167185240 is
above 2147483647, the largest signed 32-bit number.  With the sum wrapped to 32 bits the
next frame carries -2127782056. -/
theorem saw_increment_overflows :
    (1 ≤ saw_user.frequency_hz ∧ saw_user.frequency_hz ≤ saw_user.sample_rate / 2
      ∧ saw_user.sample_rate ≤ 192000)
    ∧ 2 * (2147483647 / (2 * (saw_user.sample_rate / saw_user.frequency_hz))) = 19701684
    ∧ (before_call sin_unused check_fixed saw_user off_extra 109 0).map
        (fun r => r.statics.saw_sample_value) = some 2147483556
    ∧ (2147483556 : Int) ≠ MAX_LEVEL_32BIT
    ∧ (2147483556 : Int) + 19701684 > 2147483647
    ∧ emitted sin_unused check_fixed saw_user off_extra 110 0 = some (-2127782056) := by
  refine ⟨by decide, by decide, ?_, by decide, by decide, by decide⟩
  obtain ⟨r2, h1, h2⟩ := generated_saw_ramp sin_unused check_fixed saw_user off_extra rfl rfl
    (by decide) (by decide) (by decide) 109 (by decide)
  have h3 := h2 (by decide)
  unfold before_call
  rw [h1]
  simp only [frame_values, Option.map_some']
  rw [h3]
  decide

/-! ## Saw and burst runs with several channels -/

/-- The value that a saw run with any number of channels emits at frame `n`, channel
`c`: the running value after `n × C + c` calls, whatever the sample and channel
indices. -/
theorem emitted_saw_calls (sin : IEEE → IEEE) (fixed : FIXED_PARAMS)
    (user : COMMON_USER_PARAMS) (extra : ADDITIONAL_USER_PARAMS)
    (ht : user.wf_type = WAVEFORM_TYPE_SAW)
    (hf1 : 1 ≤ user.frequency_hz) (hf2 : user.frequency_hz ≤ user.sample_rate / 2)
    (hr : user.sample_rate ≤ 192000) (n c : Nat) (hc : c < user.num_channels) :
    emitted sin fixed user extra n c
      = some ((fun v : Int =>
          if v = 2147483647 then -2147483647
          else if wrap_i32 (v
                  + ((2 * (2147483647 / (2 * (user.sample_rate / user.frequency_hz))) : Nat) : Int))
                > ((user.sample_rate / user.frequency_hz
                    * (2 * (2147483647 / (2 * (user.sample_rate / user.frequency_hz)))) : Nat) : Int)
          then wrap_i32 (to_i32 (2 * (user.sample_rate / user.frequency_hz
                    * (2 * (2147483647 / (2 * (user.sample_rate / user.frequency_hz)))))) * -1)
          else wrap_i32 (v
                  + ((2 * (2147483647 / (2 * (user.sample_rate / user.frequency_hz))) : Nat) : Int)))^[
            n * user.num_channels + c] 0) := by
  generalize hnx : (fun v : Int =>
          if v = 2147483647 then -2147483647
          else if wrap_i32 (v
                  + ((2 * (2147483647 / (2 * (user.sample_rate / user.frequency_hz))) : Nat) : Int))
                > ((user.sample_rate / user.frequency_hz
                    * (2 * (2147483647 / (2 * (user.sample_rate / user.frequency_hz)))) : Nat) : Int)
          then wrap_i32 (to_i32 (2 * (user.sample_rate / user.frequency_hz
                    * (2 * (2147483647 / (2 * (user.sample_rate / user.frequency_hz)))))) * -1)
          else wrap_i32 (v
                  + ((2 * (2147483647 / (2 * (user.sample_rate / user.frequency_hz))) : Nat) : Int)))
      = nxt
  obtain ⟨r, r1, _, _, _, a4, a5⟩ := call_invariant sin fixed user extra
    (fun n c r => r.statics.saw_sample_value = nxt^[n * user.num_channels + c] 0
      ∧ (∀ c', c = c' + 1 → r.fixed.sample_value = nxt^[n * user.num_channels + c'] 0))
    ⟨by simp [RUN.start, STATICS.init], fun c' h => by omega⟩
    (fun n c r _ h => by
      obtain ⟨h1, _⟩ := h
      have hg := generate_saw_run sin user r ht
      rw [generate_saw_eq r.fixed user r.statics hf1 hf2 hr] at hg
      simp only [Option.map_some'] at hg
      refine ⟨_, hg, ?_, ?_⟩
      · show (if r.statics.saw_sample_value = 2147483647 then _ else _) = _
        have e : n * user.num_channels + (c + 1) = (n * user.num_channels + c) + 1 := by omega
        rw [e, Function.iterate_succ_apply', ← h1, ← hnx]
      · intro c' hc'
        have hcc : c' = c := by omega
        subst hcc
        exact h1)
    (fun n r h => by
      refine ⟨?_, fun c' h => by omega⟩
      have e : (n + 1) * user.num_channels + 0 = n * user.num_channels + user.num_channels := by
        ring
      rw [e]
      exact h.1)
    n c hc
  rw [a4]
  exact congrArg some (a5.2 c rfl)

/-- C38: `generate_saw` ignores the sample index and the channel index, so in a saw
run with C channels (valid configuration: 1 ≤ f ≤ r/2, r ≤ 192000) the value at frame
n, channel c is the value at index n × C + c of the mono saw run for the same rate and
frequency; the channels of one frame receive successive values of that sequence. -/
theorem saw_channels_interleave (sin : IEEE → IEEE) (fixed : FIXED_PARAMS)
    (user : COMMON_USER_PARAMS) (extra : ADDITIONAL_USER_PARAMS)
    (ht : user.wf_type = WAVEFORM_TYPE_SAW)
    (hf1 : 1 ≤ user.frequency_hz) (hf2 : user.frequency_hz ≤ user.sample_rate / 2)
    (hr : user.sample_rate ≤ 192000) (n c : Nat) (hc : c < user.num_channels) :
    (∀ (fixed2 : FIXED_PARAMS) (st : STATICS),
        (generate_saw fixed2 user st).map (fun g => (g.1.sample_value, g.2))
          = (generate_saw fixed user st).map (fun g => (g.1.sample_value, g.2)))
    ∧ emitted sin fixed user extra n c
        = emitted sin fixed { user with num_channels := 1 } extra (n * user.num_channels + c) 0
    ∧ ∃ v, emitted sin fixed user extra n c = some v := by
  have h1 := emitted_saw_calls sin fixed user extra ht hf1 hf2 hr n c hc
  have h2 := emitted_saw_calls sin fixed { user with num_channels := 1 } extra ht hf1 hf2 hr
    (n * user.num_channels + c) 0 Nat.one_pos
  refine ⟨?_, ?_, _, h1⟩
  · intro fixed2 st
    rw [generate_saw_eq fixed2 user st hf1 hf2 hr, generate_saw_eq fixed user st hf1 hf2 hr]
    rfl
  · rw [h1, h2]
    simp only [Nat.mul_one, Nat.add_zero]

set_option maxRecDepth 100000 in
theorem saw_channels_interleave_witness :
    saw2_user.wf_type = WAVEFORM_TYPE_SAW
    ∧ (1 ≤ saw2_user.frequency_hz ∧ saw2_user.frequency_hz ≤ saw2_user.sample_rate / 2)
    ∧ saw2_user.sample_rate ≤ 192000 ∧ 1 < saw2_user.num_channels
    ∧ emitted sin_unused check_fixed saw2_user off_extra 3 1 = some 137911788
    ∧ emitted sin_unused check_fixed saw_user off_extra 7 0 = some 137911788 := by
  have h := (saw_channels_interleave sin_unused check_fixed saw2_user off_extra rfl (by decide)
    (by decide) (by decide) 3 1 (by decide)).2.1
  have e : emitted sin_unused check_fixed saw_user off_extra 7 0 = some 137911788 := by
    decide
  refine ⟨rfl, by decide, by decide, by decide, ?_, e⟩
  rw [h]
  exact e

/-- The values and the burst counter of a burst run with any number of channels, call
by call, `Pd` and `K` being the period and the burst length that `generate_burst`
computes. -/
theorem burst_calls (sin : IEEE → IEEE) (fixed : FIXED_PARAMS)
    (user : COMMON_USER_PARAMS) (extra : ADDITIONAL_USER_PARAMS)
    (ht : user.wf_type = WAVEFORM_TYPE_BURST)
    (hf : 1 ≤ user.frequency_hz)
    (hp : 1 ≤ user.sample_rate / 1000 * extra.period_ms % 2 ^ 32) (n c : Nat)
    (hc : c < user.num_channels) :
    emitted sin fixed user extra n c
        = some (if n % (user.sample_rate / 1000 * extra.period_ms % 2 ^ 32)
                    * user.num_channels + c
                  < user.sample_rate / user.frequency_hz * max extra.num_cycles 1 % 2 ^ 32
            then burst_sine sin (user.sample_rate / user.frequency_hz)
                  (n % (user.sample_rate / 1000 * extra.period_ms % 2 ^ 32)
                    * user.num_channels + c)
            else 0)
    ∧ ∃ r, before_call sin fixed user extra n (c + 1) = some r
        ∧ r.statics.burst_sample
            = min (n % (user.sample_rate / 1000 * extra.period_ms % 2 ^ 32)
                    * user.num_channels + c + 1)
                (user.sample_rate / user.frequency_hz * max extra.num_cycles 1 % 2 ^ 32) := by
  have hmax : ∀ e : ADDITIONAL_USER_PARAMS,
      (if e.num_cycles < 1 then 1 else e.num_cycles) = max e.num_cycles 1 := by
    intro e
    split <;> omega
  generalize hPd : user.sample_rate / 1000 * extra.period_ms % 2 ^ 32 = Pd at hp ⊢
  generalize hB : user.sample_rate / user.frequency_hz = B
  have hKlt : B * max extra.num_cycles 1 % 2 ^ 32 < 2 ^ 32 := Nat.mod_lt _ (by decide)
  generalize hKd : B * max extra.num_cycles 1 % 2 ^ 32 = K at hKlt ⊢
  generalize hC : user.num_channels = C at hc ⊢
  obtain ⟨r, r1, a1, _, a3, a4, a5⟩ := call_invariant sin fixed user extra
    (fun n c r => r.fixed.sample_number = n ∧ r.fixed.current_chnl = c
      ∧ r.extra.period_ms = extra.period_ms
      ∧ max r.extra.num_cycles 1 = max extra.num_cycles 1
      ∧ (c = 0 → r.statics.burst_sample
            = if n = 0 then 0 else min ((n - 1) % Pd * C + C) K)
      ∧ (∀ c', c = c' + 1 → r.statics.burst_sample = min (n % Pd * C + c) K
          ∧ r.fixed.sample_value
              = if n % Pd * C + c' < K then burst_sine sin B (n % Pd * C + c') else 0))
    ⟨rfl, rfl, rfl, rfl, fun _ => rfl, fun c' h => by omega⟩
    (fun n c r hcn h => by
      obtain ⟨h1, h2, h3, h4, h5, h6⟩ := h
      have hp' : 1 ≤ user.sample_rate / 1000 * r.extra.period_ms % 2 ^ 32 := by
        rw [h3, hPd]
        exact hp
      obtain ⟨f1, e1, s1, g0, g1, g2, g3, g4, g5, g6⟩ :=
        generate_burst_eq sin r.fixed user r.extra r.statics hf hp' _ _ rfl rfl
      rw [h3, hPd, hB, hmax, h4, hKd, h1, h2] at g5 g6
      have hg := generate_burst_run sin user r ht
      rw [g0] at hg
      refine ⟨_, hg, ?_⟩
      have hb : (if n % Pd = 0 ∧ c = 0 then 0 else r.statics.burst_sample)
          = min (n % Pd * C + c) K := by
        by_cases hc0 : c = 0
        · by_cases hz : n % Pd = 0
          · rw [if_pos ⟨hz, hc0⟩, hz, hc0]
            simp
          · have hn0 : n ≠ 0 := by
              intro h0
              apply hz
              rw [h0, Nat.zero_mod]
            rw [if_neg (by tauto), h5 hc0, if_neg hn0,
              ← pred_mod_add_one n Pd (by omega) hz, hc0, Nat.succ_mul]
            rfl
        · rw [if_neg (by tauto)]
          obtain ⟨c', hc'⟩ := Nat.exists_eq_succ_of_ne_zero hc0
          exact (h6 c' hc').1
      rw [hb] at g5 g6
      refine ⟨g1.trans h1, by show f1.current_chnl + 1 = c + 1; rw [g2, h2], g3.trans h3,
        by show max e1.num_cycles 1 = _; rw [g4, hmax, h4]; omega, fun h => by omega, ?_⟩
      intro c' hc'
      have hcc : c' = c := by omega
      subst hcc
      generalize n % Pd * C = x at g5 g6 ⊢
      refine ⟨?_, ?_⟩
      · show s1.burst_sample = _
        rw [g6]
        split <;> omega
      · show f1.sample_value = _
        rw [g5]
        by_cases hlt : x + c' < K
        · rw [if_pos hlt, if_pos (by omega), Nat.min_eq_left (by omega)]
        · rw [if_neg hlt, if_neg (by omega)])
    (fun n r h => by
      obtain ⟨h1, _, h3, h4, _, h6⟩ := h
      rw [hC] at h6
      obtain ⟨c', hc'⟩ := Nat.exists_eq_succ_of_ne_zero (show C ≠ 0 by omega)
      refine ⟨by show r.fixed.sample_number + 1 = n + 1; rw [h1], rfl, h3, h4, ?_,
        fun c'' h => by omega⟩
      intro _
      show r.statics.burst_sample = _
      rw [(h6 c' hc').1, if_neg (by omega)]
      simp)
    n c (by omega)
  have a6 := a5.2.2.2.2.2 c rfl
  refine ⟨?_, _, before_call_succ sin fixed user extra n c r r1 a1 a3, a6.1⟩
  rw [a4]
  exact congrArg some a6.2

/-- C39: in a burst run with C channels from fresh state, for a configuration in the
ranges that option parsing leaves (1 ≤ f ≤ r/2, r ≤ 192000, at most 8 channels,
period at most 600000 ms), with P = (r / 1000) × period_ms, B = floor(r/f) and
K = B × max(num_cycles, 1) ≤ C × P: the call for frame n, channel c emits the sine
value for intra-burst offset (n mod P) × C + c when that offset is below K and 0
otherwise, the burst counter after that call is min((n mod P) × C + c + 1, K) (every
sine-branch call of every channel increments it), so the sine branch is taken for
exactly the first K calls after a period start; a frame has a sine-branch call exactly
when n mod P < ceil(K / C), and ceil(K / C) ≤ P. -/
theorem burst_channels_share_counter (sin : IEEE → IEEE) (fixed : FIXED_PARAMS)
    (user : COMMON_USER_PARAMS) (extra : ADDITIONAL_USER_PARAMS)
    (ht : user.wf_type = WAVEFORM_TYPE_BURST)
    (hf1 : 1 ≤ user.frequency_hz) (hf2 : user.frequency_hz ≤ user.sample_rate / 2)
    (hr : user.sample_rate ≤ 192000) (hC : user.num_channels ≤ 8)
    (hper : extra.period_ms ≤ 600000)
    (hK : user.sample_rate / user.frequency_hz * max extra.num_cycles 1
            ≤ user.num_channels * (user.sample_rate / 1000 * extra.period_ms))
    (n c : Nat) (hc : c < user.num_channels) :
    emitted sin fixed user extra n c
        = some (if n % (user.sample_rate / 1000 * extra.period_ms) * user.num_channels + c
                  < user.sample_rate / user.frequency_hz * max extra.num_cycles 1
            then burst_sine sin (user.sample_rate / user.frequency_hz)
                  (n % (user.sample_rate / 1000 * extra.period_ms) * user.num_channels + c)
            else 0)
    ∧ (∃ r, before_call sin fixed user extra n (c + 1) = some r
        ∧ r.statics.burst_sample
            = min (n % (user.sample_rate / 1000 * extra.period_ms) * user.num_channels + c + 1)
                (user.sample_rate / user.frequency_hz * max extra.num_cycles 1))
    ∧ ((∃ c', c' < user.num_channels
          ∧ n % (user.sample_rate / 1000 * extra.period_ms) * user.num_channels + c'
              < user.sample_rate / user.frequency_hz * max extra.num_cycles 1)
        ↔ n % (user.sample_rate / 1000 * extra.period_ms)
            < (user.sample_rate / user.frequency_hz * max extra.num_cycles 1
                + user.num_channels - 1) / user.num_channels)
    ∧ (user.sample_rate / user.frequency_hz * max extra.num_cycles 1
          + user.num_channels - 1) / user.num_channels
        ≤ user.sample_rate / 1000 * extra.period_ms := by
  have hk : user.sample_rate / 1000 ≤ 192 := by omega
  have hP : user.sample_rate / 1000 * extra.period_ms ≤ 192 * 600000 :=
    Nat.mul_le_mul hk hper
  have hCP : user.num_channels * (user.sample_rate / 1000 * extra.period_ms)
      ≤ 8 * (192 * 600000) := Nat.mul_le_mul hC hP
  have hB : 2 ≤ user.sample_rate / user.frequency_hz := by
    rw [Nat.le_div_iff_mul_le (by omega)]
    omega
  have hB1 : user.sample_rate / user.frequency_hz * 1
      ≤ user.sample_rate / user.frequency_hz * max extra.num_cycles 1 :=
    Nat.mul_le_mul_left _ (by omega)
  have hPm : user.sample_rate / 1000 * extra.period_ms % 2 ^ 32
      = user.sample_rate / 1000 * extra.period_ms := Nat.mod_eq_of_lt (by omega)
  have hKm : user.sample_rate / user.frequency_hz * max extra.num_cycles 1 % 2 ^ 32
      = user.sample_rate / user.frequency_hz * max extra.num_cycles 1 :=
    Nat.mod_eq_of_lt (by omega)
  have hP1 : 1 ≤ user.sample_rate / 1000 * extra.period_ms := by
    rcases Nat.eq_zero_or_pos (user.sample_rate / 1000 * extra.period_ms) with h0 | h0
    · rw [h0, Nat.mul_zero] at hK
      omega
    · exact h0
  have h := burst_calls sin fixed user extra ht hf1 (by rw [hPm]; exact hP1) n c hc
  rw [hPm, hKm] at h
  refine ⟨h.1, h.2, ?_, ?_⟩
  · generalize n % (user.sample_rate / 1000 * extra.period_ms) = x
    generalize user.sample_rate / user.frequency_hz * max extra.num_cycles 1 = K
    have hpos : 0 < user.num_channels := by omega
    have hx : (x + 1) * user.num_channels = x * user.num_channels + user.num_channels :=
      Nat.succ_mul _ _
    constructor
    · rintro ⟨c', _, h2⟩
      show x + 1 ≤ _
      rw [Nat.le_div_iff_mul_le hpos]
      omega
    · intro h2
      have h3 : x + 1 ≤ (K + user.num_channels - 1) / user.num_channels := h2
      rw [Nat.le_div_iff_mul_le hpos] at h3
      exact ⟨0, hpos, by omega⟩
  · have hpos : 0 < user.num_channels := by omega
    have e : (user.sample_rate / 1000 * extra.period_ms + 1) * user.num_channels
        = user.num_channels * (user.sample_rate / 1000 * extra.period_ms)
          + user.num_channels := by ring
    apply Nat.le_of_lt_succ
    rw [Nat.div_lt_iff_lt_mul hpos, e]
    omega

set_option maxRecDepth 100000 in
theorem burst_channels_share_counter_witness :
    burst2_user.wf_type = WAVEFORM_TYPE_BURST
    ∧ (1 ≤ burst2_user.frequency_hz
        ∧ burst2_user.frequency_hz ≤ burst2_user.sample_rate / 2)
    ∧ burst2_user.sample_rate ≤ 192000 ∧ burst2_user.num_channels = 2
    ∧ burst_200_extra.period_ms ≤ 600000
    ∧ burst2_user.sample_rate / 1000 * burst_200_extra.period_ms = 8800
    ∧ burst2_user.sample_rate / burst2_user.frequency_hz
        * max burst_200_extra.num_cycles 1 = 400
    ∧ emitted sin_unused check_fixed burst2_user burst_200_extra 199 1
        = some (burst_sine sin_unused 100 399)
    ∧ emitted sin_unused check_fixed burst2_user burst_200_extra 200 0 = some 0
    ∧ emitted sin_unused check_fixed burst2_user burst_200_extra 8801 1
        = some (burst_sine sin_unused 100 3) :=
  ⟨rfl, by decide, by decide, rfl, by decide, by decide, by decide,
    (burst_channels_share_counter sin_unused check_fixed burst2_user burst_200_extra rfl
      (by decide) (by decide) (by decide) (by decide) (by decide) (by decide) 199 1
      (by decide)).1.trans (by decide),
    (burst_channels_share_counter sin_unused check_fixed burst2_user burst_200_extra rfl
      (by decide) (by decide) (by decide) (by decide) (by decide) (by decide) 200 0
      (by decide)).1.trans (by decide),
    (burst_channels_share_counter sin_unused check_fixed burst2_user burst_200_extra rfl
      (by decide) (by decide) (by decide) (by decide) (by decide) (by decide) 8801 1
      (by decide)).1.trans (by decide)⟩

/-! ## The exit status of a run -/

/-- The flag of `write_headers` is the conjunction of the flags of the header
writes. -/
theorem write_headers_flag (user : COMMON_USER_PARAMS) (wavfile : FILE) :
    (write_headers user wavfile).1 = true ↔ ∀ b ∈ header_writes user wavfile, b = true := by
  unfold write_headers header_writes
  cases user.save_as_float <;> simp [Bool.and_eq_true, and_assoc]

/-- The inner loop and its flags: the loop returns exactly when the flags are
defined, and `success` survives exactly when it was set and every one of the `k`
calls of `finalise_data` returned true. -/
theorem channel_loop_writes (sin : IEEE → IEEE) (user : COMMON_USER_PARAMS) (k : Nat) :
    ∀ r r2 : RUN, channel_loop sin user k r = some r2 →
      ∃ l, channel_writes sin user k r = some l
        ∧ l.length ≤ k
        ∧ (r2.success = true ↔ r.success = true ∧ l = List.replicate k true) := by
  induction k with
  | zero =>
      intro r r2 h
      simp only [channel_loop, Option.some.injEq] at h
      subst h
      exact ⟨[], rfl, Nat.le_refl _, by simp⟩
  | succ k ih =>
      intro r r2 h
      unfold channel_loop at h
      unfold channel_writes
      cases hg : generate sin user r with
      | none => simp [hg] at h
      | some r1 =>
          have hs := (generate_wavfile sin user r r1 hg).2
          simp only [hg] at h ⊢
          cases hf : (finalise_data r1.fixed user r1.extra r1.wavfile).1 with
          | false =>
              simp only [hf, Bool.not_false, if_true, Option.some.injEq] at h ⊢
              subst h
              refine ⟨[false], rfl, by simp, ?_⟩
              simp [List.replicate_succ]
          | true =>
              simp only [hf, Bool.not_true, Bool.false_eq_true, if_false] at h ⊢
              obtain ⟨l, h1, h2, h3⟩ := ih _ _ h
              refine ⟨true :: l, by rw [h1]; rfl, by simp; omega, ?_⟩
              rw [h3, List.replicate_succ]
              simp [hs]

/-- The outer loop and its flags, as for the inner loop: `success` survives exactly
when it was set and every iteration made all its calls of `finalise_data` with the
flag true. -/
theorem sample_loop_writes (sin : IEEE → IEEE) (user : COMMON_USER_PARAMS) (k : Nat) :
    ∀ r r2 : RUN, sample_loop sin user k r = some r2 →
      ∃ ls, sample_writes sin user k r = some ls
        ∧ ls.length = k
        ∧ (∀ l ∈ ls, l.length ≤ user.num_channels)
        ∧ (r2.success = true
            ↔ r.success = true
              ∧ ls = List.replicate k (List.replicate user.num_channels true)) := by
  induction k with
  | zero =>
      intro r r2 h
      simp only [sample_loop, Option.some.injEq] at h
      subst h
      exact ⟨[], rfl, rfl, by simp, by simp⟩
  | succ k ih =>
      intro r r2 h
      unfold sample_loop at h
      unfold sample_writes
      cases hc : channel_loop sin user user.num_channels
          { r with fixed := { r.fixed with current_chnl := 0 } } with
      | none => simp [hc] at h
      | some r1 =>
          simp only [hc] at h ⊢
          obtain ⟨l, c1, c2, c3⟩ := channel_loop_writes sin user _ _ _ hc
          obtain ⟨ls, h1, h2, h3, h4⟩ := ih _ _ h
          simp only [c1]
          refine ⟨l :: ls, by rw [h1]; rfl, by simp [h2], ?_, ?_⟩
          · intro l1 hl1
            rcases List.mem_cons.mp hl1 with e | e
            · rw [e]
              exact c2
            · exact h3 l1 e
          · rw [h4, List.replicate_succ]
            have c3' : r1.success = true
                ↔ r.success = true ∧ l = List.replicate user.num_channels true := c3
            simp only [List.cons.injEq]
            show (r1.success = true ∧ _) ↔ _
            rw [c3']
            tauto

/-- C31: when the run returns, the flags of all its `finalise_data` calls are defined
(one list per frame started, one flag per channel reached), and the run reports
success if and only if every header write returned true and every frame of the
`num_samples` frames made all its `num_channels` calls with the flag true; a false
flag of any header write or of any sample write makes the run report failure, and a
reported success means that all `num_samples` frames have all `num_channels` calls,
none skipped. -/
theorem main_success_iff (sin : IEEE → IEEE) (fixed : FIXED_PARAMS)
    (user : COMMON_USER_PARAMS) (extra : ADDITIONAL_USER_PARAMS) (wavfile : FILE) (r : RUN)
    (h : main sin fixed user extra wavfile = some r) :
    ∃ ls, main_writes sin fixed user extra wavfile = some ls
      ∧ (r.success = true
          ↔ (∀ b ∈ header_writes user wavfile, b = true)
            ∧ ls = List.replicate user.num_samples (List.replicate user.num_channels true))
      ∧ ((false ∈ header_writes user wavfile ∨ ∃ l ∈ ls, false ∈ l) → r.success = false)
      ∧ (r.success = true →
          ls.length = user.num_samples ∧ ∀ l ∈ ls, l.length = user.num_channels) := by
  obtain ⟨ls, h1, h2, _, h4⟩ := sample_loop_writes sin user _ _ _ h
  have h5 : r.success = true
      ↔ (∀ b ∈ header_writes user wavfile, b = true)
        ∧ ls = List.replicate user.num_samples (List.replicate user.num_channels true) := by
    rw [h4, ← write_headers_flag]
  refine ⟨ls, h1, h5, ?_, ?_⟩
  · intro hfalse
    cases hs : r.success with
    | false => rfl
    | true =>
        obtain ⟨a, b⟩ := h5.mp hs
        rcases hfalse with hh | ⟨l, hl, hl2⟩
        · exact absurd (a false hh) (by decide)
        · rw [b] at hl
          rw [List.eq_of_mem_replicate hl] at hl2
          exact absurd (List.eq_of_mem_replicate hl2) (by decide)
  · intro hs
    obtain ⟨_, b⟩ := h5.mp hs
    refine ⟨h2, ?_⟩
    intro l hl
    rw [b] at hl
    rw [List.eq_of_mem_replicate hl, List.length_replicate]

theorem main_success_iff_witness :
    (main sin_unused check_fixed counter3_user off_extra one_sample_sink).isSome = true
    ∧ header_writes counter3_user one_sample_sink = [true, true, true]
    ∧ main_writes sin_unused check_fixed counter3_user off_extra one_sample_sink
        = some [[true], [false], [false]]
    ∧ (main sin_unused check_fixed counter3_user off_extra one_sample_sink).map
        (fun r => r.success) = some false := by
  have h : (main sin_unused check_fixed counter3_user off_extra one_sample_sink).isSome
      = true := by decide
  obtain ⟨r, hr⟩ := Option.isSome_iff_exists.mp h
  have hw : main_writes sin_unused check_fixed counter3_user off_extra one_sample_sink
      = some [[true], [false], [false]] := by decide
  obtain ⟨ls, h1, _, h3, _⟩ :=
    main_success_iff sin_unused check_fixed counter3_user off_extra one_sample_sink r hr
  rw [hw] at h1
  have e : ls = [[true], [false], [false]] := (Option.some.inj h1).symm
  have hs : r.success = false := by
    apply h3
    refine Or.inr ⟨[false], ?_, ?_⟩
    · rw [e]
      decide
    · decide
  refine ⟨h, by decide, hw, ?_⟩
  rw [hr]
  exact congrArg some hs

/-! ## Rounding keeps representable bounds -/

/-- The digit count with enough fuel: `a` lies below `2^n` and, when it is not 0, at
or above `2^(n-1)`. -/
theorem bit_length_upto_spec (fuel : Nat) :
    ∀ a : Nat, a ≤ fuel →
      a < 2 ^ bit_length_upto fuel a
        ∧ (a ≠ 0 → 1 ≤ bit_length_upto fuel a ∧ 2 ^ (bit_length_upto fuel a - 1) ≤ a) := by
  induction fuel with
  | zero =>
      intro a ha
      have h0 : a = 0 := by omega
      subst h0
      exact ⟨by simp [bit_length_upto], fun h => absurd rfl h⟩
  | succ fuel ih =>
      intro a ha
      unfold bit_length_upto
      by_cases h0 : a = 0
      · rw [if_pos h0, h0]
        exact ⟨by simp, fun h => absurd rfl h⟩
      · rw [if_neg h0]
        obtain ⟨h1, h2⟩ := ih (a / 2) (by omega)
        refine ⟨?_, fun _ => ⟨by omega, ?_⟩⟩
        · rw [Nat.pow_succ]
          omega
        · rw [Nat.add_sub_cancel]
          by_cases h3 : a / 2 = 0
          · have hb : bit_length_upto fuel (a / 2) = 0 := by
              rw [h3]
              cases fuel <;> simp [bit_length_upto]
            rw [hb]
            simp
            omega
          · obtain ⟨h4, h5⟩ := h2 h3
            have e : bit_length_upto fuel (a / 2)
                = (bit_length_upto fuel (a / 2) - 1) + 1 := by omega
            rw [e, Nat.pow_succ]
            omega

theorem bit_length_lt (a : Nat) : a < 2 ^ bit_length a :=
  (bit_length_upto_spec a a (Nat.le_refl _)).1

theorem bit_length_le (a : Nat) (h : a ≠ 0) :
    1 ≤ bit_length a ∧ 2 ^ (bit_length a - 1) ≤ a :=
  (bit_length_upto_spec a a (Nat.le_refl _)).2 h

/-- A number below `2^k` has at most `k` digits. -/
theorem bit_length_le_of_lt (a k : Nat) (h : a < 2 ^ k) : bit_length a ≤ k := by
  by_cases h0 : a = 0
  · rw [h0]
    simp [bit_length, bit_length_upto]
  · obtain ⟨h1, h2⟩ := bit_length_le a h0
    by_contra hc
    have h3 : 2 ^ k ≤ 2 ^ (bit_length a - 1) := Nat.pow_le_pow_right (by decide) (by omega)
    omega

/-- Rounding a quotient to nearest does not pass a multiple of the divisor. -/
theorem rshift_rne_le (a s N : Nat) (h : a ≤ N * 2 ^ s) : rshift_rne a s ≤ N := by
  have hpos : 0 < 2 ^ s := Nat.pow_pos (by decide)
  have hd := Nat.div_add_mod a (2 ^ s)
  have hlt := Nat.mod_lt a hpos
  have hq : a / 2 ^ s ≤ N := by
    rw [Nat.div_le_iff_le_mul_add_pred hpos]
    rw [Nat.mul_comm]
    omega
  unfold rshift_rne
  simp only
  by_cases hr : 2 * (a % 2 ^ s) < 2 ^ s
  · rw [if_pos hr]
    exact hq
  · rw [if_neg hr]
    have hne : a / 2 ^ s ≠ N := by
      intro e
      rw [e, Nat.mul_comm] at hd
      omega
    have : a / 2 ^ s + 1 ≤ N := by omega
    split
    · exact this
    · split
      · exact hq
      · exact this

/-- The value of a datum with a natural mantissa is not negative. -/
theorem fp_value_nonneg (a : Nat) (e : Int) : 0 ≤ fp_value a e := by
  unfold fp_value
  have h2 : (0 : ℚ) < 2 ^ e := zpow_pos (by norm_num) e
  have ha : (0 : ℚ) ≤ ((a : Int) : ℚ) := by exact_mod_cast Nat.zero_le a
  exact mul_nonneg ha (le_of_lt h2)

/-- A mantissa whose value lies below `2^k` has its digits below position `k`. -/
theorem bit_length_add_le (A : Nat) (hA : A ≠ 0) (e k : Int)
    (h : fp_value A e < (2 : ℚ) ^ k) : (bit_length A : Int) + e ≤ k := by
  obtain ⟨h1, h2⟩ := bit_length_le A hA
  unfold fp_value at h
  have h2e : (0 : ℚ) < 2 ^ e := zpow_pos (by norm_num) e
  have h3 : ((2 : ℚ) ^ (bit_length A - 1 : Nat)) ≤ (A : ℚ) := by exact_mod_cast h2
  have h4 : (2 : ℚ) ^ (((bit_length A - 1 : Nat) : Int) + e) < 2 ^ k := by
    rw [zpow_add₀ (by norm_num), zpow_natCast]
    calc (2 : ℚ) ^ (bit_length A - 1) * 2 ^ e ≤ (A : ℚ) * 2 ^ e :=
          mul_le_mul_of_nonneg_right h3 (le_of_lt h2e)
      _ < 2 ^ k := by exact_mod_cast h
  rw [zpow_lt_zpow_iff_right₀ (by norm_num)] at h4
  omega

/-- Shifting by no place is exact. -/
theorem rshift_rne_zero (a : Nat) : rshift_rne a 0 = a := by
  simp [rshift_rne, Nat.mod_one]

/-- The mantissa and the exponent that rounding produces, under a representable
bound `G * 2^b` on the exact magnitude `a * 2^e`. -/
theorem fp_round_core (p : Nat) (emin emax e : Int) (a G : Nat) (b : Int)
    (hG : G < 2 ^ p) (hb : emin ≤ b) (hmax : (p : Int) + b ≤ emax) (he : e ≤ emax)
    (h : fp_value a e ≤ fp_value G b) (s : Nat)
    (hs : (max (max ((bit_length a : Int) - (p : Int)) (emin - e)) 0).toNat = s) :
    fp_value (rshift_rne a s) (e + s) ≤ fp_value G b
      ∧ e + (s : Int) ≤ emax
      ∧ ¬ ((bit_length (rshift_rne a s) : Int) + (e + (s : Int)) > emax) := by
  have h2e : ∀ z : Int, (0 : ℚ) < 2 ^ z := fun z => zpow_pos (by norm_num) z
  have hGlt : fp_value G b < (2 : ℚ) ^ ((p : Int) + b) := by
    unfold fp_value
    rw [zpow_add₀ (by norm_num), zpow_natCast]
    have : ((G : Int) : ℚ) < (2 : ℚ) ^ p := by exact_mod_cast hG
    exact mul_lt_mul_of_pos_right this (h2e b)
  have hbound : fp_value (rshift_rne a s) (e + s) ≤ fp_value G b
      ∧ e + (s : Int) ≤ emax := by
    by_cases hcase : e + (s : Int) ≤ b
    · refine ⟨?_, by omega⟩
      obtain ⟨d, hd⟩ : ∃ d : Nat, (d : Int) = b - (e + s) := ⟨(b - (e + s)).toNat, by omega⟩
      have hb2 : b = e + ((d + s : Nat) : Int) := by push_cast; omega
      have hb3 : b = (e + s) + (d : Int) := by omega
      have h1 : a ≤ G * 2 ^ d * 2 ^ s := by
        unfold fp_value at h
        rw [hb2, zpow_add₀ (by norm_num), zpow_natCast] at h
        have h5 : ((a : Int) : ℚ) * 2 ^ e ≤ (((G : Int) : ℚ) * 2 ^ (d + s)) * 2 ^ e := by
          calc ((a : Int) : ℚ) * 2 ^ e ≤ ((G : Int) : ℚ) * (2 ^ e * 2 ^ (d + s)) := h
            _ = (((G : Int) : ℚ) * 2 ^ (d + s)) * 2 ^ e := by ring
        have h6 := le_of_mul_le_mul_right h5 (h2e e)
        have h7 : ((a : Nat) : ℚ) ≤ ((G * 2 ^ d * 2 ^ s : Nat) : ℚ) := by
          push_cast
          rw [pow_add] at h6
          push_cast at h6
          linarith
        exact_mod_cast h7
      have h8 := rshift_rne_le a s (G * 2 ^ d) h1
      unfold fp_value
      rw [hb3, zpow_add₀ (by norm_num) (e + (s : Int)) d, zpow_natCast]
      have h9 : (((rshift_rne a s : Nat) : Int) : ℚ) ≤ ((G : Int) : ℚ) * 2 ^ d := by
        exact_mod_cast h8
      calc (((rshift_rne a s : Nat) : Int) : ℚ) * 2 ^ (e + (s : Int))
            ≤ (((G : Int) : ℚ) * 2 ^ d) * 2 ^ (e + (s : Int)) :=
              mul_le_mul_of_nonneg_right h9 (le_of_lt (h2e _))
        _ = ((G : Int) : ℚ) * (2 ^ (e + (s : Int)) * 2 ^ d) := by ring
    · have hs0 : s = 0 := by
        by_cases ha : a = 0
        · have : bit_length a = 0 := by
            rw [ha]
            rfl
          omega
        · have := bit_length_add_le a ha e _ (lt_of_le_of_lt h hGlt)
          omega
      subst hs0
      rw [rshift_rne_zero]
      refine ⟨by simpa using h, by simpa using he⟩
  refine ⟨hbound.1, hbound.2, ?_⟩
  by_cases ha1 : rshift_rne a s = 0
  · rw [ha1]
    have : bit_length 0 = 0 := rfl
    rw [this]
    have := hbound.2
    omega
  · have := bit_length_add_le _ ha1 (e + s) _ (lt_of_le_of_lt hbound.1 hGlt)
    omega

/-- Rounding does not pass a representable bound: when the magnitude of the exact
value is at most `G * 2^b` with `G` below `2^p`, `b` not below the least exponent and
`2^(p+b)` within the range of the format, then the rounded value is finite, has the
sign of the exact value and a magnitude of at most `G * 2^b`. -/
theorem fp_round_le (p : Nat) (emin emax m e : Int) (G : Nat) (b : Int)
    (hG : G < 2 ^ p) (hb : emin ≤ b) (hmax : (p : Int) + b ≤ emax) (he : e ≤ emax)
    (h : fp_value m.natAbs e ≤ fp_value G b) :
    ∃ a1 : Nat, ∃ e1 : Int,
      fp_round p emin emax m e = .fin (if m < 0 then -(a1 : Int) else (a1 : Int)) e1
        ∧ fp_value a1 e1 ≤ fp_value G b ∧ e1 ≤ emax := by
  obtain ⟨h1, h2, h3⟩ := fp_round_core p emin emax e m.natAbs G b hG hb hmax he h _ rfl
  refine ⟨_, _, ?_, h1, h2⟩
  unfold fp_round
  simp only
  rw [if_neg h3]

theorem fp_value_neg (m e : Int) : fp_value (-m) e = -fp_value m e := by
  unfold fp_value
  push_cast
  ring

/-- Rounding is monotone between two representable bounds: an exact value between
`-(G1 * 2^b1)` and `G2 * 2^b2` is rounded to a finite value between them. -/
theorem fp_round_between (p : Nat) (emin emax m e : Int) (G1 G2 : Nat) (b1 b2 : Int)
    (hG1 : G1 < 2 ^ p) (hG2 : G2 < 2 ^ p) (hb1 : emin ≤ b1) (hb2 : emin ≤ b2)
    (hmax1 : (p : Int) + b1 ≤ emax) (hmax2 : (p : Int) + b2 ≤ emax) (he : e ≤ emax)
    (hlo : -fp_value G1 b1 ≤ fp_value m e) (hhi : fp_value m e ≤ fp_value G2 b2) :
    ∃ m1 e1 : Int, fp_round p emin emax m e = .fin m1 e1
      ∧ -fp_value G1 b1 ≤ fp_value m1 e1 ∧ fp_value m1 e1 ≤ fp_value G2 b2
      ∧ e1 ≤ emax := by
  have n1 := fp_value_nonneg G1 b1
  have n2 := fp_value_nonneg G2 b2
  by_cases hm : m < 0
  · have e0 : ((m.natAbs : Nat) : Int) = -m := by omega
    have h : fp_value m.natAbs e ≤ fp_value G1 b1 := by
      rw [e0, fp_value_neg]
      linarith
    obtain ⟨a1, e1, h1, h2, h3⟩ := fp_round_le p emin emax m e G1 b1 hG1 hb1 hmax1 he h
    rw [if_pos hm] at h1
    have n3 := fp_value_nonneg a1 e1
    refine ⟨_, _, h1, ?_, ?_, h3⟩
    · rw [fp_value_neg]
      linarith
    · rw [fp_value_neg]
      linarith
  · have e0 : ((m.natAbs : Nat) : Int) = m := by omega
    have h : fp_value m.natAbs e ≤ fp_value G2 b2 := by
      rw [e0]
      exact hhi
    obtain ⟨a1, e1, h1, h2, h3⟩ := fp_round_le p emin emax m e G2 b2 hG2 hb2 hmax2 he h
    rw [if_neg hm] at h1
    have n3 := fp_value_nonneg a1 e1
    exact ⟨_, _, h1, by linarith, h2, h3⟩

/-- The conversion of an integer of fewer than 54 digits to `double` is exact. -/
theorem double_of_int_exact (x : Int) (h : x.natAbs < 2 ^ 53) :
    double_of_int x = .fin x 0 := by
  have hb := bit_length_le_of_lt _ _ h
  unfold double_of_int double_round fp_round
  have hs : (max (max ((bit_length x.natAbs : Int) - ((53 : Nat) : Int)) (-1074 - 0)) 0).toNat
      = 0 := by omega
  simp only [hs, rshift_rne_zero]
  rw [if_neg (by omega)]
  congr 1
  · split <;> omega

/-- The exact sum that `fp_add` hands to the rounding has the value of the sum. -/
theorem fp_add_value (m1 e1 m2 e2 : Int) :
    fp_value (m1 * 2 ^ (e1 - min e1 e2).toNat + m2 * 2 ^ (e2 - min e1 e2).toNat) (min e1 e2)
      = fp_value m1 e1 + fp_value m2 e2 := by
  unfold fp_value
  have h2 : (2 : ℚ) ≠ 0 := by norm_num
  have k1 : e1 = min e1 e2 + ((e1 - min e1 e2).toNat : Int) := by omega
  have k2 : e2 = min e1 e2 + ((e2 - min e1 e2).toNat : Int) := by omega
  generalize min e1 e2 = e at k1 k2 ⊢
  generalize (e1 - e).toNat = d1 at k1 ⊢
  generalize (e2 - e).toNat = d2 at k2 ⊢
  rw [k1, k2, zpow_add₀ h2, zpow_add₀ h2, zpow_natCast, zpow_natCast]
  push_cast
  ring

/-- The exact product that `fp_mul` hands to the rounding has the value of the
product. -/
theorem fp_mul_value (m1 e1 m2 e2 : Int) :
    fp_value (m1 * m2) (e1 + e2) = fp_value m1 e1 * fp_value m2 e2 := by
  unfold fp_value
  rw [zpow_add₀ (by norm_num)]
  push_cast
  ring

/-- Truncation toward zero stays within integer bounds on either side of zero that
the value does not pass by a whole unit. -/
theorem trunc_between (m e L U : Int) (hL : L ≤ 0) (hU : 0 ≤ U)
    (hlo : (L : ℚ) - 1 < fp_value m e) (hhi : fp_value m e < (U : ℚ) + 1) :
    L ≤ trunc_toward_zero m e ∧ trunc_toward_zero m e ≤ U := by
  unfold trunc_toward_zero
  unfold fp_value at hlo hhi
  by_cases he : 0 ≤ e
  · rw [if_pos he]
    obtain ⟨k, hk⟩ : ∃ k : Nat, e = (k : Int) := ⟨e.toNat, by omega⟩
    subst hk
    rw [zpow_natCast] at hlo hhi
    simp only [Int.toNat_ofNat]
    have h1 : ((L - 1 : Int) : ℚ) < ((m * 2 ^ k : Int) : ℚ) := by
      push_cast
      exact hlo
    have h2 : ((m * 2 ^ k : Int) : ℚ) < ((U + 1 : Int) : ℚ) := by
      push_cast
      exact hhi
    have h3 : L - 1 < m * 2 ^ k := by exact_mod_cast h1
    have h4 : m * 2 ^ k < U + 1 := by exact_mod_cast h2
    omega
  · rw [if_neg he]
    obtain ⟨k, hk⟩ : ∃ k : Nat, e = -(k : Int) := ⟨(-e).toNat, by omega⟩
    subst hk
    simp only [neg_neg, Int.toNat_ofNat]
    rw [zpow_neg, zpow_natCast] at hlo hhi
    have hpos : (0 : ℚ) < 2 ^ k := pow_pos (by norm_num) k
    have hposn : 0 < 2 ^ k := Nat.pow_pos (by decide)
    have hd := Nat.div_add_mod m.natAbs (2 ^ k)
    have hlt := Nat.mod_lt m.natAbs hposn
    generalize m.natAbs / 2 ^ k = q at hd ⊢
    generalize m.natAbs % 2 ^ k = r at hd hlt
    by_cases hm : m < 0
    · rw [if_pos hm]
      refine ⟨?_, by omega⟩
      -- value > L - 1, so -(q * 2^k + r) > (L - 1) * 2^k
      have h1 : ((L : ℚ) - 1) * 2 ^ k < (m : ℚ) := by
        have := mul_lt_mul_of_pos_right hlo hpos
        rwa [mul_assoc, inv_mul_cancel₀ (ne_of_gt hpos), mul_one] at this
      have e0 : (m : ℚ) = -(((2 ^ k * q + r : Nat) : Int) : ℚ) := by
        rw [hd]
        have : ((m.natAbs : Nat) : Int) = -m := by omega
        rw [this]
        push_cast
        ring
      rw [e0] at h1
      push_cast at h1
      by_contra hc
      have h5 : (q : Int) ≥ 1 - L := by omega
      have h6 : (q : ℚ) ≥ 1 - (L : ℚ) := by exact_mod_cast h5
      have h7 : (0 : ℚ) ≤ (r : ℚ) := by exact_mod_cast Nat.zero_le r
      nlinarith
    · rw [if_neg hm]
      refine ⟨by omega, ?_⟩
      have h1 : (m : ℚ) < ((U : ℚ) + 1) * 2 ^ k := by
        have := mul_lt_mul_of_pos_right hhi hpos
        rwa [mul_assoc, inv_mul_cancel₀ (ne_of_gt hpos), mul_one] at this
      have e0 : (m : ℚ) = (((2 ^ k * q + r : Nat) : Int) : ℚ) := by
        rw [hd]
        have : ((m.natAbs : Nat) : Int) = m := by omega
        rw [this]
      rw [e0] at h1
      push_cast at h1
      by_contra hc
      have h5 : (q : Int) ≥ U + 1 := by omega
      have h6 : (q : ℚ) ≥ (U : ℚ) + 1 := by exact_mod_cast h5
      have h7 : (0 : ℚ) ≤ (r : ℚ) := by exact_mod_cast Nat.zero_le r
      nlinarith

/-! ## Level scaling and the sine generator stay in range -/

set_option maxRecDepth 100000 in
/-- The constant 0.5 as a `double`. -/
theorem double_lit_half : double_lit 5 10 = .fin 4503599627370496 (-53) := by
  decide

/-- A `double` product between two integer bounds of fewer than 54 digits. -/
theorem double_mul_between (m1 e1 m2 e2 : Int) (G1 G2 : Nat)
    (hG1 : G1 < 2 ^ 53) (hG2 : G2 < 2 ^ 53) (he : e1 + e2 ≤ 1024)
    (hlo : -(G1 : ℚ) ≤ fp_value m1 e1 * fp_value m2 e2)
    (hhi : fp_value m1 e1 * fp_value m2 e2 ≤ (G2 : ℚ)) :
    ∃ m e : Int, double_mul (.fin m1 e1) (.fin m2 e2) = .fin m e
      ∧ -(G1 : ℚ) ≤ fp_value m e ∧ fp_value m e ≤ (G2 : ℚ) ∧ e ≤ 1024 := by
  have v1 : fp_value (G1 : Int) 0 = (G1 : ℚ) := by simp [fp_value]
  have v2 : fp_value (G2 : Int) 0 = (G2 : ℚ) := by simp [fp_value]
  obtain ⟨m, e, h1, h2, h3, h4⟩ := fp_round_between 53 (-1074) 1024 (m1 * m2) (e1 + e2)
    G1 G2 0 0 hG1 hG2 (by decide) (by decide) (by decide) (by decide) he
    (by rw [v1, fp_mul_value]; exact hlo) (by rw [v2, fp_mul_value]; exact hhi)
  rw [v1] at h2
  rw [v2] at h3
  exact ⟨m, e, h1, h2, h3, h4⟩

/-- The step `(int32_t) (v + 0.5)` on a `double` between two integer bounds on either
side of zero: the sum is finite, its integer part is in the `int32_t` range, so that
the conversion is the truncation, and the result lies between the bounds, one unit
inside the lower one. -/
theorem add_half_to_int32 (m1 e1 : Int) (G1 G2 : Nat)
    (hG1 : G1 ≤ 2147483648) (hG2 : G2 ≤ 2147483647)
    (hlo : -(G1 : ℚ) ≤ fp_value m1 e1) (hhi : fp_value m1 e1 ≤ (G2 : ℚ)) :
    ∃ m e : Int, double_add (.fin m1 e1) (double_lit 5 10) = .fin m e
      ∧ -((G1 - 1 : Nat) : Int) ≤ trunc_toward_zero m e ∧ trunc_toward_zero m e ≤ (G2 : Int)
      ∧ double_to_int32 (.fin m e) = trunc_toward_zero m e := by
  have vh : fp_value 4503599627370496 (-53) = 1 / 2 := by
    norm_num [fp_value]
  have v1 : fp_value ((2 * G1 - 1 : Nat) : Int) (-1) = ((2 * G1 - 1 : Nat) : ℚ) / 2 := by
    simp [fp_value]
    ring
  have v2 : fp_value ((2 * G2 + 1 : Nat) : Int) (-1) = ((2 * G2 + 1 : Nat) : ℚ) / 2 := by
    simp [fp_value]
    ring
  have c1 : -(((2 * G1 - 1 : Nat) : ℚ) / 2) ≤ -(G1 : ℚ) + 1 / 2 := by
    rcases Nat.eq_zero_or_pos G1 with h0 | h0
    · subst h0
      norm_num
    · have : ((2 * G1 - 1 : Nat) : ℚ) = 2 * (G1 : ℚ) - 1 := by
        rw [Nat.cast_sub (by omega)]
        push_cast
        ring
      rw [this]
      linarith
  have c2 : (G2 : ℚ) + 1 / 2 ≤ ((2 * G2 + 1 : Nat) : ℚ) / 2 := by
    push_cast
    linarith
  rw [double_lit_half]
  unfold double_add fp_add double_round
  simp only
  obtain ⟨m, e, h1, h2, h3, _⟩ := fp_round_between 53 (-1074) 1024
    (m1 * 2 ^ (e1 - min e1 (-53)).toNat + 4503599627370496 * 2 ^ (-53 - min e1 (-53)).toNat)
    (min e1 (-53)) (2 * G1 - 1) (2 * G2 + 1) (-1) (-1) (by omega) (by omega) (by decide)
    (by decide) (by decide) (by decide) (by omega)
    (by rw [v1, fp_add_value, vh]; linarith) (by rw [v2, fp_add_value, vh]; linarith)
  rw [v1] at h2
  rw [v2] at h3
  have hL : ((-((G1 - 1 : Nat) : Int) : Int) : ℚ) - 1 < fp_value m e := by
    rcases Nat.eq_zero_or_pos G1 with h0 | h0
    · subst h0
      norm_num at h2 ⊢
      linarith
    · have e1 : ((2 * G1 - 1 : Nat) : ℚ) = 2 * (G1 : ℚ) - 1 := by
        rw [Nat.cast_sub (by omega)]
        push_cast
        ring
      have e2 : ((G1 - 1 : Nat) : ℚ) = (G1 : ℚ) - 1 := by
        rw [Nat.cast_sub (by omega)]
        push_cast
        ring
      rw [e1] at h2
      push_cast
      rw [e2]
      linarith
  have hU : fp_value m e < (((G2 : Int) : Int) : ℚ) + 1 := by
    push_cast at h3 ⊢
    linarith
  obtain ⟨t1, t2⟩ := trunc_between m e (-((G1 - 1 : Nat) : Int)) G2 (by omega) (by omega) hL hU
  refine ⟨m, e, h1, t1, t2, ?_⟩
  unfold double_to_int32
  simp only
  rw [if_pos (by omega)]

/-- C36: for every gain that is a finite `double` `mg * 2^eg` with 0 ≤ g ≤ 1 (the
exponent of a `double` datum is at most 1024) and every `int32_t` sample x, the sum
`(double) x * gain + 0.5` of `set_level` is finite, its integer part lies in the
`int32_t` range, so the conversion is defined and `set_level` stores that integer
part, and the magnitude of the result does not exceed the magnitude of x. -/
theorem set_level_no_clipping (fixed : FIXED_PARAMS) (mg eg : Int)
    (hg : fixed.gain = .fin mg eg) (hge : eg ≤ 1024)
    (h0 : 0 ≤ mg) (h1 : fp_value mg eg ≤ 1)
    (hx : -2147483648 ≤ fixed.sample_value ∧ fixed.sample_value < 2147483648) :
    ∃ m e : Int,
      double_add (double_mul (double_of_int fixed.sample_value) fixed.gain) (double_lit 5 10)
        = .fin m e
      ∧ -2147483648 ≤ trunc_toward_zero m e ∧ trunc_toward_zero m e < 2147483648
      ∧ (set_level fixed).sample_value = trunc_toward_zero m e
      ∧ (set_level fixed).sample_value.natAbs ≤ fixed.sample_value.natAbs := by
  have hex := double_of_int_exact fixed.sample_value (by omega)
  have hgv : 0 ≤ fp_value mg eg := by
    unfold fp_value
    have h2 : (0 : ℚ) < 2 ^ eg := zpow_pos (by norm_num) eg
    have : (0 : ℚ) ≤ (mg : ℚ) := by exact_mod_cast h0
    exact mul_nonneg this (le_of_lt h2)
  have hxv : fp_value fixed.sample_value 0 = (fixed.sample_value : ℚ) := by
    simp [fp_value]
  have hc1 : (((-fixed.sample_value).toNat : Nat) : ℚ) = (((-fixed.sample_value).toNat : Int) : ℚ) := by
    push_cast
    rfl
  have hc2 : (((fixed.sample_value).toNat : Nat) : ℚ) = (((fixed.sample_value).toNat : Int) : ℚ) := by
    push_cast
    rfl
  obtain ⟨m1, e1, p1, p2, p3, p4⟩ := double_mul_between fixed.sample_value 0 mg eg
    (-fixed.sample_value).toNat fixed.sample_value.toNat (by omega) (by omega) (by omega)
    (by
      rw [hxv, hc1]
      by_cases hs : fixed.sample_value < 0
      · have e0 : (((-fixed.sample_value).toNat : Nat) : Int) = -fixed.sample_value := by omega
        rw [e0]
        push_cast
        have : (fixed.sample_value : ℚ) < 0 := by exact_mod_cast hs
        nlinarith
      · have e0 : (((-fixed.sample_value).toNat : Nat) : Int) = 0 := by omega
        rw [e0]
        have : (0 : ℚ) ≤ (fixed.sample_value : ℚ) := by exact_mod_cast (not_lt.mp hs)
        push_cast
        nlinarith)
    (by
      rw [hxv, hc2]
      by_cases hs : fixed.sample_value < 0
      · have e0 : ((fixed.sample_value.toNat : Nat) : Int) = 0 := by omega
        rw [e0]
        have : (fixed.sample_value : ℚ) < 0 := by exact_mod_cast hs
        push_cast
        nlinarith
      · have e0 : ((fixed.sample_value.toNat : Nat) : Int) = fixed.sample_value := by omega
        rw [e0]
        have : (0 : ℚ) ≤ (fixed.sample_value : ℚ) := by exact_mod_cast (not_lt.mp hs)
        nlinarith)
  obtain ⟨m, e, q1, q2, q3, q4⟩ := add_half_to_int32 m1 e1 (-fixed.sample_value).toNat
    fixed.sample_value.toNat (by omega) (by omega) p2 p3
  have hsum : double_add (double_mul (double_of_int fixed.sample_value) fixed.gain)
      (double_lit 5 10) = .fin m e := by
    rw [hex, hg, p1, q1]
  refine ⟨m, e, hsum, by omega, by omega, ?_, ?_⟩
  · unfold set_level
    simp only [hsum, q4]
  · unfold set_level
    simp only [hsum, q4]
    omega

set_option maxRecDepth 100000 in
theorem set_level_no_clipping_witness :
    tenth_gain_sample.gain = .fin 7205759403792794 (-56)
    ∧ fp_value 7205759403792794 (-56) ≤ 1
    ∧ tenth_gain_sample.sample_value = 305419896
    ∧ (set_level tenth_gain_sample).sample_value = 30541990
    ∧ (set_level tenth_gain_sample).sample_value.natAbs
        ≤ tenth_gain_sample.sample_value.natAbs := by
  have hv : fp_value 7205759403792794 (-56) ≤ 1 := by
    norm_num [fp_value]
  obtain ⟨m, e, _, _, _, _, h⟩ := set_level_no_clipping tenth_gain_sample
    7205759403792794 (-56) (by decide) (by decide) (by decide) hv (by decide)
  exact ⟨by decide, hv, rfl, by decide, h⟩

/-- A datum of value 0 has the mantissa 0. -/
theorem fp_value_eq_zero (m e : Int) (h : fp_value m e = 0) : m = 0 := by
  unfold fp_value at h
  have h2 : (2 : ℚ) ^ e ≠ 0 := ne_of_gt (zpow_pos (by norm_num) e)
  rcases mul_eq_zero.mp h with h3 | h3
  · exact_mod_cast h3
  · exact absurd h3 h2

/-- A `double` quotient by a positive integer does not pass a representable bound on
the magnitude of the dividend. -/
theorem double_div_le (m1 e1 : Int) (c : Nat) (hc : 1 ≤ c) (G : Nat) (b : Int)
    (hG : G < 2 ^ 53) (hb : -1074 ≤ b) (hmax : 53 + b ≤ 1024) (he : e1 ≤ 1024)
    (h : fp_value m1.natAbs e1 ≤ fp_value G b) :
    ∃ m e : Int, double_div (.fin m1 e1) (.fin c 0) = .fin m e
      ∧ fp_value m.natAbs e ≤ fp_value G b ∧ e ≤ 1024 := by
  unfold double_div fp_div
  simp only
  rw [if_neg (by omega)]
  generalize hk : bit_length (c : Int).natAbs + 64 = k
  have hcn : (c : Int).natAbs = c := Int.natAbs_ofNat c
  rw [hcn]
  generalize m1.natAbs = A at h ⊢
  generalize hsg : (decide (m1 < 0) ^^ decide ((c : Int) < 0)) = sg
  have hpos : 0 < c := hc
  have hd := Nat.div_add_mod (A * 2 ^ k) c
  have hlt := Nat.mod_lt (A * 2 ^ k) hpos
  have ha : 2 * (A * 2 ^ k / c) + (if A * 2 ^ k % c = 0 then 0 else 1)
      ≤ 2 * (A * 2 ^ k) := by
    generalize A * 2 ^ k = n at hd hlt ⊢
    have hq : n / c ≤ n := Nat.div_le_self n c
    by_cases hr : n % c = 0
    · rw [if_pos hr]
      omega
    · rw [if_neg hr]
      have hc2 : 2 ≤ c := by
        by_contra hcc
        have : c = 1 := by omega
        rw [this, Nat.mod_one] at hr
        exact hr rfl
      have : c * (n / c) ≥ 2 * (n / c) := Nat.mul_le_mul_right _ hc2
      omega
  generalize 2 * (A * 2 ^ k / c) + (if A * 2 ^ k % c = 0 then 0 else 1) = a
    at ha ⊢
  have hval : fp_value (a : Int) (e1 - 0 - (k : Int) - 1) ≤ fp_value G b := by
    refine le_trans ?_ h
    unfold fp_value
    have e0 : e1 = (e1 - 0 - (k : Int) - 1) + ((k + 1 : Nat) : Int) := by
      push_cast
      omega
    have h2 : (0 : ℚ) < 2 ^ (e1 - 0 - (k : Int) - 1) := zpow_pos (by norm_num) _
    nth_rewrite 2 [e0]
    rw [zpow_add₀ (by norm_num), zpow_natCast]
    have h3 : (((a : Nat) : Int) : ℚ) ≤ ((A : Int) : ℚ) * 2 ^ (k + 1) := by
      have : ((a : Nat) : ℚ) ≤ ((2 * (A * 2 ^ k) : Nat) : ℚ) := by exact_mod_cast ha
      push_cast at this ⊢
      rw [pow_succ]
      linarith
    calc (((a : Nat) : Int) : ℚ) * 2 ^ (e1 - 0 - (k : Int) - 1)
          ≤ (((A : Int) : ℚ) * 2 ^ (k + 1)) * 2 ^ (e1 - 0 - (k : Int) - 1) :=
            mul_le_mul_of_nonneg_right h3 (le_of_lt h2)
      _ = ((A : Int) : ℚ) * (2 ^ (e1 - 0 - (k : Int) - 1) * 2 ^ (k + 1)) := by ring
  have hnat : ∀ s : Bool, (if s = true then -((a : Nat) : Int) else ((a : Nat) : Int)).natAbs = a := by
    intro s
    cases s <;> simp
  have hnat2 : ∀ (z : Nat) (P : Prop) [Decidable P],
      (if P then -((z : Nat) : Int) else ((z : Nat) : Int)).natAbs = z := by
    intro z P _
    split <;> omega
  obtain ⟨a1, e, r1, r2, r3⟩ := fp_round_le 53 (-1074) 1024
    (if sg = true then -((a : Nat) : Int) else ((a : Nat) : Int)) (e1 - 0 - (k : Int) - 1)
    G b hG hb hmax (by omega) (by rw [hnat]; exact hval)
  refine ⟨_, e, r1, ?_, r3⟩
  rw [hnat2]
  exact r2

set_option maxRecDepth 100000 in
/-- The constant `2.0 * PI` as a `double`. -/
theorem two_pi_double : double_mul (double_lit 2 1) PI = .fin 7074237752051424 (-50) := by
  decide

set_option maxRecDepth 100000 in
/-- `2.0 * PI * 0` is a zero. -/
theorem two_pi_times_zero :
    double_mul (double_mul (double_lit 2 1) PI) (double_of_int 0) = .fin 0 (-50) := by
  decide

/-- The argument that `generate_sine` and `generate_burst` hand to `sin` is a finite
`double` for every 64-bit index and every cycle length of 1 to 2^53 - 1 samples, and a
zero for the index 0. -/
theorem sine_argument_finite (n cyc : Nat) (hn : n < 2 ^ 64) (hc1 : 1 ≤ cyc)
    (hc2 : cyc < 2 ^ 53) :
    ∃ m e : Int,
      double_div (double_mul (double_mul (double_lit 2 1) PI) (double_of_int n))
        (double_of_int cyc) = .fin m e
      ∧ (n = 0 → m = 0) := by
  have hcyc : double_of_int (cyc : Int) = .fin (cyc : Int) 0 :=
    double_of_int_exact _ (by rw [Int.natAbs_ofNat]; exact hc2)
  have v64 : fp_value ((1 : Nat) : Int) 64 = 2 ^ 64 := by
    norm_num [fp_value]
  have v7 : fp_value ((7 : Nat) : Int) 64 = 7 * 2 ^ 64 := by
    norm_num [fp_value]
  have vpi : fp_value 7074237752051424 (-50) ≤ 7 := by
    norm_num [fp_value]
  have vpi0 : 0 ≤ fp_value 7074237752051424 (-50) := by
    norm_num [fp_value]
  -- the index as a double
  obtain ⟨a1, e1, s1, s2, s3⟩ := fp_round_le 53 (-1074) 1024 (n : Int) 0 1 64
    (by decide) (by decide) (by decide) (by decide)
    (by
      rw [Int.natAbs_ofNat, v64]
      unfold fp_value
      rw [zpow_zero, mul_one]
      have : ((n : Nat) : ℚ) ≤ ((2 ^ 64 : Nat) : ℚ) := by exact_mod_cast (le_of_lt hn)
      push_cast at this ⊢
      exact this)
  rw [if_neg (by omega)] at s1
  rw [v64] at s2
  have hidx : double_of_int (n : Int) = .fin a1 e1 := s1
  have n1 := fp_value_nonneg a1 e1
  -- times 2 PI
  obtain ⟨a2, e2, t1, t2, t3⟩ := fp_round_le 53 (-1074) 1024 (7074237752051424 * (a1 : Int))
    (-50 + e1) 7 64 (by decide) (by decide) (by decide) (by omega)
    (by
      have : ((7074237752051424 * (a1 : Int)).natAbs : Int) = 7074237752051424 * (a1 : Int) := by
        omega
      rw [this, fp_mul_value, v7]
      nlinarith)
  rw [if_neg (by omega)] at t1
  have hmul : double_mul (double_mul (double_lit 2 1) PI) (double_of_int (n : Int))
      = .fin a2 e2 := by
    rw [two_pi_double, hidx]
    exact t1
  by_cases h0 : n = 0
  · subst h0
    have hz : fp_value ((0 : Int).natAbs : Int) (-50) ≤ fp_value ((0 : Nat) : Int) 0 := by
      simp [fp_value]
    obtain ⟨m, e, d1, d2, _⟩ := double_div_le 0 (-50) cyc hc1 0 0 (by decide) (by decide)
      (by decide) (by decide) hz
    refine ⟨m, e, ?_, fun _ => ?_⟩
    · have : ((0 : Nat) : Int) = 0 := rfl
      rw [this, two_pi_times_zero, hcyc]
      exact d1
    · have hv : fp_value (m.natAbs : Int) e = 0 := by
        have := fp_value_nonneg m.natAbs e
        have h9 : fp_value ((0 : Nat) : Int) 0 = 0 := by simp [fp_value]
        rw [h9] at d2
        linarith
      have := fp_value_eq_zero _ _ hv
      omega
  · obtain ⟨m, e, d1, _, _⟩ := double_div_le a2 e2 cyc hc1 7 64 (by decide) (by decide)
      (by decide) t3 (by rw [Int.natAbs_ofNat]; exact t2)
    exact ⟨m, e, by rw [hmul, hcyc]; exact d1, fun h => absurd h h0⟩

/-- The comparison `x > y` of two finite data holds only when the value of `x` is
the greater one. -/
theorem fp_gt_value (m1 e1 m2 e2 : Int) (h : fp_gt (.fin m1 e1) (.fin m2 e2) = true) :
    fp_value m2 e2 < fp_value m1 e1 := by
  unfold fp_gt fp_lt at h
  simp only [decide_eq_true_eq] at h
  have h2 : (2 : ℚ) ≠ 0 := by norm_num
  have k1 : e1 = min e2 e1 + ((e1 - min e2 e1).toNat : Int) := by omega
  have k2 : e2 = min e2 e1 + ((e2 - min e2 e1).toNat : Int) := by omega
  generalize min e2 e1 = e at k1 k2 h
  generalize (e1 - e).toNat = d1 at k1 h
  generalize (e2 - e).toNat = d2 at k2 h
  unfold fp_value
  rw [k1, k2, zpow_add₀ h2, zpow_add₀ h2, zpow_natCast, zpow_natCast]
  have hq : ((m2 * 2 ^ d2 : Int) : ℚ) < ((m1 * 2 ^ d1 : Int) : ℚ) := by exact_mod_cast h
  push_cast at hq
  have hp : (0 : ℚ) < 2 ^ e := zpow_pos (by norm_num) e
  calc (m2 : ℚ) * (2 ^ e * 2 ^ d2) = ((m2 : ℚ) * 2 ^ d2) * 2 ^ e := by ring
    _ < ((m1 : ℚ) * 2 ^ d1) * 2 ^ e := mul_lt_mul_of_pos_right hq hp
    _ = (m1 : ℚ) * (2 ^ e * 2 ^ d1) := by ring

/-- C34: with a sine function whose values at finite arguments are finite `double`
data in [-1, 1] and which is 0 at 0 (as the real sine, rounded to `double`), for every
64-bit sample index and every configuration with 1 ≤ f ≤ r/2 (r a 32-bit number),
`generate_sine` returns, its output lies within [-MAX_LEVEL, MAX_LEVEL], and the
output at sample index 0 is 0. -/
theorem generate_sine_range (sin : IEEE → IEEE) (fixed : FIXED_PARAMS)
    (user : COMMON_USER_PARAMS)
    (hsin : ∀ m e : Int, ∃ ms es : Int, sin (.fin m e) = .fin ms es ∧ es ≤ 1024
      ∧ -1 ≤ fp_value ms es ∧ fp_value ms es ≤ 1 ∧ (m = 0 → ms = 0))
    (hf1 : 1 ≤ user.frequency_hz) (hf2 : user.frequency_hz ≤ user.sample_rate / 2)
    (hr : user.sample_rate < 2 ^ 32) (hn : fixed.sample_number < 2 ^ 64) :
    ∃ f1, generate_sine sin fixed user = some f1
      ∧ -MAX_LEVEL_32BIT ≤ f1.sample_value ∧ f1.sample_value ≤ MAX_LEVEL_32BIT
      ∧ (fixed.sample_number = 0 → f1.sample_value = 0) := by
  have hcyc1 : 1 ≤ user.sample_rate / user.frequency_hz := by
    rw [Nat.le_div_iff_mul_le (by omega)]
    omega
  have hcyc2 : user.sample_rate / user.frequency_hz < 2 ^ 53 :=
    lt_of_le_of_lt (Nat.div_le_self _ _) (by omega)
  have hud : udiv user.sample_rate user.frequency_hz
      = some (user.sample_rate / user.frequency_hz) := by
    unfold udiv
    rw [if_neg (by omega)]
  have hM : MAX_LEVEL_32BIT = 2147483647 := rfl
  have hmaxd : double_of_int MAX_LEVEL_32BIT = .fin 2147483647 0 := by
    rw [hM]
    exact double_of_int_exact _ (by decide)
  have vM : fp_value 2147483647 0 = 2147483647 := by
    norm_num [fp_value]
  obtain ⟨m, e, harg, hz⟩ := sine_argument_finite fixed.sample_number
    (user.sample_rate / user.frequency_hz) hn hcyc1 hcyc2
  obtain ⟨ms, es, hs1, hs2, hs3, hs4, hs5⟩ := hsin m e
  -- the bound of the product: 0 at index 0
  obtain ⟨G, hG, hGlo, hGhi, hG0⟩ : ∃ G : Nat, G ≤ 2147483647
      ∧ -(G : ℚ) ≤ fp_value ms es * fp_value 2147483647 0
      ∧ fp_value ms es * fp_value 2147483647 0 ≤ (G : ℚ)
      ∧ (fixed.sample_number = 0 → G = 0) := by
    by_cases h0 : fixed.sample_number = 0
    · refine ⟨0, by decide, ?_, ?_, fun _ => rfl⟩
      · rw [hs5 (hz h0)]
        simp [fp_value]
      · rw [hs5 (hz h0)]
        simp [fp_value]
    · refine ⟨2147483647, Nat.le_refl _, ?_, ?_, fun h => absurd h h0⟩
      · rw [vM]
        push_cast
        linarith
      · rw [vM]
        push_cast
        linarith
  obtain ⟨m1, e1, p1, p2, p3, p4⟩ := double_mul_between ms es 2147483647 0 G G
    (by omega) (by omega) (by omega) hGlo hGhi
  have hclamp : fp_gt (.fin m1 e1) (.fin 2147483647 0) = false := by
    cases hc : fp_gt (.fin m1 e1) (.fin 2147483647 0) with
    | false => rfl
    | true =>
        have h1 := fp_gt_value _ _ _ _ hc
        rw [vM] at h1
        have h2 : (G : ℚ) ≤ 2147483647 := by exact_mod_cast hG
        linarith
  obtain ⟨m2, e2, q1, q2, q3, q4⟩ := add_half_to_int32 m1 e1 G G (by omega) hG p2 p3
  unfold generate_sine
  simp only [hud, Option.bind_eq_bind, Option.some_bind, harg, hs1, hmaxd, p1, hclamp,
    Bool.false_eq_true, if_false, q1, q4]
  refine ⟨_, rfl, ?_, ?_, ?_⟩
  · show -MAX_LEVEL_32BIT ≤ trunc_toward_zero m2 e2
    rw [hM]
    omega
  · show trunc_toward_zero m2 e2 ≤ MAX_LEVEL_32BIT
    rw [hM]
    omega
  · intro h0
    show trunc_toward_zero m2 e2 = 0
    have := hG0 h0
    subst this
    omega

set_option maxRecDepth 100000 in
theorem generate_sine_range_witness :
    (1 ≤ sine_user.frequency_hz ∧ sine_user.frequency_hz ≤ sine_user.sample_rate / 2)
    ∧ (generate_sine sin_sign { check_fixed with sample_number := 5 } sine_user).map
        (fun f => f.sample_value) = some 2147483647
    ∧ (generate_sine sin_sign check_fixed sine_user).map (fun f => f.sample_value)
        = some 0 := by
  have hs : ∀ m e : Int, ∃ ms es : Int, sin_sign (.fin m e) = .fin ms es ∧ es ≤ 1024
      ∧ -1 ≤ fp_value ms es ∧ fp_value ms es ≤ 1 ∧ (m = 0 → ms = 0) := by
    intro m e
    refine ⟨Int.sign m, 0, rfl, by decide, ?_, ?_, fun h => by rw [h]; rfl⟩
    · rcases lt_trichotomy m 0 with h | h | h
      · rw [Int.sign_eq_neg_one_of_neg h]
        norm_num [fp_value]
      · rw [h]
        norm_num [fp_value]
      · rw [Int.sign_eq_one_of_pos h]
        norm_num [fp_value]
    · rcases lt_trichotomy m 0 with h | h | h
      · rw [Int.sign_eq_neg_one_of_neg h]
        norm_num [fp_value]
      · rw [h]
        norm_num [fp_value]
      · rw [Int.sign_eq_one_of_pos h]
        norm_num [fp_value]
  obtain ⟨f1, h1, _, _, h4⟩ := generate_sine_range sin_sign check_fixed sine_user hs
    (by decide) (by decide) (by decide) (by decide)
  refine ⟨by decide, by decide, ?_⟩
  rw [h1]
  exact congrArg some (h4 rfl)

end Wavgen
